import Mathlib

/-!
# A shallow embedding of the streaming JSON writer (`json.c`, `json.h`)

The writer fills a caller-supplied buffer of fixed capacity.  The embedding
keeps the fields of `struct json`:

* `buffer` holds the bytes lying between the C pointers `buffer` and `p`, so
  the cursor offset `p - buffer` is `buffer.length`; bytes that the C code
  stores at or after the cursor without advancing it (the terminating NUL of
  `vsnprintf` / `sprintf`) are not part of it;
* `len`, `avalaible`, `level` and `reserved` are C `int`s, modelled in `Int`
  (executions in which no C integer overflows);
* `do_write`, `do_indent`, `is_first` only ever hold 0 or 1 and are `Bool`;
* `stack` is the array `stack[JSON_STACK_DEEP]`, a function of the index;
* a `char` is its integer value (`CChar`), whatever the signedness of `char`;
* a `(const char *, int len)` pair is a list of `CChar` (its length is `len`,
  hence non-negative); a `printf` format with its arguments is the text it
  expands to, or `none` when `vsnprintf` reports an error (`-1`).

`json_close_all` loops while `level > 0`; the loop does not terminate when
`do_write` is cleared, so the functions that may call it return an `Option`.
-/

namespace JsonWriter

/-- The value of a C `char`. -/
abbrev CChar := Int

/-- The bytes of an ASCII text. -/
def cstr (s : String) : List CChar := s.toList.map (fun c => (c.toNat : Int))

def JSON_STACK_DEEP : Int := 20

inductive json_types where
  | JSON_ANY
  | JSON_STRING
  | JSON_NUMBER
  | JSON_OBJECT
  | JSON_ATTR
  | JSON_ARRAY
  | JSON_TRUE
  | JSON_FALSE
  | JSON_NULL
  deriving DecidableEq

open json_types

structure json_stack where
  is_first : Bool
  reserved : Int
  elt : json_types
  deriving DecidableEq

@[ext]
structure json where
  buffer : List CChar
  len : Int
  avalaible : Int
  do_write : Bool
  do_indent : Bool
  level : Int
  stack : Int → json_stack

/-- The cursor `p`, as an offset from the start of the buffer. -/
def json.p (j : json) : Int := j.buffer.length

/-- Assignment `stack[i] = v`. -/
def stack_set (s : Int → json_stack) (i : Int) (v : json_stack) : Int → json_stack :=
  fun k => if k = i then v else s k

/-- A zeroed `struct json`, used where a concrete preallocated struct is needed. -/
def json_zero : json :=
  { buffer := [], len := 0, avalaible := 0, do_write := false, do_indent := false,
    level := 0, stack := fun _ => ⟨false, 0, JSON_ANY⟩ }

/-- The struct is preallocated by the caller; `json_init` assigns every field but
`stack[1..]`, which keeps whatever it held. -/
def json_init (j : json) (len : Int) (do_indent : Int) : json :=
  { buffer := []
    len := len
    avalaible := len
    do_indent := decide (do_indent ≠ 0)
    level := 0
    stack := stack_set j.stack 0 ⟨true, 0, JSON_ANY⟩
    do_write := true }

def json_reserve (j : json) (len : Int) : json :=
  { j with avalaible := j.avalaible - len }

def json_unreserve (j : json) (len : Int) : json :=
  { j with avalaible := j.avalaible + len }

def json_cat_pchar_noctl (j : json) (cat : List CChar) : json :=
  { j with buffer := j.buffer ++ cat, avalaible := j.avalaible - cat.length }

def json_add_char_noctl (j : json) (c : CChar) : json :=
  { j with buffer := j.buffer ++ [c], avalaible := j.avalaible - 1 }

/-- The test `elt == JSON_OBJECT || elt == JSON_ARRAY` of the indentation loops. -/
def is_indented (e : json_types) : Bool := e = JSON_OBJECT || e = JSON_ARRAY

/-- The loop `for (i=0; i<n; i++) if (stack[i] is object or array) len++`. -/
def count_tabs (s : Int → json_stack) : Nat → Nat
  | 0 => 0
  | n + 1 => count_tabs s n + (if is_indented (s (n : Int)).elt then 1 else 0)

/-- The loop `for (i=0; i<n; i++) if (stack[i] is object or array) json_add_char_noctl('\t')`. -/
def write_tabs (j : json) : Nat → json
  | 0 => j
  | n + 1 =>
    let j1 := write_tabs j n
    if is_indented (j1.stack (n : Int)).elt then json_add_char_noctl j1 9 else j1

def json_check_separator_len (j : json) : Int :=
  if (j.stack j.level).elt = JSON_ATTR then 0
  else
    let len : Int := if (j.stack j.level).is_first then 0 else 1
    if j.do_indent then
      let len : Int := if j.level > 0 then len + 1 else len
      len + (count_tabs j.stack (j.level + 1).toNat : Int)
    else len

def json_check_separator_write (j : json) : json :=
  if (j.stack j.level).elt = JSON_ATTR then j
  else
    let j1 := if (j.stack j.level).is_first then j else json_add_char_noctl j 44
    if j1.do_indent then
      let j2 := if j1.level > 0 then json_add_char_noctl j1 10 else j1
      write_tabs j2 (j2.level + 1).toNat
    else j1

def json_pop (j : json) : json :=
  if !j.do_write then j
  else if j.level ≤ 0 then j
  else
    let j1 := json_unreserve j (j.stack j.level).reserved
    let j2 :=
      if j1.do_indent then
        if (j1.stack j1.level).elt ≠ JSON_STRING ∧ (j1.stack j1.level).elt ≠ JSON_ATTR then
          write_tabs (json_add_char_noctl j1 10) j1.level.toNat
        else j1
      else j1
    let j3 :=
      match (j2.stack j2.level).elt with
      | JSON_OBJECT => json_add_char_noctl j2 125
      | JSON_ARRAY => json_add_char_noctl j2 93
      | JSON_STRING => json_add_char_noctl j2 34
      | JSON_ATTR =>
        if (j2.stack j2.level).is_first then json_cat_pchar_noctl j2 (cstr "null") else j2
      | _ => j2
    { j3 with level := j3.level - 1 }

def json_finalize (j : json) : json :=
  if !j.do_write then j
  else if j.avalaible < 1 then j
  else if j.do_indent then json_add_char_noctl j 10
  else j

/-- The loop `while (level > 0) json_pop(json)`, run for at most `fuel` iterations;
`none` when the loop has not ended by then. -/
def json_close_all_loop : Nat → json → Option json
  | 0, j => if j.level > 0 then none else some j
  | fuel + 1, j => if j.level > 0 then json_close_all_loop fuel (json_pop j) else some j

/-- Each `json_pop` of a write-enabled writer lowers `level` by one, so `level` iterations
are enough for the loop to end whenever it ends at all. -/
def json_close_all (j : json) : Option json :=
  (json_close_all_loop j.level.toNat j).map (fun j1 => { j1 with do_write := false })

/-- The C library `isprint` in the "C" locale. -/
def isprint (c : Int) : Bool := decide (32 ≤ c ∧ c ≤ 126)

def json_escape_char_get_len : List CChar → Int
  | [] => 0
  | c :: data =>
    (if c = 34 then 2
     else if c = 92 then 2
     else if c = 47 then 2
     else if c = 8 then 2
     else if c = 12 then 2
     else if c = 13 then 2
     else if c = 10 then 2
     else if c = 9 then 2
     else if !isprint c then 6
     else 1) + json_escape_char_get_len data

/-- One hexadecimal digit, lower case. -/
def hex_digit (n : Nat) : CChar := ((if n < 10 then 48 + (n : Int) else 87 + (n : Int)) : Int)

/-- The text `sprintf` produces for `"%04x"`: the `int` argument is read as a 32 bit
unsigned value and printed with at least four digits. -/
def sprintf_04x (v : Int) : List CChar :=
  let u : Nat := (v % 4294967296).toNat
  let hi : List Nat := [u / 268435456 % 16, u / 16777216 % 16, u / 1048576 % 16, u / 65536 % 16]
  let lo : List Nat := [u / 4096 % 16, u / 256 % 16, u / 16 % 16, u % 16]
  ((hi.dropWhile (fun d => d = 0)) ++ lo).map hex_digit

/-- The two stores `p[0] = a; p[1] = b; avalaible -= 2; p += 2`. -/
def json_put2 (j : json) (a b : CChar) : json :=
  { j with buffer := j.buffer ++ [a, b], avalaible := j.avalaible - 2 }

def json_escape_char_len (j : json) : List CChar → Option json
  | [] => some j
  | c :: data =>
    if c = 34 then
      if j.avalaible < 2 then json_close_all j else json_escape_char_len (json_put2 j 92 34) data
    else if c = 92 then
      if j.avalaible < 2 then json_close_all j else json_escape_char_len (json_put2 j 92 92) data
    else if c = 47 then
      if j.avalaible < 2 then json_close_all j else json_escape_char_len (json_put2 j 92 47) data
    else if c = 8 then
      if j.avalaible < 2 then json_close_all j else json_escape_char_len (json_put2 j 92 98) data
    else if c = 12 then
      if j.avalaible < 2 then json_close_all j else json_escape_char_len (json_put2 j 92 102) data
    else if c = 13 then
      if j.avalaible < 2 then json_close_all j else json_escape_char_len (json_put2 j 92 114) data
    else if c = 10 then
      if j.avalaible < 2 then json_close_all j else json_escape_char_len (json_put2 j 92 110) data
    else if c = 9 then
      if j.avalaible < 2 then json_close_all j else json_escape_char_len (json_put2 j 92 116) data
    else if !isprint c then
      if j.avalaible < 6 + 1 then json_close_all j
      else
        let j1 := json_put2 j 92 117
        -- `sprintf` stores its whole text and a NUL at `p`; the cursor moves on by 4
        let j2 := { j1 with buffer := j1.buffer ++ (sprintf_04x c).take 4,
                            avalaible := j1.avalaible - 4 }
        json_escape_char_len j2 data
    else
      if j.avalaible < 1 then json_close_all j
      else json_escape_char_len
        { j with buffer := j.buffer ++ [c], avalaible := j.avalaible - 1 } data

/-- The value of `write_size` when `json_push` compares it with `avalaible`. -/
def json_push_write_size (j : json) (elt : json_types) (name : List CChar) : Int :=
  let write_size : Int := 0 + json_check_separator_len j
  let write_size : Int :=
    if elt = JSON_ATTR then write_size + (3 + json_escape_char_get_len name) else write_size
  write_size + 1

/-- The value of `close_size` when `json_push` compares it with `avalaible`. -/
def json_push_close_size (j : json) (elt : json_types) : Int :=
  let indent : Int :=
    if j.do_indent then
      if (j.stack j.level).elt ≠ JSON_ATTR then (count_tabs j.stack (j.level + 1).toNat : Int)
      else 0
    else 0
  let close_size : Int :=
    if j.do_indent then
      if elt ≠ JSON_STRING ∧ elt ≠ JSON_ATTR then 0 + (1 + indent) else 0
    else 0
  let close_size : Int := if elt = JSON_ATTR then close_size + (4 - 1) else close_size
  close_size + 1

def json_push (j : json) (elt : json_types) (name : List CChar) : Option json :=
  if !j.do_write then some j
  else if j.level ≥ JSON_STACK_DEEP - 1 then some j
  else if ¬ (elt = JSON_ATTR ∨ elt = JSON_OBJECT ∨ elt = JSON_ARRAY ∨ elt = JSON_STRING) then some j
  else if (j.stack j.level).elt = JSON_STRING then some j
  else
    let write_size := json_push_write_size j elt name
    let close_size := json_push_close_size j elt
    if j.avalaible < write_size + close_size then json_close_all j
    else
      let j1 := json_check_separator_write j
      let opened : Option json :=
        match elt with
        | JSON_OBJECT => some (json_add_char_noctl j1 123)
        | JSON_ARRAY => some (json_add_char_noctl j1 91)
        | JSON_STRING => some (json_add_char_noctl j1 34)
        | JSON_ATTR =>
          (json_escape_char_len (json_add_char_noctl j1 34) name).map
            (fun j2 => json_cat_pchar_noctl j2 [34, 58])
        | _ => some j1
      opened.map (fun j2 =>
        let s1 := stack_set j2.stack j2.level { j2.stack j2.level with is_first := false }
        let level := j2.level + 1
        let s2 := stack_set s1 level ⟨true, close_size, elt⟩
        json_reserve { j2 with stack := s2, level := level } close_size)

/-- The argument `txt` is the expansion of the format, `none` when `vsnprintf` returns -1. -/
def json_printf (j : json) (txt : Option (List CChar)) : Option json :=
  if !j.do_write then some j
  else if (j.stack j.level).elt ≠ JSON_STRING then some j
  else
    match txt with
    | none => json_close_all j
    | some t =>
      if (t.length : Int) + 1 > j.avalaible then json_close_all j
      else some { j with buffer := j.buffer ++ t, avalaible := j.avalaible - t.length }

def json_cat_pchar (j : json) (cat : List CChar) : Option json :=
  if !j.do_write then some j
  else if (j.stack j.level).elt ≠ JSON_STRING then some j
  else if (cat.length : Int) > j.avalaible then json_close_all j
  else some { j with buffer := j.buffer ++ cat, avalaible := j.avalaible - cat.length }

def json_cat_escaped_pchar (j : json) (cat : List CChar) : Option json :=
  if !j.do_write then some j
  else if (j.stack j.level).elt ≠ JSON_STRING then some j
  else if json_escape_char_get_len cat > j.avalaible then json_close_all j
  else json_escape_char_len j cat

def json_string_printf (j : json) (txt : Option (List CChar)) : Option json :=
  if !j.do_write then some j
  else
    (json_push j JSON_STRING []).bind (fun j1 =>
      match txt with
      | none => json_close_all j1
      | some t =>
        if (t.length : Int) + 1 > j1.avalaible then json_close_all j1
        else
          some (json_pop { j1 with buffer := j1.buffer ++ t,
                                   avalaible := j1.avalaible - t.length }))

def json_string_cat_pchar (j : json) (cat : List CChar) : Option json :=
  (json_push j JSON_STRING []).bind (fun j1 =>
    (json_cat_pchar j1 cat).map json_pop)

def json_string_cat_escaped_pchar (j : json) (cat : List CChar) : Option json :=
  (json_push j JSON_STRING []).bind (fun j1 =>
    (json_cat_escaped_pchar j1 cat).map json_pop)

def json_number_cat_pchar (j : json) (cat : List CChar) : Option json :=
  if !j.do_write then some j
  else if (cat.length : Int) + json_check_separator_len j > j.avalaible then json_close_all j
  else
    let j1 := json_cat_pchar_noctl (json_check_separator_write j) cat
    some { j1 with stack := stack_set j1.stack j1.level
                     { j1.stack j1.level with is_first := false } }

def json_number_printf (j : json) (txt : Option (List CChar)) : Option json :=
  if !j.do_write then some j
  else
    match txt with
    | none => json_close_all j
    | some t =>
      if (t.length : Int) + json_check_separator_len j + 1 > j.avalaible then json_close_all j
      else
        let j1 := json_check_separator_write j
        let j2 := { j1 with buffer := j1.buffer ++ t, avalaible := j1.avalaible - t.length }
        some { j2 with stack := stack_set j2.stack j2.level
                         { j2.stack j2.level with is_first := false } }

/-- The decimal digits of a natural number, most significant first. -/
def decimal_digits : Nat → Nat → List CChar
  | 0, _ => []
  | fuel + 1, n =>
    if n < 10 then [48 + (n : Int)] else decimal_digits fuel (n / 10) ++ [48 + ((n % 10 : Nat) : Int)]

/-- The expansion of the format `"%d"`. -/
def format_d (n : Int) : List CChar :=
  if n < 0 then 45 :: decimal_digits (n.natAbs + 1) n.natAbs
  else decimal_digits (n.natAbs + 1) n.natAbs

def json_number_int (j : json) (number : Int) : Option json :=
  json_number_printf j (some (format_d number))

/-- The argument `txt` is the expansion of `"%lf"` for the number (floating point
formatting is left to the C library). -/
def json_number_double (j : json) (txt : List CChar) : Option json :=
  json_number_printf j (some txt)

/-- The three literal emitters pass a text and the length 4 to `json_number_cat_pchar`,
which copies the first 4 bytes of the text. -/
def json_add_true (j : json) : Option json :=
  json_number_cat_pchar j ((cstr "true").take 4)

def json_add_false (j : json) : Option json :=
  json_number_cat_pchar j ((cstr "false").take 4)

def json_add_null (j : json) : Option json :=
  json_number_cat_pchar j ((cstr "null").take 4)

/-- The operations of the writer's interface after `json_init`. -/
inductive json_op where
  | push (elt : json_types) (name : List CChar)
  | pop
  | finalize
  | printf (txt : Option (List CChar))
  | cat_pchar (cat : List CChar)
  | cat_escaped_pchar (cat : List CChar)
  | string_printf (txt : Option (List CChar))
  | string_cat_pchar (cat : List CChar)
  | string_cat_escaped_pchar (cat : List CChar)
  | number_cat_pchar (cat : List CChar)
  | number_printf (txt : Option (List CChar))
  | number_int (number : Int)
  | number_double (txt : List CChar)
  | add_true
  | add_false
  | add_null

/-- One call of the interface. -/
def json_call (j : json) : json_op → Option json
  | .push elt name => json_push j elt name
  | .pop => some (json_pop j)
  | .finalize => some (json_finalize j)
  | .printf txt => json_printf j txt
  | .cat_pchar cat => json_cat_pchar j cat
  | .cat_escaped_pchar cat => json_cat_escaped_pchar j cat
  | .string_printf txt => json_string_printf j txt
  | .string_cat_pchar cat => json_string_cat_pchar j cat
  | .string_cat_escaped_pchar cat => json_string_cat_escaped_pchar j cat
  | .number_cat_pchar cat => json_number_cat_pchar j cat
  | .number_printf txt => json_number_printf j txt
  | .number_int number => json_number_int j number
  | .number_double txt => json_number_double j txt
  | .add_true => json_add_true j
  | .add_false => json_add_false j
  | .add_null => json_add_null j

/-- A sequence of calls, one after the other. -/
def json_calls (j : json) : List json_op → Option json
  | [] => some j
  | o :: os => (json_call j o).bind (fun j1 => json_calls j1 os)

/-! ## Derived descriptions of the bytes each routine stores -/

/-- The bytes `json_escape_char_len` stores for one input character. -/
def escape_char (c : CChar) : List CChar :=
  if c = 34 then [92, 34]
  else if c = 92 then [92, 92]
  else if c = 47 then [92, 47]
  else if c = 8 then [92, 98]
  else if c = 12 then [92, 102]
  else if c = 13 then [92, 114]
  else if c = 10 then [92, 110]
  else if c = 9 then [92, 116]
  else if !isprint c then 92 :: 117 :: (sprintf_04x c).take 4
  else [c]

/-- The number of available bytes `json_escape_char_len` asks for before it stores the
escape of one character. -/
def escape_need (c : CChar) : Int :=
  if c = 34 then 2
  else if c = 92 then 2
  else if c = 47 then 2
  else if c = 8 then 2
  else if c = 12 then 2
  else if c = 13 then 2
  else if c = 10 then 2
  else if c = 9 then 2
  else if !isprint c then 6 + 1
  else 1

/-- The bytes `json_escape_char_len` stores for a whole text when nothing stops it. -/
def escaped : List CChar → List CChar
  | [] => []
  | c :: data => escape_char c ++ escaped data

/-- The bytes `json_check_separator_write` stores. -/
def separator (j : json) : List CChar :=
  if (j.stack j.level).elt = JSON_ATTR then []
  else
    (if (j.stack j.level).is_first then [] else [44]) ++
    (if j.do_indent then
      (if j.level > 0 then [10] else []) ++
        List.replicate (count_tabs j.stack (j.level + 1).toNat) 9
     else [])

/-- The bytes `json_pop` stores when it closes the top frame. -/
def closing (j : json) : List CChar :=
  (if j.do_indent ∧ (j.stack j.level).elt ≠ JSON_STRING ∧ (j.stack j.level).elt ≠ JSON_ATTR then
      10 :: List.replicate (count_tabs j.stack j.level.toNat) 9
    else []) ++
  (match (j.stack j.level).elt with
    | JSON_OBJECT => [125]
    | JSON_ARRAY => [93]
    | JSON_STRING => [34]
    | JSON_ATTR => if (j.stack j.level).is_first then cstr "null" else []
    | _ => [])

/-- The bytes `json_push` stores after the separator for an element it accepts. -/
def opening (elt : json_types) (name : List CChar) : List CChar :=
  match elt with
  | JSON_OBJECT => [123]
  | JSON_ARRAY => [91]
  | JSON_STRING => [34]
  | JSON_ATTR => 34 :: escaped name ++ [34, 58]
  | _ => []

/-- The element is one of the four kinds `json_push` accepts. -/
def is_pushable (elt : json_types) : Bool :=
  elt = JSON_ATTR || elt = JSON_OBJECT || elt = JSON_ARRAY || elt = JSON_STRING

/-- The `level` of the writer is a valid index of `stack`, and a writer that has stopped
writing has no open frame. -/
def level_ok (j : json) : Prop :=
  0 ≤ j.level ∧ j.level < JSON_STACK_DEEP ∧ (j.do_write = false → j.level = 0)

/-! ## Concrete writers used as instances -/

/-- A writer truncated by a push that found no room: capacity 1, no indentation. -/
def truncated_writer : json := { json_init json_zero 1 0 with do_write := false }

/-- A writer of capacity 3 in which an object has been opened: `{` is stored, one byte is
reserved for the closing brace and one byte is left. -/
def object_open_writer : json :=
  { buffer := [123], len := 3, avalaible := 1, do_write := true, do_indent := false, level := 1,
    stack := stack_set (stack_set json_zero.stack 0 ⟨false, 0, JSON_ANY⟩) 1 ⟨true, 1, JSON_OBJECT⟩ }

/-- A writer of capacity 14 in which an object has been opened: `{` is stored, one byte is
reserved for the closing brace and 12 bytes are left. -/
def object_open_writer_12 : json :=
  { buffer := [123], len := 14, avalaible := 12, do_write := true, do_indent := false,
    level := 1,
    stack := stack_set (stack_set json_zero.stack 0 ⟨false, 0, JSON_ANY⟩) 1 ⟨true, 1, JSON_OBJECT⟩ }

/-! ## Documents used to state the layout claims -/

/-- The calls writing one attribute whose value is an already formatted number. -/
def attr_number_calls (p : List CChar × List CChar) : List json_op :=
  [.push JSON_ATTR p.1, .number_cat_pchar p.2, .pop]

/-- The calls writing the attributes of a list, one after the other. -/
def attrs_calls : List (List CChar × List CChar) → List json_op
  | [] => []
  | p :: ps => attr_number_calls p ++ attrs_calls ps

/-- The calls writing an object of such attributes. -/
def object_calls (ps : List (List CChar × List CChar)) : List json_op :=
  .push JSON_OBJECT [] :: (attrs_calls ps ++ [.pop])

/-- The text of one attribute: the quoted escaped name, a colon, the number. -/
def attr_number_text (p : List CChar × List CChar) : List CChar :=
  34 :: escaped p.1 ++ [34, 58] ++ p.2

/-- Texts joined by single commas. -/
def join_commas : List (List CChar) → List CChar
  | [] => []
  | [x] => x
  | x :: y :: xs => x ++ 44 :: join_commas (y :: xs)

/-- The text of the object: the attributes joined by commas, between braces. -/
def object_text (ps : List (List CChar × List CChar)) : List CChar :=
  123 :: join_commas (ps.map attr_number_text) ++ [125]

/-- The attributes as the writer stores them: each but a first one preceded by a comma. -/
def items_text : Bool → List (List CChar × List CChar) → List CChar
  | _, [] => []
  | first, p :: ps => (if first then [] else [44]) ++ attr_number_text p ++ items_text false ps

/-- What precedes a child of an object or array on an indenting writer: a comma unless the
child is the first one, a newline, and one tab for each object or array frame among
`stack[0..level]` (the frames open at that moment). -/
def child_lead (j : json) : List CChar :=
  (if (j.stack j.level).is_first then [] else [44]) ++
    10 :: List.replicate (count_tabs j.stack (j.level + 1).toNat) 9

/-- What precedes the closing byte of an object or array on an indenting writer: a newline
and one tab for each object or array frame among `stack[0..level-1]` (the enclosing ones). -/
def close_lead (j : json) : List CChar :=
  10 :: List.replicate (count_tabs j.stack j.level.toNat) 9

/-- The calls writing the object with the attributes a = 1 and b = 2. -/
def object_ab_calls : List json_op :=
  object_calls [(cstr "a", cstr "1"), (cstr "b", cstr "2")]

/-- An indenting writer of capacity 64 in which an object has been opened: `{` is stored and
two bytes are reserved for the newline and the closing brace. -/
def indent_object_writer : json :=
  { buffer := [123], len := 64, avalaible := 61, do_write := true, do_indent := true,
    level := 1,
    stack := stack_set (stack_set json_zero.stack 0 ⟨false, 0, JSON_ANY⟩) 1 ⟨true, 2, JSON_OBJECT⟩ }

/-- Four nested arrays, an object, its attribute `a`, an object as the attribute's value,
and one more push of an object (which finds no room on a writer of capacity 56). -/
def nested_push_calls : List json_op :=
  [.push JSON_ARRAY [], .push JSON_ARRAY [], .push JSON_ARRAY [], .push JSON_ARRAY [],
   .push JSON_OBJECT [], .push JSON_ATTR (cstr "a"), .push JSON_OBJECT [], .push JSON_OBJECT []]

/-- An object, its attribute `a`, an object as the attribute's value, and the pop of
that object. -/
def object_in_attr_calls : List json_op :=
  [.push JSON_OBJECT [], .push JSON_ATTR (cstr "a"), .push JSON_OBJECT [], .pop]

/-! ## The JSON grammar (RFC 8259), on the bytes of a text -/

/-- JSON whitespace: space, tab, line feed, carriage return. -/
def is_ws (c : Int) : Bool := c = 32 || c = 9 || c = 10 || c = 13

def all_ws (s : List CChar) : Bool := s.all is_ws

def is_digit (c : Int) : Bool := decide (48 ≤ c ∧ c ≤ 57)

def is_hex (c : Int) : Bool :=
  is_digit c || decide (97 ≤ c ∧ c ≤ 102) || decide (65 ≤ c ∧ c ≤ 70)

/-- A byte that may stand unescaped inside a string: anything but the quote, the backslash
and the control characters (a negative `char` is a byte above 0x7f). -/
def is_plain (c : Int) : Bool := decide ((32 ≤ c ∨ c < 0) ∧ c ≠ 34 ∧ c ≠ 92)

/-- The text between the quotes of a JSON string. -/
inductive StrBody : List CChar → Prop where
  | nil : StrBody []
  | plain (c : CChar) (s : List CChar) : is_plain c = true → StrBody s → StrBody (c :: s)
  | esc (c : CChar) (s : List CChar) : c ∈ [34, 92, 47, 98, 102, 110, 114, 116] → StrBody s →
      StrBody (92 :: c :: s)
  | uni (a b c d : CChar) (s : List CChar) : is_hex a = true → is_hex b = true →
      is_hex c = true → is_hex d = true → StrBody s → StrBody (92 :: 117 :: a :: b :: c :: d :: s)

/-- Drops the leading digits. -/
def skip_digits : List CChar → List CChar
  | [] => []
  | c :: s => if is_digit c then skip_digits s else c :: s

/-- The exponent part of a number, or nothing. -/
def json_exp_ok : List CChar → Bool
  | [] => true
  | c :: s =>
    (c = 101 || c = 69) &&
      (match s with
       | [] => false
       | d :: t => if d = 43 ∨ d = 45 then (!t.isEmpty && t.all is_digit) else s.all is_digit)

/-- The fraction part of a number, or nothing, followed by the exponent part. -/
def json_frac_ok : List CChar → Bool
  | 46 :: d :: s => is_digit d && json_exp_ok (skip_digits s)
  | s => json_exp_ok s

/-- The integer part of a number (no leading zero), followed by the rest. -/
def json_int_ok : List CChar → Bool
  | [] => false
  | c :: s => if c = 48 then json_frac_ok s else (is_digit c && json_frac_ok (skip_digits s))

/-- The text is a JSON number. -/
def is_json_number : List CChar → Bool
  | 45 :: s => json_int_ok s
  | s => json_int_ok s

/-- The syntactic categories of the grammar. -/
inductive json_sort where
  | value
  | element
  | elements
  | member
  | members

/-- The grammar: `Json k s` says that the bytes `s` are a text of category `k`.  An element
is a value between whitespace, and a JSON text is an element. -/
inductive Json : json_sort → List CChar → Prop where
  | lit_null : Json .value (cstr "null")
  | lit_true : Json .value (cstr "true")
  | lit_false : Json .value (cstr "false")
  | number (s : List CChar) : is_json_number s = true → Json .value s
  | string (s : List CChar) : StrBody s → Json .value (34 :: s ++ [34])
  | empty_array (w : List CChar) : all_ws w = true → Json .value (91 :: w ++ [93])
  | array (es : List CChar) : Json .elements es → Json .value (91 :: es ++ [93])
  | empty_object (w : List CChar) : all_ws w = true → Json .value (123 :: w ++ [125])
  | object (ms : List CChar) : Json .members ms → Json .value (123 :: ms ++ [125])
  | element (w1 v w2 : List CChar) : all_ws w1 = true → Json .value v → all_ws w2 = true →
      Json .element (w1 ++ v ++ w2)
  | elements_one (e : List CChar) : Json .element e → Json .elements e
  | elements_more (es e : List CChar) : Json .elements es → Json .element e →
      Json .elements (es ++ 44 :: e)
  | member (w1 k w2 e : List CChar) : all_ws w1 = true → StrBody k → all_ws w2 = true →
      Json .element e → Json .member (w1 ++ 34 :: k ++ [34] ++ w2 ++ 58 :: e)
  | members_one (m : List CChar) : Json .member m → Json .members m
  | members_more (ms m : List CChar) : Json .members ms → Json .member m →
      Json .members (ms ++ 44 :: m)

/-- The bytes parse as a single well-formed JSON value (a JSON text). -/
def is_json_text (s : List CChar) : Prop := Json .element s

/-! ## Call sequences that build a document, and what the buffer then holds -/

/-- The top frame expects a value as its next child: the root or an attribute that has no
child yet, or an array. -/
def value_expected (j : json) : Bool :=
  match (j.stack j.level).elt with
  | JSON_ANY => (j.stack j.level).is_first
  | JSON_ATTR => (j.stack j.level).is_first
  | JSON_ARRAY => true
  | _ => false

/-- The call is a step of building a document in the state `j`: an attribute is pushed
under an object only; a container, string, number or literal is written only where a value
is expected; a number emitter is given the text of a JSON number; raw string content has no
quote, backslash or control character; `json_finalize` is called at depth 0.  The calls
`json_string_printf` and `json_add_false` are left out. -/
def legal (j : json) : json_op → Bool
  | .push elt _ =>
    if elt = JSON_ATTR then decide ((j.stack j.level).elt = JSON_OBJECT)
    else if elt = JSON_OBJECT ∨ elt = JSON_ARRAY ∨ elt = JSON_STRING then value_expected j
    else true
  | .pop => true
  | .finalize => decide (j.level = 0)
  | .printf txt => (match txt with | none => true | some t => t.all is_plain)
  | .cat_pchar cat => cat.all is_plain
  | .cat_escaped_pchar _ => true
  | .string_printf _ => false
  | .string_cat_pchar cat => value_expected j && cat.all is_plain
  | .string_cat_escaped_pchar _ => value_expected j
  | .number_cat_pchar cat => value_expected j && is_json_number cat
  | .number_printf txt =>
    value_expected j && (match txt with | none => true | some t => is_json_number t)
  | .number_int _ => value_expected j
  | .number_double txt => value_expected j && is_json_number txt
  | .add_true => value_expected j
  | .add_false => false
  | .add_null => value_expected j

/-- Every call of the sequence that is made while the writer is still writing is legal in
the state in which it is made.  The calls made once `do_write` is cleared are not
constrained: the caller that goes on with its document after the truncation is covered. -/
def legal_calls (j : json) : List json_op → Bool
  | [] => true
  | o :: os =>
    !j.do_write ||
      (legal j o &&
        (match json_call j o with
         | some j1 => legal_calls j1 os
         | none => false))

/-- The kinds of the frames below index `n`, the nearest first. -/
def parents (s : Int → json_stack) : Nat → List json_types
  | 0 => []
  | n + 1 => (s (n : Int)).elt :: parents s n

/-- The bytes stored for a frame of kind `k` since it was opened (the root: since
`json_init`), the children that are complete included, when `f` tells that it has no
child yet. -/
def Content (k : json_types) (f : Bool) (c : List CChar) : Prop :=
  match k with
  | JSON_ANY => if f then all_ws c = true else Json .element c
  | JSON_OBJECT => if f then c = [123] else ∃ ms, c = 123 :: ms ∧ Json .members ms
  | JSON_ARRAY => if f then c = [91] else ∃ es, c = 91 :: es ∧ Json .elements es
  | JSON_ATTR =>
    ∃ name, StrBody name ∧
      (if f then c = 34 :: name ++ [34, 58]
       else ∃ e, c = 34 :: name ++ [34, 58] ++ e ∧ Json .element e)
  | JSON_STRING => ∃ b, c = 34 :: b ∧ StrBody b
  | _ => False

/-- A frame of kind `k` may be opened under a frame of kind `pk` that has (`f0`) no child
yet. -/
def Accepts (pk : json_types) (f0 : Bool) (k : json_types) : Prop :=
  match pk with
  | JSON_ANY => f0 = true ∧ (k = JSON_OBJECT ∨ k = JSON_ARRAY ∨ k = JSON_STRING)
  | JSON_ATTR => f0 = true ∧ (k = JSON_OBJECT ∨ k = JSON_ARRAY ∨ k = JSON_STRING)
  | JSON_ARRAY => k = JSON_OBJECT ∨ k = JSON_ARRAY ∨ k = JSON_STRING
  | JSON_OBJECT => k = JSON_ATTR
  | _ => False

/-- The buffer `s` is a document under construction whose open frames are the top frame
`(k, f)` and, below it, frames of the kinds `ps`: it splits into the bytes of the frames
below, a comma if the top frame is not a first child, whitespace, and the content of the
top frame. -/
def Partial : json_types × Bool → List json_types → List CChar → Prop
  | (k, f), [], s => k = JSON_ANY ∧ Content k f s
  | (k, f), pk :: ps, s =>
    ∃ (f0 : Bool) (s0 w c : List CChar),
      s = s0 ++ (if f0 then [] else [44]) ++ w ++ c ∧ all_ws w = true ∧ Accepts pk f0 k ∧
        Content k f c ∧ Partial (pk, f0) ps s0

/-- The state of a writer that is building a document. -/
def doc_inv (j : json) : Prop :=
  level_ok j ∧
  (∀ i : Nat, (i : Int) < j.level → (j.stack (i : Int)).is_first = false) ∧
  Partial ((j.stack j.level).elt, (j.stack j.level).is_first) (parents j.stack j.level.toNat)
    j.buffer

/-- The bytes `x` are a complete child of a frame of kind `k`: an attribute with its value
under an object, a value elsewhere. -/
def ChildOf (k : json_types) (x : List CChar) : Prop :=
  match k with
  | JSON_OBJECT => ∃ name e, StrBody name ∧ Json .element e ∧ x = 34 :: name ++ [34, 58] ++ e
  | _ => Json .value x

/-- A frame of kind `k` that has (`f0`) no child yet can take a further child. -/
def Open (k : json_types) (f0 : Bool) : Prop :=
  match k with
  | JSON_ANY => f0 = true
  | JSON_ATTR => f0 = true
  | JSON_ARRAY => True
  | JSON_OBJECT => True
  | _ => False

/-- An array of two numbers and a string.  In a buffer of 12 bytes the content of the string
finds no room and the forced closure leaves `[1,22,""]`; in a buffer of 6 bytes the second
number finds no room, the forced closure leaves `[1]`, and the string, the pop and
`json_finalize` are then called on the truncated writer. -/
def array_calls : List json_op :=
  [.push JSON_ARRAY [], .number_cat_pchar (cstr "1"), .number_int 22,
   .string_cat_pchar (cstr "hello"), .pop, .finalize]

/-! ## Call sequences used as failing inputs -/

/-- Nineteen nested arrays: the deepest level the stack allows. -/
def deep_array_calls : List json_op := List.replicate 19 (.push JSON_ARRAY [])

/-- An object, its attribute `k`, and an array as the value of the attribute. -/
def array_in_attr_calls : List json_op :=
  [.push JSON_OBJECT [], .push JSON_ATTR (cstr "k"), .push JSON_ARRAY []]

/-- The last character of the text is escaped in the `\u` form, for which
`json_escape_char_len` asks for one byte more than it stores. -/
def needs_spare : List CChar → Bool
  | [] => false
  | [c] => decide (escape_need c = 6 + 1)
  | _ :: c :: data => needs_spare (c :: data)

/-- The number of available bytes with which `json_escape_char_len` stores the whole escaped
text: its escaped length, and one byte more when the text ends in a `\u` escape. -/
def escape_room (data : List CChar) : Int :=
  json_escape_char_get_len data + (if needs_spare data then 1 else 0)

/-- A writer of capacity 8 in which a string has been opened: the quote is stored, one byte
is reserved for the closing quote and 6 bytes are left. -/
def string_open_writer : json :=
  { buffer := [34], len := 8, avalaible := 6, do_write := true, do_indent := false, level := 1,
    stack := stack_set (stack_set json_zero.stack 0 ⟨false, 0, JSON_ANY⟩) 1 ⟨true, 1, JSON_STRING⟩ }

/-! ## Bytes, their `char` values, and the escaping the specification describes -/

/-- The value of the byte `b` as a `char` where `char` is a signed 8 bit type. -/
def signed_char (b : Nat) : CChar := if b < 128 then (b : Int) else (b : Int) - 256

/-- The value of the byte `b` as a `char` where `char` is unsigned. -/
def unsigned_char (b : Nat) : CChar := (b : Int)

/-- The escape the specification gives for one byte: two bytes for the quote, the
backslash, the slash, backspace, form feed, carriage return, line feed and tab; the six
bytes `\u00XX`, with the two hexadecimal digits of the byte, for any other non-printable
byte; the byte itself for any other printable byte. -/
def spec_escape (b : Nat) : List CChar :=
  if b = 34 then [92, 34]
  else if b = 92 then [92, 92]
  else if b = 47 then [92, 47]
  else if b = 8 then [92, 98]
  else if b = 12 then [92, 102]
  else if b = 13 then [92, 114]
  else if b = 10 then [92, 110]
  else if b = 9 then [92, 116]
  else if b < 32 ∨ 126 < b then [92, 117, 48, 48, hex_digit (b / 16 % 16), hex_digit (b % 16)]
  else [(b : Int)]

/-- The escape the specification gives for a byte string. -/
def spec_escaped : List Nat → List CChar
  | [] => []
  | b :: bs => spec_escape b ++ spec_escaped bs

/-- The value of a hexadecimal digit. -/
def unhex (c : Int) : Option Nat :=
  if 48 ≤ c ∧ c ≤ 57 then some (c - 48).toNat
  else if 97 ≤ c ∧ c ≤ 102 then some (c - 87).toNat
  else if 65 ≤ c ∧ c ≤ 70 then some (c - 55).toNat
  else none

/-- The character a two byte escape `\e` stands for. -/
def unescape_short (e : Int) : Option Nat :=
  if e = 34 then some 34
  else if e = 92 then some 92
  else if e = 47 then some 47
  else if e = 98 then some 8
  else if e = 102 then some 12
  else if e = 110 then some 10
  else if e = 114 then some 13
  else if e = 116 then some 9
  else none

/-- JSON unescaping (RFC 8259, section 7) of the text between the quotes of a string: the
code of each character, `none` when the text is not a string body.  An unescaped byte
stands for itself (its value between 0 and 255). -/
def json_unescape : List CChar → Option (List Nat)
  | [] => some []
  | c :: rest =>
    if c = 92 then
      match rest with
      | [] => none
      | e :: rest1 =>
        if e = 117 then
          match rest1 with
          | a :: b :: c1 :: d :: rest2 =>
            match unhex a, unhex b, unhex c1, unhex d, json_unescape rest2 with
            | some x3, some x2, some x1, some x0, some r =>
              some ((x3 * 4096 + x2 * 256 + x1 * 16 + x0) :: r)
            | _, _, _, _, _ => none
          | _ => none
        else
          match unescape_short e, json_unescape rest1 with
          | some v, some r => some (v :: r)
          | _, _ => none
    else if c = 34 then none
    else (json_unescape rest).map (fun r => (c % 256).toNat :: r)

/-- A string is opened and the one byte 0x80, as a signed `char`, is appended escaped. -/
def high_byte_calls : List json_op :=
  [.push JSON_STRING [], .cat_escaped_pchar [signed_char 128]]

/-! ## The accounting of the capacity -/

/-- The sum of `reserved` over the frames `stack[1..n]`. -/
def reserved_sum (s : Int → json_stack) : Nat → Int
  | 0 => 0
  | n + 1 => reserved_sum s n + (s ((n : Int) + 1)).reserved

/-- The most bytes `json_pop` stores for a frame of the kind, without indentation. -/
def close_need (elt : json_types) : Int :=
  match elt with
  | JSON_OBJECT => 1
  | JSON_ARRAY => 1
  | JSON_STRING => 1
  | JSON_ATTR => 4
  | _ => 0

/-- The state of a writer without indentation over a buffer of `cap` bytes: the bytes
written, the bytes reserved by the open frames and the bytes available add up to the
capacity, none of the three is negative, and each open frame has reserved what its closing
may take. -/
def acct (cap : Int) (j : json) : Prop :=
  level_ok j ∧ j.do_indent = false ∧
  j.p + reserved_sum j.stack j.level.toNat + j.avalaible = cap ∧
  0 ≤ j.avalaible ∧
  ∀ i : Nat, 1 ≤ i → (i : Int) ≤ j.level →
    close_need (j.stack (i : Int)).elt ≤ (j.stack (i : Int)).reserved

/-- A document with an escaped string and a number; in a buffer of 30 bytes the number
finds no room, and the caller goes on with its pops. -/
def mixed_calls : List json_op :=
  [.push JSON_OBJECT [], .push JSON_ATTR (cstr "a"), .string_cat_escaped_pchar [1, 47],
   .pop, .push JSON_ATTR (cstr "b"), .number_int 12345, .pop, .pop, .finalize]

/-! ## The caller's side of a document -/

/-- The caller's side of a document under construction, which does not depend on the buffer:
the kinds of the frames the caller has opened and not yet closed, the innermost first (the
root is not listed), and whether the innermost of them (the root, when none is open) has no
child yet. -/
structure doc_state where
  kinds : List json_types
  first : Bool

/-- The kind of the innermost open frame, the root when none is open. -/
def doc_top (d : doc_state) : json_types := d.kinds.headD JSON_ANY

/-- The innermost open frame expects a value as its next child. -/
def doc_value_expected (d : doc_state) : Bool :=
  match doc_top d with
  | JSON_ANY => d.first
  | JSON_ATTR => d.first
  | JSON_ARRAY => true
  | _ => false

/-- One more frame can be opened: fewer than `JSON_STACK_DEEP - 1` are open. -/
def doc_room (d : doc_state) : Bool := decide ((d.kinds.length : Int) < JSON_STACK_DEEP - 1)

/-- The call as a step of building a document, judged on the caller's side alone: `none`
when it is not one, and otherwise the caller's side after the call.  An attribute is pushed
under an object; a container, string, number or literal is written where a value is
expected; a frame is opened (also by a single-shot string) only while fewer than
`JSON_STACK_DEEP - 1` frames are open; a number emitter is given the text of a JSON number;
raw string content has no quote, backslash or control character; `json_finalize` is called
with no frame open.  The calls `json_string_printf` and `json_add_false` are left out. -/
def doc_step (d : doc_state) : json_op → Option doc_state
  | .push elt _ =>
    if elt = JSON_ATTR then
      if doc_top d = JSON_OBJECT ∧ doc_room d = true then some ⟨JSON_ATTR :: d.kinds, true⟩
      else none
    else if elt = JSON_OBJECT ∨ elt = JSON_ARRAY ∨ elt = JSON_STRING then
      if doc_value_expected d = true ∧ doc_room d = true then some ⟨elt :: d.kinds, true⟩
      else none
    else some d
  | .pop =>
    match d.kinds with
    | [] => some d
    | _ :: ks => some ⟨ks, false⟩
  | .finalize => if d.kinds = [] then some d else none
  | .printf txt =>
    if (match txt with | none => true | some t => t.all is_plain) = true then some d else none
  | .cat_pchar cat => if cat.all is_plain = true then some d else none
  | .cat_escaped_pchar _ => some d
  | .string_printf _ => none
  | .string_cat_pchar cat =>
    if doc_value_expected d = true ∧ doc_room d = true ∧ cat.all is_plain = true then
      some { d with first := false }
    else none
  | .string_cat_escaped_pchar _ =>
    if doc_value_expected d = true ∧ doc_room d = true then some { d with first := false }
    else none
  | .number_cat_pchar cat =>
    if doc_value_expected d = true ∧ is_json_number cat = true then
      some { d with first := false }
    else none
  | .number_printf txt =>
    if doc_value_expected d = true ∧
        (match txt with | none => true | some t => is_json_number t) = true then
      some { d with first := false }
    else none
  | .number_int _ => if doc_value_expected d = true then some { d with first := false } else none
  | .number_double txt =>
    if doc_value_expected d = true ∧ is_json_number txt = true then
      some { d with first := false }
    else none
  | .add_true => if doc_value_expected d = true then some { d with first := false } else none
  | .add_false => none
  | .add_null => if doc_value_expected d = true then some { d with first := false } else none

/-- Every call of the sequence is a step of building a document, from the caller's side
`d` on. -/
def doc_calls (d : doc_state) : List json_op → Bool
  | [] => true
  | o :: os =>
    match doc_step d o with
    | some d1 => doc_calls d1 os
    | none => false

/-- The caller's side before the first call: no frame open, no value written. -/
def doc_start : doc_state := ⟨[], true⟩

/-- The frames of the writer are the frames the caller has open. -/
def view (d : doc_state) (j : json) : Prop :=
  (j.stack j.level).elt :: parents j.stack j.level.toNat = d.kinds ++ [JSON_ANY] ∧
  (j.stack j.level).is_first = d.first

/-! ## Basic facts about the routines -/

theorem write_tabs_eq (j : json) (n : Nat) :
    write_tabs j n =
      { j with buffer := j.buffer ++ List.replicate (count_tabs j.stack n) 9,
               avalaible := j.avalaible - (count_tabs j.stack n : Int) } := by
  induction n with
  | zero => simp [write_tabs, count_tabs]
  | succ n ih =>
    simp only [write_tabs, count_tabs, ih]
    by_cases h : is_indented (j.stack (n : Int)).elt = true
    · simp only [h, if_true, json_add_char_noctl]
      ext <;> simp [List.replicate_succ', Nat.cast_add]
      omega
    · simp [h]

theorem separator_length (j : json) :
    ((separator j).length : Int) = json_check_separator_len j := by
  unfold separator json_check_separator_len
  split_ifs <;> simp
  all_goals omega

theorem json_check_separator_write_eq (j : json) :
    json_check_separator_write j =
      { j with buffer := j.buffer ++ separator j,
               avalaible := j.avalaible - json_check_separator_len j } := by
  unfold json_check_separator_write separator json_check_separator_len
  by_cases h1 : (j.stack j.level).elt = JSON_ATTR
  · simp [h1]
  · by_cases h2 : (j.stack j.level).is_first = true <;> by_cases h3 : j.do_indent = true <;>
      by_cases h4 : j.level > 0 <;>
      simp [h1, h2, h3, h4, write_tabs_eq, json_add_char_noctl]
    all_goals first | omega | (ext <;> simp [h3])

theorem cstr_null : cstr "null" = [110, 117, 108, 108] := by rfl

theorem json_pop_eq (j : json) (hw : j.do_write = true) (hl : 0 < j.level) :
    json_pop j =
      { j with buffer := j.buffer ++ closing j,
               avalaible := j.avalaible + (j.stack j.level).reserved - ((closing j).length : Int),
               level := j.level - 1 } := by
  have hl2 : ¬ j.level ≤ 0 := by omega
  unfold json_pop closing
  simp only [hw, hl2, Bool.not_true, Bool.false_eq_true, if_false, json_unreserve]
  cases he : (j.stack j.level).elt <;> cases hi : j.do_indent <;>
    cases hf : (j.stack j.level).is_first <;>
    simp [he, hi, hf, write_tabs_eq, json_add_char_noctl, json_cat_pchar_noctl, cstr_null] <;>
    omega

theorem json_pop_of_not_write (j : json) (hw : j.do_write = false) : json_pop j = j := by
  simp [json_pop, hw]

theorem json_pop_of_level_le (j : json) (hl : j.level ≤ 0) : json_pop j = j := by
  simp [json_pop, hl]

theorem json_pop_do_write (j : json) : (json_pop j).do_write = j.do_write := by
  by_cases hw : j.do_write = true
  · by_cases hl : 0 < j.level
    · rw [json_pop_eq j hw hl]
    · rw [json_pop_of_level_le j (by omega)]
  · rw [json_pop_of_not_write j (by simpa using hw)]

theorem json_pop_stack (j : json) : (json_pop j).stack = j.stack := by
  by_cases hw : j.do_write = true
  · by_cases hl : 0 < j.level
    · rw [json_pop_eq j hw hl]
    · rw [json_pop_of_level_le j (by omega)]
  · rw [json_pop_of_not_write j (by simpa using hw)]

theorem json_pop_do_indent (j : json) : (json_pop j).do_indent = j.do_indent := by
  by_cases hw : j.do_write = true
  · by_cases hl : 0 < j.level
    · rw [json_pop_eq j hw hl]
    · rw [json_pop_of_level_le j (by omega)]
  · rw [json_pop_of_not_write j (by simpa using hw)]

theorem json_pop_len (j : json) : (json_pop j).len = j.len := by
  by_cases hw : j.do_write = true
  · by_cases hl : 0 < j.level
    · rw [json_pop_eq j hw hl]
    · rw [json_pop_of_level_le j (by omega)]
  · rw [json_pop_of_not_write j (by simpa using hw)]

theorem json_pop_level (j : json) (hw : j.do_write = true) (hl : 0 < j.level) :
    (json_pop j).level = j.level - 1 := by
  rw [json_pop_eq j hw hl]

theorem iterate_pop_do_indent (n : Nat) (j : json) :
    (json_pop^[n] j).do_indent = j.do_indent := by
  induction n generalizing j with
  | zero => rfl
  | succ n ih => rw [Function.iterate_succ_apply, ih, json_pop_do_indent]

theorem iterate_pop_len (n : Nat) (j : json) : (json_pop^[n] j).len = j.len := by
  induction n generalizing j with
  | zero => rfl
  | succ n ih => rw [Function.iterate_succ_apply, ih, json_pop_len]

theorem iterate_pop_stack (n : Nat) (j : json) : (json_pop^[n] j).stack = j.stack := by
  induction n generalizing j with
  | zero => rfl
  | succ n ih => rw [Function.iterate_succ_apply, ih, json_pop_stack]

/-- With the writer enabled the closing loop ends after `level` iterations, having popped
every open frame. -/
theorem json_close_all_loop_eq (n : Nat) (j : json) (hw : j.do_write = true)
    (hl : j.level = (n : Int)) :
    json_close_all_loop n j = some (json_pop^[n] j) ∧ (json_pop^[n] j).level = 0 ∧
      (json_pop^[n] j).do_write = true := by
  induction n generalizing j with
  | zero => simp [json_close_all_loop, hl, hw]
  | succ n ih =>
    have hpos : 0 < j.level := by omega
    have h1 := ih (json_pop j) (by rw [json_pop_do_write, hw])
      (by rw [json_pop_level j hw hpos]; omega)
    simp only [json_close_all_loop, hpos, gt_iff_lt, if_true, Function.iterate_succ_apply]
    exact h1

theorem json_close_all_eq (j : json) (hw : j.do_write = true) (hl : 0 ≤ j.level) :
    json_close_all j = some { json_pop^[j.level.toNat] j with do_write := false } := by
  have h := (json_close_all_loop_eq j.level.toNat j hw (by omega)).1
  simp [json_close_all, h]

theorem json_close_all_of_level_le (j : json) (hl : j.level ≤ 0) :
    json_close_all j = some { j with do_write := false } := by
  have h0 : j.level.toNat = 0 := by omega
  have h1 : ¬ j.level > 0 := by omega
  simp [json_close_all, h0, json_close_all_loop, h1]

/-- From a state with a valid level the forced closure returns, at depth 0 and with the
latch cleared. -/
theorem json_close_all_total (j : json) (h : level_ok j) :
    ∃ j1, json_close_all j = some j1 ∧ j1.level = 0 ∧ j1.do_write = false ∧
      j1.do_indent = j.do_indent ∧ j1.len = j.len := by
  by_cases hw : j.do_write = true
  · obtain ⟨_, h2, _⟩ := json_close_all_loop_eq j.level.toNat j hw (by have := h.1; omega)
    refine ⟨_, json_close_all_eq j hw h.1, h2, rfl, ?_, ?_⟩
    · exact iterate_pop_do_indent _ j
    · exact iterate_pop_len _ j
  · have h0 : j.level = 0 := h.2.2 (by simpa using hw)
    exact ⟨_, json_close_all_of_level_le j (by omega), h0, rfl, rfl, rfl⟩

theorem sprintf_04x_take_length (c : CChar) : ((sprintf_04x c).take 4).length = 4 := by
  simp [sprintf_04x]

theorem escape_char_length (c : CChar) :
    ((escape_char c).length : Int) =
      (if c = 34 then 2 else if c = 92 then 2 else if c = 47 then 2 else if c = 8 then 2
       else if c = 12 then 2 else if c = 13 then 2 else if c = 10 then 2 else if c = 9 then 2
       else if !isprint c then 6 else 1) := by
  unfold escape_char
  split_ifs <;> simp only [List.length_cons, List.length_nil, sprintf_04x_take_length] <;> rfl

theorem json_escape_char_get_len_cons (c : CChar) (data : List CChar) :
    json_escape_char_get_len (c :: data) =
      ((escape_char c).length : Int) + json_escape_char_get_len data := by
  rw [escape_char_length, json_escape_char_get_len]

theorem escaped_length (data : List CChar) :
    ((escaped data).length : Int) = json_escape_char_get_len data := by
  induction data with
  | nil => rfl
  | cons c data ih =>
    rw [json_escape_char_get_len_cons, ← ih]
    simp [escaped]

theorem json_escape_char_get_len_nonneg (data : List CChar) :
    0 ≤ json_escape_char_get_len data := by
  rw [← escaped_length]; omega

/-- The loop body of `json_escape_char_len`: the unit is stored when `escape_need` bytes are
available, otherwise the forced closure runs. -/
theorem json_escape_char_len_step (j : json) (c : CChar) (data : List CChar) :
    json_escape_char_len j (c :: data) =
      if j.avalaible < escape_need c then json_close_all j
      else json_escape_char_len
        { j with buffer := j.buffer ++ escape_char c,
                 avalaible := j.avalaible - ((escape_char c).length : Int) } data := by
  rw [json_escape_char_len]
  by_cases h0 : c = 34
  · have e : escape_char c = [92, 34] := by simp [escape_char, h0]
    have n : escape_need c = 2 := by simp [escape_need, h0]
    rw [e, n]
    simp only [h0, if_true]; rfl
  by_cases h1 : c = 92
  · have e : escape_char c = [92, 92] := by simp [escape_char, h1]
    have n : escape_need c = 2 := by simp [escape_need, h1]
    rw [e, n]
    simp only [h1, if_true]; rfl
  by_cases h2 : c = 47
  · have e : escape_char c = [92, 47] := by simp [escape_char, h2]
    have n : escape_need c = 2 := by simp [escape_need, h2]
    rw [e, n]
    simp only [h2, if_true]; rfl
  by_cases h3 : c = 8
  · have e : escape_char c = [92, 98] := by simp [escape_char, h3]
    have n : escape_need c = 2 := by simp [escape_need, h3]
    rw [e, n]
    simp only [h3, if_true]; rfl
  by_cases h4 : c = 12
  · have e : escape_char c = [92, 102] := by simp [escape_char, h4]
    have n : escape_need c = 2 := by simp [escape_need, h4]
    rw [e, n]
    simp only [h4, if_true]; rfl
  by_cases h5 : c = 13
  · have e : escape_char c = [92, 114] := by simp [escape_char, h5]
    have n : escape_need c = 2 := by simp [escape_need, h5]
    rw [e, n]
    simp only [h5, if_true]; rfl
  by_cases h6 : c = 10
  · have e : escape_char c = [92, 110] := by simp [escape_char, h6]
    have n : escape_need c = 2 := by simp [escape_need, h6]
    rw [e, n]
    simp only [h6, if_true]; rfl
  by_cases h7 : c = 9
  · have e : escape_char c = [92, 116] := by simp [escape_char, h7]
    have n : escape_need c = 2 := by simp [escape_need, h7]
    rw [e, n]
    simp only [h7, if_true]; rfl
  by_cases hp : (!isprint c) = true
  · have e : escape_char c = 92 :: 117 :: (sprintf_04x c).take 4 := by
      simp only [escape_char, h0, h1, h2, h3, h4, h5, h6, h7, hp, if_true, if_false]
    have n : escape_need c = 6 + 1 := by
      simp only [escape_need, h0, h1, h2, h3, h4, h5, h6, h7, hp, if_true, if_false]
    have hl : (escape_char c).length = 6 := by
      rw [e]; simp only [List.length_cons, sprintf_04x_take_length]
    simp only [h0, h1, h2, h3, h4, h5, h6, h7, hp, if_true, if_false, hl, n, e, json_put2]
    split_ifs
    · rfl
    · congr 1
      ext <;> simp only [List.append_assoc, List.cons_append, List.nil_append, Nat.cast_ofNat,
        List.length_cons, sprintf_04x_take_length]
      omega
  · have hp2 : isprint c = true := by simpa using hp
    have e : escape_char c = [c] := by
      simp [escape_char, h0, h1, h2, h3, h4, h5, h6, h7, hp2]
    have n : escape_need c = 1 := by
      simp [escape_need, h0, h1, h2, h3, h4, h5, h6, h7, hp2]
    rw [e, n]
    simp [h0, h1, h2, h3, h4, h5, h6, h7, hp2]

theorem escape_need_le (c : CChar) : escape_need c ≤ ((escape_char c).length : Int) + 1 := by
  rw [escape_char_length]
  unfold escape_need
  split_ifs <;> omega

/-- One step of the escaping loop when the unit fits with one byte to spare. -/
theorem json_escape_char_len_cons (j : json) (c : CChar) (data : List CChar)
    (h : ((escape_char c).length : Int) + 1 ≤ j.avalaible) :
    json_escape_char_len j (c :: data) =
      json_escape_char_len
        { j with buffer := j.buffer ++ escape_char c,
                 avalaible := j.avalaible - ((escape_char c).length : Int) } data := by
  have := escape_need_le c
  rw [json_escape_char_len_step, if_neg (by omega)]

/-- With one byte to spare over the escaped length, the escaping loop stores the whole
escaped text and never calls the forced closure. -/
theorem json_escape_char_len_ok (data : List CChar) (j : json)
    (h : json_escape_char_get_len data + 1 ≤ j.avalaible) :
    json_escape_char_len j data =
      some { j with buffer := j.buffer ++ escaped data,
                    avalaible := j.avalaible - json_escape_char_get_len data } := by
  induction data generalizing j with
  | nil => simp [json_escape_char_len, escaped, json_escape_char_get_len]
  | cons c data ih =>
    rw [json_escape_char_get_len_cons] at h
    have hn := json_escape_char_get_len_nonneg data
    rw [json_escape_char_len_cons j c data (by omega), ih _ (by simp only; omega)]
    congr 1
    ext <;> simp [escaped, json_escape_char_get_len_cons]
    omega

theorem json_push_close_size_pos (j : json) (elt : json_types) :
    1 ≤ json_push_close_size j elt := by
  unfold json_push_close_size
  split_ifs <;> simp <;> omega

theorem json_push_close_size_attr (j : json) : json_push_close_size j JSON_ATTR = 4 := by
  simp [json_push_close_size]

/-- A push that is not rejected and does not fit is the forced closure. -/
theorem json_push_full (j : json) (elt : json_types) (name : List CChar)
    (hw : j.do_write = true) (hl : j.level < JSON_STACK_DEEP - 1) (he : is_pushable elt = true)
    (ht : (j.stack j.level).elt ≠ JSON_STRING)
    (hc : j.avalaible < json_push_write_size j elt name + json_push_close_size j elt) :
    json_push j elt name = json_close_all j := by
  have hl2 : ¬ j.level ≥ JSON_STACK_DEEP - 1 := by omega
  have he2 : elt = JSON_ATTR ∨ elt = JSON_OBJECT ∨ elt = JSON_ARRAY ∨ elt = JSON_STRING := by
    simp only [is_pushable, Bool.or_eq_true, decide_eq_true_eq] at he
    tauto
  simp only [json_push, hw, Bool.not_true, Bool.false_eq_true, if_false, hl2, he2,
    not_true_eq_false, ht, hc, if_true]

/-- A push that is not rejected and fits stores the separator and the opening bytes, marks
the parent as having a child and opens a frame holding the reservation. -/
theorem json_push_ok (j : json) (elt : json_types) (name : List CChar)
    (hw : j.do_write = true) (hl : j.level < JSON_STACK_DEEP - 1) (he : is_pushable elt = true)
    (ht : (j.stack j.level).elt ≠ JSON_STRING)
    (hc : json_push_write_size j elt name + json_push_close_size j elt ≤ j.avalaible) :
    json_push j elt name = some
      { j with
        buffer := j.buffer ++ separator j ++ opening elt name
        avalaible := j.avalaible - json_check_separator_len j - ((opening elt name).length : Int)
                      - json_push_close_size j elt
        level := j.level + 1
        stack := stack_set (stack_set j.stack j.level { j.stack j.level with is_first := false })
                  (j.level + 1) ⟨true, json_push_close_size j elt, elt⟩ } := by
  have hl2 : ¬ j.level ≥ JSON_STACK_DEEP - 1 := by omega
  have he2 : elt = JSON_ATTR ∨ elt = JSON_OBJECT ∨ elt = JSON_ARRAY ∨ elt = JSON_STRING := by
    simp only [is_pushable, Bool.or_eq_true, decide_eq_true_eq] at he
    tauto
  have hc2 : ¬ j.avalaible < json_push_write_size j elt name + json_push_close_size j elt := by
    omega
  simp only [json_push, hw, Bool.not_true, Bool.false_eq_true, if_false, hl2, he2,
    not_true_eq_false, ht, hc2, json_check_separator_write_eq]
  rcases he2 with rfl | rfl | rfl | rfl
  · have hn := json_escape_char_get_len_nonneg name
    have hs := separator_length j
    have hcs := json_push_close_size_attr j
    have hws : json_push_write_size j JSON_ATTR name =
        json_check_separator_len j + json_escape_char_get_len name + 4 := by
      simp [json_push_write_size]; omega
    rw [hws, hcs] at hc
    simp only [json_add_char_noctl]
    rw [json_escape_char_len_ok name _ (by simp only; omega)]
    simp only [Option.map_some', json_cat_pchar_noctl, json_reserve, opening]
    congr 1
    ext <;> simp [← escaped_length]
    omega
  all_goals
    simp only [Option.map_some', json_add_char_noctl, json_reserve, opening]
    congr 1

theorem level_ok_of_eq {j j1 : json} (h : level_ok j) (hl : j1.level = j.level)
    (hw : j1.do_write = j.do_write) : level_ok j1 := by
  unfold level_ok at h ⊢
  rw [hl, hw]; exact h

theorem level_ok_of_closed {j1 : json} (hl : j1.level = 0) : level_ok j1 := by
  unfold level_ok JSON_STACK_DEEP
  rw [hl]; simp

theorem level_ok_init (j : json) (len : Int) (do_indent : Int) :
    level_ok (json_init j len do_indent) := level_ok_of_closed rfl

theorem level_ok_close_all (j : json) (h : level_ok j) :
    ∃ j1, json_close_all j = some j1 ∧ level_ok j1 := by
  obtain ⟨j1, h1, h2, _⟩ := json_close_all_total j h
  exact ⟨j1, h1, level_ok_of_closed h2⟩

theorem level_ok_pop (j : json) (h : level_ok j) : level_ok (json_pop j) := by
  by_cases hw : j.do_write = true
  · by_cases hl : 0 < j.level
    · rw [json_pop_eq j hw hl]
      unfold level_ok at h ⊢
      simp only [hw] at h ⊢
      refine ⟨by omega, by omega, by simp⟩
    · rw [json_pop_of_level_le j (by omega)]; exact h
  · rw [json_pop_of_not_write j (by simpa using hw)]; exact h

theorem level_ok_finalize (j : json) (h : level_ok j) : level_ok (json_finalize j) := by
  unfold json_finalize
  split_ifs
  · exact h
  · exact h
  · exact level_ok_of_eq h rfl rfl
  · exact h

theorem level_ok_push (j : json) (elt : json_types) (name : List CChar) (h : level_ok j) :
    ∃ j1, json_push j elt name = some j1 ∧ level_ok j1 := by
  by_cases hw : j.do_write = true
  · by_cases hl : j.level < JSON_STACK_DEEP - 1
    · by_cases he : is_pushable elt = true
      · by_cases ht : (j.stack j.level).elt = JSON_STRING
        · exact ⟨j, by simp [json_push, ht], h⟩
        · by_cases hc : j.avalaible < json_push_write_size j elt name + json_push_close_size j elt
          · rw [json_push_full j elt name hw hl he ht hc]
            exact level_ok_close_all j h
          · refine ⟨_, json_push_ok j elt name hw hl he ht (by omega), ?_⟩
            unfold level_ok JSON_STACK_DEEP at h ⊢
            unfold JSON_STACK_DEEP at hl
            simp only [hw] at h ⊢
            refine ⟨by omega, by omega, by simp⟩
      · refine ⟨j, ?_, h⟩
        have he2 : ¬ (elt = JSON_ATTR ∨ elt = JSON_OBJECT ∨ elt = JSON_ARRAY ∨ elt = JSON_STRING) := by
          simp only [is_pushable, Bool.or_eq_true, decide_eq_true_eq] at he
          tauto
        simp [json_push, he2]
    · exact ⟨j, by simp [json_push, show j.level ≥ JSON_STACK_DEEP - 1 by omega], h⟩
  · exact ⟨j, by simp [json_push, hw], h⟩

theorem level_ok_escape (data : List CChar) (j : json) (h : level_ok j) :
    ∃ j1, json_escape_char_len j data = some j1 ∧ level_ok j1 := by
  induction data generalizing j with
  | nil => exact ⟨j, rfl, h⟩
  | cons c data ih =>
    rw [json_escape_char_len_step]
    split_ifs
    · exact level_ok_close_all j h
    · exact ih _ (level_ok_of_eq h rfl rfl)

theorem level_ok_printf (j : json) (txt : Option (List CChar)) (h : level_ok j) :
    ∃ j1, json_printf j txt = some j1 ∧ level_ok j1 := by
  unfold json_printf
  split_ifs
  · exact ⟨j, rfl, h⟩
  · exact ⟨j, rfl, h⟩
  · cases txt with
    | none => exact level_ok_close_all j h
    | some t =>
      simp only
      split_ifs
      · exact level_ok_close_all j h
      · exact ⟨_, rfl, level_ok_of_eq h rfl rfl⟩

theorem level_ok_cat_pchar (j : json) (cat : List CChar) (h : level_ok j) :
    ∃ j1, json_cat_pchar j cat = some j1 ∧ level_ok j1 := by
  unfold json_cat_pchar
  split_ifs
  · exact ⟨j, rfl, h⟩
  · exact ⟨j, rfl, h⟩
  · exact level_ok_close_all j h
  · exact ⟨_, rfl, level_ok_of_eq h rfl rfl⟩

theorem level_ok_cat_escaped_pchar (j : json) (cat : List CChar) (h : level_ok j) :
    ∃ j1, json_cat_escaped_pchar j cat = some j1 ∧ level_ok j1 := by
  unfold json_cat_escaped_pchar
  split_ifs
  · exact ⟨j, rfl, h⟩
  · exact ⟨j, rfl, h⟩
  · exact level_ok_close_all j h
  · exact level_ok_escape cat j h

theorem level_ok_number_cat_pchar (j : json) (cat : List CChar) (h : level_ok j) :
    ∃ j1, json_number_cat_pchar j cat = some j1 ∧ level_ok j1 := by
  unfold json_number_cat_pchar
  split_ifs
  · exact ⟨j, rfl, h⟩
  · exact level_ok_close_all j h
  · refine ⟨_, rfl, level_ok_of_eq h ?_ ?_⟩ <;>
      simp [json_cat_pchar_noctl, json_check_separator_write_eq]

theorem level_ok_number_printf (j : json) (txt : Option (List CChar)) (h : level_ok j) :
    ∃ j1, json_number_printf j txt = some j1 ∧ level_ok j1 := by
  unfold json_number_printf
  split_ifs
  · exact ⟨j, rfl, h⟩
  · cases txt with
    | none => exact level_ok_close_all j h
    | some t =>
      simp only
      split_ifs
      · exact level_ok_close_all j h
      · refine ⟨_, rfl, level_ok_of_eq h ?_ ?_⟩ <;> simp [json_check_separator_write_eq]

theorem level_ok_string_printf (j : json) (txt : Option (List CChar)) (h : level_ok j) :
    ∃ j1, json_string_printf j txt = some j1 ∧ level_ok j1 := by
  unfold json_string_printf
  split_ifs
  · exact ⟨j, rfl, h⟩
  · obtain ⟨j1, h1, h2⟩ := level_ok_push j JSON_STRING [] h
    rw [h1]
    simp only [Option.some_bind]
    cases txt with
    | none => exact level_ok_close_all j1 h2
    | some t =>
      simp only
      split_ifs
      · exact level_ok_close_all j1 h2
      · exact ⟨_, rfl, level_ok_pop _ (level_ok_of_eq h2 rfl rfl)⟩

theorem level_ok_string_cat_pchar (j : json) (cat : List CChar) (h : level_ok j) :
    ∃ j1, json_string_cat_pchar j cat = some j1 ∧ level_ok j1 := by
  obtain ⟨j1, h1, h2⟩ := level_ok_push j JSON_STRING [] h
  obtain ⟨j2, h3, h4⟩ := level_ok_cat_pchar j1 cat h2
  exact ⟨json_pop j2, by simp [json_string_cat_pchar, h1, h3], level_ok_pop j2 h4⟩

theorem level_ok_string_cat_escaped_pchar (j : json) (cat : List CChar) (h : level_ok j) :
    ∃ j1, json_string_cat_escaped_pchar j cat = some j1 ∧ level_ok j1 := by
  obtain ⟨j1, h1, h2⟩ := level_ok_push j JSON_STRING [] h
  obtain ⟨j2, h3, h4⟩ := level_ok_cat_escaped_pchar j1 cat h2
  exact ⟨json_pop j2, by simp [json_string_cat_escaped_pchar, h1, h3], level_ok_pop j2 h4⟩

/-- Every call returns, and keeps the level a valid index. -/
theorem level_ok_call (j : json) (o : json_op) (h : level_ok j) :
    ∃ j1, json_call j o = some j1 ∧ level_ok j1 := by
  cases o with
  | push elt name => exact level_ok_push j elt name h
  | pop => exact ⟨_, rfl, level_ok_pop j h⟩
  | finalize => exact ⟨_, rfl, level_ok_finalize j h⟩
  | printf txt => exact level_ok_printf j txt h
  | cat_pchar cat => exact level_ok_cat_pchar j cat h
  | cat_escaped_pchar cat => exact level_ok_cat_escaped_pchar j cat h
  | string_printf txt => exact level_ok_string_printf j txt h
  | string_cat_pchar cat => exact level_ok_string_cat_pchar j cat h
  | string_cat_escaped_pchar cat => exact level_ok_string_cat_escaped_pchar j cat h
  | number_cat_pchar cat => exact level_ok_number_cat_pchar j cat h
  | number_printf txt => exact level_ok_number_printf j txt h
  | number_int number => exact level_ok_number_printf j (some (format_d number)) h
  | number_double txt => exact level_ok_number_printf j (some txt) h
  | add_true => exact level_ok_number_cat_pchar j _ h
  | add_false => exact level_ok_number_cat_pchar j _ h
  | add_null => exact level_ok_number_cat_pchar j _ h

theorem level_ok_calls (os : List json_op) (j : json) (h : level_ok j) :
    ∃ j1, json_calls j os = some j1 ∧ level_ok j1 := by
  induction os generalizing j with
  | nil => exact ⟨j, rfl, h⟩
  | cons o os ih =>
    obtain ⟨j1, h1, h2⟩ := level_ok_call j o h
    obtain ⟨j2, h3, h4⟩ := ih j1 h2
    exact ⟨j2, by simp [json_calls, h1, h3], h4⟩

@[simp] theorem stack_set_same (s : Int → json_stack) (i : Int) (v : json_stack) :
    stack_set s i v i = v := by simp [stack_set]

theorem stack_set_ne (s : Int → json_stack) (i k : Int) (v : json_stack) (h : k ≠ i) :
    stack_set s i v k = s k := by simp [stack_set, h]

theorem json_calls_append (a b : List json_op) (j : json) :
    json_calls j (a ++ b) = (json_calls j a).bind (fun j1 => json_calls j1 b) := by
  induction a generalizing j with
  | nil => simp [json_calls]
  | cons o a ih =>
    simp only [List.cons_append, json_calls]
    cases json_call j o with
    | none => simp
    | some j1 => simp [ih]

theorem items_text_true (ps : List (List CChar × List CChar)) :
    items_text true ps = join_commas (ps.map attr_number_text) := by
  have aux : ∀ (p : List CChar × List CChar) (ps : List (List CChar × List CChar)),
      attr_number_text p ++ items_text false ps = join_commas ((p :: ps).map attr_number_text) := by
    intro p ps
    induction ps generalizing p with
    | nil => simp [items_text, join_commas]
    | cons q ps ih =>
      simp only [items_text, List.map_cons, join_commas, Bool.false_eq_true, if_false]
      rw [List.append_assoc, ih q]
      simp
  cases ps with
  | nil => rfl
  | cons p ps => simpa [items_text] using aux p ps

/-- One attribute with its number, written into an open object without indentation. -/
theorem attr_number_step (p : List CChar × List CChar) (j : json)
    (hw : j.do_write = true) (hi : j.do_indent = false) (hl : j.level = 1)
    (he : (j.stack 1).elt = JSON_OBJECT)
    (hc : (((if (j.stack 1).is_first then [] else [44]) ++ attr_number_text p).length : Int) + 5
            ≤ j.avalaible) :
    ∃ j1, json_calls j (attr_number_calls p) = some j1 ∧
      j1.buffer = j.buffer ++ (if (j.stack 1).is_first then [] else [44]) ++ attr_number_text p ∧
      j1.avalaible = j.avalaible -
        (((if (j.stack 1).is_first then [] else [44]) ++ attr_number_text p).length : Int) ∧
      j1.do_write = true ∧ j1.do_indent = false ∧ j1.level = 1 ∧
      (j1.stack 1).elt = JSON_OBJECT ∧ (j1.stack 1).is_first = false ∧
      (j1.stack 1).reserved = (j.stack 1).reserved := by
  have hsep : separator j = (if (j.stack 1).is_first then [] else [44]) := by
    simp [separator, hl, he, hi]
  have hsl := separator_length j
  have hcs := json_push_close_size_attr j
  have hel := escaped_length p.1
  have hws : json_push_write_size j JSON_ATTR p.1 =
      json_check_separator_len j + json_escape_char_get_len p.1 + 4 := by
    simp [json_push_write_size]; omega
  have hit : ((attr_number_text p).length : Int) =
      json_escape_char_get_len p.1 + 3 + (p.2.length : Int) := by
    simp [attr_number_text, ← hel]; omega
  rw [← hsep] at hc ⊢
  rw [List.length_append] at hc
  push_cast at hc
  have hp := json_push_ok j JSON_ATTR p.1 hw (by rw [hl]; decide) rfl (by rw [hl, he]; decide)
    (by rw [hws, hcs]; omega)
  obtain ⟨j1, hj1⟩ : ∃ j1 : json, j1 =
      { j with
        buffer := j.buffer ++ separator j ++ opening JSON_ATTR p.1
        avalaible := j.avalaible - json_check_separator_len j -
          ((opening JSON_ATTR p.1).length : Int) - json_push_close_size j JSON_ATTR
        level := j.level + 1
        stack := stack_set (stack_set j.stack j.level
            { j.stack j.level with is_first := false })
          (j.level + 1) ⟨true, json_push_close_size j JSON_ATTR, JSON_ATTR⟩ } := ⟨_, rfl⟩
  rw [← hj1] at hp
  have hol : ((opening JSON_ATTR p.1).length : Int) = json_escape_char_get_len p.1 + 3 := by
    simp [opening, ← hel]; omega
  have h1top : j1.stack j1.level = ⟨true, 4, JSON_ATTR⟩ := by rw [hj1]; simp [hcs]
  have h1sep : json_check_separator_len j1 = 0 := by simp [json_check_separator_len, h1top]
  have h1w : j1.do_write = true := by rw [hj1]; exact hw
  have h1a : j1.avalaible = j.avalaible - json_check_separator_len j -
      (json_escape_char_get_len p.1 + 3) - 4 := by rw [hj1]; simp only [hol, hcs]
  have hn : json_number_cat_pchar j1 p.2 = some
      { j1 with buffer := j1.buffer ++ p.2, avalaible := j1.avalaible - (p.2.length : Int),
                stack := stack_set j1.stack j1.level ⟨false, 4, JSON_ATTR⟩ } := by
    have hfit : ¬ ((p.2.length : Int) + json_check_separator_len j1 > j1.avalaible) := by
      rw [h1sep, h1a]; omega
    unfold json_number_cat_pchar
    rw [if_neg (by simp [h1w]), if_neg hfit]
    simp [json_check_separator_write_eq, json_cat_pchar_noctl, h1sep, h1top, separator, h1w]
  obtain ⟨j2, hj2⟩ : ∃ j2 : json, j2 =
      { j1 with buffer := j1.buffer ++ p.2, avalaible := j1.avalaible - (p.2.length : Int),
                stack := stack_set j1.stack j1.level ⟨false, 4, JSON_ATTR⟩ } := ⟨_, rfl⟩
  rw [← hj2] at hn
  have h2w : j2.do_write = true := by rw [hj2]; exact h1w
  have h2l : j2.level = 2 := by rw [hj2, hj1]; simp only [hl]; rfl
  have h2top : j2.stack j2.level = ⟨false, 4, JSON_ATTR⟩ := by rw [hj2]; simp
  have h2i : j2.do_indent = false := by rw [hj2, hj1]; exact hi
  have hcl : closing j2 = [] := by simp [closing, h2top, h2i]
  have h2s1 : j2.stack 1 = { j.stack 1 with is_first := false } := by
    rw [hj2, hj1]
    simp [stack_set, hl]
  refine ⟨json_pop j2, ?_, ?_, ?_, ?_, ?_, ?_, ?_, ?_, ?_⟩
  · simp [attr_number_calls, json_calls, json_call, hp, hn]
  · rw [json_pop_eq j2 h2w (by omega), hcl, hj2, hj1]
    simp [opening, attr_number_text]
  · rw [json_pop_eq j2 h2w (by omega), hcl, h2top, hj2]
    simp only [h1a, List.length_append, hit, List.length_nil]
    push_cast
    omega
  · rw [json_pop_do_write]; exact h2w
  · rw [json_pop_do_indent]; exact h2i
  · rw [json_pop_level j2 h2w (by omega), h2l]; rfl
  · rw [json_pop_stack, h2s1]; exact he
  · rw [json_pop_stack, h2s1]
  · rw [json_pop_stack, h2s1]

theorem attrs_calls_run (ps : List (List CChar × List CChar)) (j : json)
    (hw : j.do_write = true) (hi : j.do_indent = false) (hl : j.level = 1)
    (he : (j.stack 1).elt = JSON_OBJECT)
    (hc : ((items_text (j.stack 1).is_first ps).length : Int) + 5 ≤ j.avalaible) :
    ∃ j1, json_calls j (attrs_calls ps) = some j1 ∧
      j1.buffer = j.buffer ++ items_text (j.stack 1).is_first ps ∧
      j1.avalaible = j.avalaible - ((items_text (j.stack 1).is_first ps).length : Int) ∧
      j1.do_write = true ∧ j1.do_indent = false ∧ j1.level = 1 ∧
      (j1.stack 1).elt = JSON_OBJECT ∧ (j1.stack 1).reserved = (j.stack 1).reserved := by
  induction ps generalizing j with
  | nil => exact ⟨j, rfl, by simp [items_text], by simp [items_text], hw, hi, hl, he, rfl⟩
  | cons p ps ih =>
    simp only [items_text, List.length_append] at hc ⊢
    push_cast at hc
    obtain ⟨j1, h1, hb, ha, h1w, h1i, h1l, h1e, h1f, h1r⟩ :=
      attr_number_step p j hw hi hl he (by rw [List.length_append]; push_cast; omega)
    rw [List.length_append] at ha
    push_cast at ha
    obtain ⟨j2, h2, h2b, h2a, h2w, h2i, h2l, h2e, h2r⟩ :=
      ih j1 h1w h1i h1l h1e (by rw [h1f, ha]; omega)
    rw [h1f] at h2b h2a
    refine ⟨j2, ?_, ?_, ?_, h2w, h2i, h2l, h2e, by rw [h2r, h1r]⟩
    · rw [attrs_calls, json_calls_append, h1]; exact h2
    · rw [h2b, hb]; simp
    · rw [h2a, ha]; push_cast; omega

theorem count_tabs_eq_filter (s : Int → json_stack) (n : Nat) :
    count_tabs s n = ((List.range n).filter (fun (i : Nat) => is_indented (s (i : Int)).elt)).length := by
  induction n with
  | zero => rfl
  | succ n ih =>
    rw [count_tabs, ih, List.range_succ, List.filter_append, List.length_append]
    by_cases h : is_indented (s (n : Int)).elt = true <;> simp [h]

/-! ## Facts about the grammar -/

theorem all_ws_append (a b : List CChar) : all_ws (a ++ b) = (all_ws a && all_ws b) := by
  simp [all_ws]

theorem all_ws_nil : all_ws [] = true := rfl

theorem all_ws_tabs (n : Nat) : all_ws (List.replicate n 9) = true := by
  simp [all_ws, is_ws]

theorem all_ws_newline_tabs (n : Nat) : all_ws (10 :: List.replicate n 9) = true := by
  simp [all_ws, is_ws]

theorem StrBody.append {s t : List CChar} (hs : StrBody s) (ht : StrBody t) :
    StrBody (s ++ t) := by
  induction hs with
  | nil => simpa using ht
  | plain c s hc _ ih => exact StrBody.plain c _ hc ih
  | esc c s hc _ ih => exact StrBody.esc c _ hc ih
  | uni a b c d s ha hb hc hd _ ih => exact StrBody.uni a b c d _ ha hb hc hd ih

theorem StrBody.of_plain (t : List CChar) (h : t.all is_plain = true) : StrBody t := by
  induction t with
  | nil => exact StrBody.nil
  | cons c t ih =>
    simp only [List.all_cons, Bool.and_eq_true] at h
    exact StrBody.plain c t h.1 (ih h.2)

theorem is_hex_hex_digit (n : Nat) (h : n < 16) : is_hex (hex_digit n) = true := by
  unfold hex_digit is_hex is_digit
  split_ifs <;> simp
  · exact Or.inl (Or.inl (by omega))
  · exact Or.inl (Or.inr ⟨by omega, by omega⟩)

theorem sprintf_04x_hex (v : Int) : ∀ c ∈ sprintf_04x v, is_hex c = true := by
  intro c hc
  simp only [sprintf_04x, List.mem_map, List.mem_append] at hc
  obtain ⟨d, hd, rfl⟩ := hc
  apply is_hex_hex_digit
  rcases hd with hd | hd
  · have := (List.dropWhile_sublist _).subset hd
    simp only [List.mem_cons, List.mem_singleton, List.not_mem_nil, or_false] at this
    omega
  · simp only [List.mem_cons, List.mem_singleton, List.not_mem_nil, or_false] at hd
    omega

theorem StrBody.escape_char (c : CChar) : StrBody (escape_char c) := by
  have two : ∀ e : CChar, e ∈ [34, 92, 47, 98, 102, 110, 114, 116] → StrBody [92, e] :=
    fun e he => StrBody.esc e [] he StrBody.nil
  unfold JsonWriter.escape_char
  split_ifs with h1 h2 h3 h4 h5 h6 h7 h8 h9
  · exact two 34 (by decide)
  · exact two 92 (by decide)
  · exact two 47 (by decide)
  · exact two 98 (by decide)
  · exact two 102 (by decide)
  · exact two 114 (by decide)
  · exact two 110 (by decide)
  · exact two 116 (by decide)
  · have hl := sprintf_04x_take_length c
    have hx : ∀ x ∈ (sprintf_04x c).take 4, is_hex x = true :=
      fun x hx => sprintf_04x_hex c x (List.mem_of_mem_take hx)
    match hm : (sprintf_04x c).take 4, hl, hx with
    | [a, b, c1, d], _, hx =>
      exact StrBody.uni a b c1 d [] (hx a (by simp)) (hx b (by simp)) (hx c1 (by simp))
        (hx d (by simp)) StrBody.nil
  · have hp : isprint c = true := by simpa using h9
    simp only [isprint, decide_eq_true_eq] at hp
    exact StrBody.plain c [] (by simp only [is_plain, decide_eq_true_eq]; exact ⟨Or.inl hp.1, h1, h2⟩)
      StrBody.nil

theorem StrBody.escaped (data : List CChar) : StrBody (escaped data) := by
  induction data with
  | nil => exact StrBody.nil
  | cons c data ih => exact (StrBody.escape_char c).append ih

theorem Json.element_ws {e w : List CChar} (he : Json .element e) (hw : all_ws w = true) :
    Json .element (e ++ w) := by
  cases he with
  | element w1 v w2 h1 hv h2 =>
    rw [List.append_assoc]
    exact Json.element w1 v (w2 ++ w) h1 hv (by rw [all_ws_append, h2, hw]; rfl)

theorem Json.ws_element {e w : List CChar} (he : Json .element e) (hw : all_ws w = true) :
    Json .element (w ++ e) := by
  cases he with
  | element w1 v w2 h1 hv h2 =>
    rw [← List.append_assoc, ← List.append_assoc]
    exact Json.element (w ++ w1) v w2 (by rw [all_ws_append, h1, hw]; rfl) hv h2

theorem Json.elements_ws {es w : List CChar} (he : Json .elements es) (hw : all_ws w = true) :
    Json .elements (es ++ w) := by
  cases he with
  | elements_one e h => exact Json.elements_one _ (h.element_ws hw)
  | elements_more es e h1 h2 =>
    rw [List.append_assoc, List.cons_append]
    exact Json.elements_more es _ h1 (h2.element_ws hw)

theorem Json.member_ws {m w : List CChar} (hm : Json .member m) (hw : all_ws w = true) :
    Json .member (m ++ w) := by
  cases hm with
  | member w1 k w2 e h1 hk h2 he =>
    rw [List.append_assoc, List.cons_append]
    exact Json.member w1 k w2 _ h1 hk h2 (he.element_ws hw)

theorem Json.members_ws {ms w : List CChar} (hm : Json .members ms) (hw : all_ws w = true) :
    Json .members (ms ++ w) := by
  cases hm with
  | members_one m h => exact Json.members_one _ (h.member_ws hw)
  | members_more ms m h1 h2 =>
    rw [List.append_assoc, List.cons_append]
    exact Json.members_more ms _ h1 (h2.member_ws hw)

theorem Json.value_element {v : List CChar} (hv : Json .value v) : Json .element v := by
  have := Json.element [] v [] rfl hv rfl
  simpa using this

/-- No JSON value is empty. -/
theorem Json.value_ne_nil {v : List CChar} (hv : Json .value v) : v ≠ [] := by
  cases hv with
  | number s h =>
    intro hs; subst hs; exact absurd h (by decide)
  | _ => simp [cstr]

/-- The empty text is not a JSON text. -/
theorem not_is_json_text_nil : ¬ is_json_text [] := by
  intro h
  unfold is_json_text at h
  generalize hs : ([] : List CChar) = s at h
  cases h with
  | element w1 v w2 h1 hv h2 =>
    have : v = [] := by
      have := congrArg List.length hs
      simp at this
      exact List.length_eq_zero.mp (by omega)
    exact hv.value_ne_nil this

theorem skip_digits_all (ds : List CChar) (h : ds.all is_digit = true) : skip_digits ds = [] := by
  induction ds with
  | nil => rfl
  | cons d ds ih =>
    simp only [List.all_cons, Bool.and_eq_true] at h
    simp [skip_digits, h.1, ih h.2]

theorem decimal_digits_spec (fuel n : Nat) (h : n < fuel) :
    ∃ d ds, decimal_digits fuel n = d :: ds ∧ is_digit d = true ∧ ds.all is_digit = true ∧
      (d = 48 → n = 0) := by
  induction fuel generalizing n with
  | zero => omega
  | succ fuel ih =>
    by_cases hn : n < 10
    · refine ⟨48 + (n : Int), [], by simp [decimal_digits, hn], ?_, rfl, ?_⟩
      · simp only [is_digit, decide_eq_true_eq]; omega
      · intro h0
        have h0i : (48 : Int) + (n : Int) = 48 := h0
        omega
    · obtain ⟨d, ds, h1, h2, h3, h4⟩ := ih (n / 10) (by omega)
      refine ⟨d, ds ++ [48 + ((n % 10 : Nat) : Int)], by simp [decimal_digits, hn, h1], h2, ?_, ?_⟩
      · simp only [List.all_append, h3, List.all_cons, List.all_nil, Bool.and_true, Bool.true_and,
          is_digit, decide_eq_true_eq]
        omega
      · intro h0
        have := h4 h0
        omega

theorem json_int_ok_digits (d : CChar) (ds : List CChar) (h2 : is_digit d = true)
    (h3 : ds.all is_digit = true) (h4 : d = 48 → ds = []) : json_int_ok (d :: ds) = true := by
  by_cases h0 : d = 48
  · rw [h4 h0, h0]; rfl
  · simp [json_int_ok, h0, h2, skip_digits_all ds h3, json_frac_ok, json_exp_ok]

/-- The expansion of `"%d"` is a JSON number. -/
theorem is_json_number_format_d (n : Int) : is_json_number (format_d n) = true := by
  obtain ⟨d, ds, h1, h2, h3, h4⟩ := decimal_digits_spec (n.natAbs + 1) n.natAbs (by omega)
  have h5 : d = 48 → ds = [] := by
    intro h0
    have hz := h4 h0
    rw [hz] at h1
    simp [decimal_digits] at h1
    exact h1.2
  have hd : d ≠ 45 := by
    intro h0
    rw [h0] at h2
    exact absurd h2 (by decide)
  unfold format_d
  split_ifs
  · rw [h1]
    exact json_int_ok_digits d ds h2 h3 h5
  · rw [h1]
    have : is_json_number (d :: ds) = json_int_ok (d :: ds) := by
      unfold is_json_number
      split
      · rename_i heq
        simp at heq
        exact absurd heq.1 hd
      · rfl
    rw [this]
    exact json_int_ok_digits d ds h2 h3 h5

theorem Accepts.open {pk k : json_types} {f0 : Bool} (h : Accepts pk f0 k) : Open pk f0 := by
  cases pk <;> simp_all [Accepts, Open]

theorem Accepts.child_value {pk k : json_types} {f0 : Bool} {x : List CChar}
    (h : Accepts pk f0 k) (hk : k ≠ JSON_ATTR) (hx : Json .value x) : ChildOf pk x := by
  cases pk <;> simp_all [Accepts, ChildOf]

theorem value_expected_open (j : json) (h : value_expected j = true) :
    Open (j.stack j.level).elt (j.stack j.level).is_first ∧
      (j.stack j.level).elt ≠ JSON_OBJECT := by
  unfold value_expected at h
  cases he : (j.stack j.level).elt <;> simp_all [Open]

/-- A complete child, after the comma and whitespace that separate it, extends the content
of its parent. -/
theorem Content.add_child {k : json_types} {f0 : Bool} {c w x : List CChar}
    (hc : Content k f0 c) (ho : Open k f0) (hw : all_ws w = true) (hx : ChildOf k x) :
    Content k false (c ++ (if f0 then [] else [44]) ++ w ++ x) := by
  cases k with
  | JSON_ANY =>
    simp only [Open] at ho
    simp only [Content, ho, if_true, ChildOf, Bool.false_eq_true, if_false,
      List.append_nil] at hc hx ⊢
    have := Json.element (c ++ w) x [] (by rw [all_ws_append, hc, hw]; rfl) hx rfl
    simpa using this
  | JSON_ATTR =>
    simp only [Open] at ho
    simp only [Content, ho, if_true, ChildOf, Bool.false_eq_true, if_false,
      List.append_nil] at hc hx ⊢
    obtain ⟨name, hn, rfl⟩ := hc
    refine ⟨name, hn, w ++ x, by simp, ?_⟩
    have := Json.element w x [] hw hx rfl
    simpa using this
  | JSON_ARRAY =>
    simp only [ChildOf] at hx
    have he : Json .element (w ++ x) := by
      have := Json.element w x [] hw hx rfl
      simpa using this
    cases f0 with
    | true =>
      simp only [Content, if_true, Bool.false_eq_true, if_false, List.append_nil] at hc ⊢
      subst hc
      exact ⟨w ++ x, by simp, Json.elements_one _ he⟩
    | false =>
      simp only [Content, Bool.false_eq_true, if_false] at hc ⊢
      obtain ⟨es, rfl, hes⟩ := hc
      exact ⟨es ++ 44 :: (w ++ x), by simp, Json.elements_more es _ hes he⟩
  | JSON_OBJECT =>
    simp only [ChildOf] at hx
    obtain ⟨name, e, hn, he, rfl⟩ := hx
    have hm : Json .member (w ++ (34 :: name ++ [34, 58] ++ e)) := by
      have := Json.member w name [] e hw hn rfl he
      simpa using this
    cases f0 with
    | true =>
      simp only [Content, if_true, Bool.false_eq_true, if_false, List.append_nil] at hc ⊢
      subst hc
      exact ⟨_, by simp, Json.members_one _ hm⟩
    | false =>
      simp only [Content, Bool.false_eq_true, if_false] at hc ⊢
      obtain ⟨ms, rfl, hms⟩ := hc
      exact ⟨ms ++ 44 :: (w ++ (34 :: name ++ [34, 58] ++ e)), by simp,
        Json.members_more ms _ hms hm⟩
  | _ => simp [Open] at ho

/-- The bytes `json_pop` stores complete the top frame into a child of its parent. -/
theorem Content.close (j : json) {pk : json_types} {f0 : Bool} {c : List CChar}
    (ha : Accepts pk f0 (j.stack j.level).elt)
    (hc : Content (j.stack j.level).elt (j.stack j.level).is_first c) :
    ChildOf pk (c ++ closing j) := by
  unfold closing
  cases hk : (j.stack j.level).elt with
  | JSON_OBJECT =>
    rw [hk] at ha hc
    have hv : ∀ w : List CChar, all_ws w = true → Json .value (c ++ (w ++ [125])) := by
      intro w hw
      cases hf : (j.stack j.level).is_first with
      | true =>
        simp only [Content, hf, if_true] at hc
        subst hc
        exact Json.empty_object w hw
      | false =>
        simp only [Content, hf, Bool.false_eq_true, if_false] at hc
        obtain ⟨ms, rfl, hms⟩ := hc
        have := Json.object _ (hms.members_ws hw)
        simpa using this
    apply ha.child_value (by simp)
    by_cases hi : j.do_indent = true
    · simpa [hi] using hv _ (all_ws_newline_tabs _)
    · simpa [hi] using hv [] rfl
  | JSON_ARRAY =>
    rw [hk] at ha hc
    have hv : ∀ w : List CChar, all_ws w = true → Json .value (c ++ (w ++ [93])) := by
      intro w hw
      cases hf : (j.stack j.level).is_first with
      | true =>
        simp only [Content, hf, if_true] at hc
        subst hc
        exact Json.empty_array w hw
      | false =>
        simp only [Content, hf, Bool.false_eq_true, if_false] at hc
        obtain ⟨es, rfl, hes⟩ := hc
        have := Json.array _ (hes.elements_ws hw)
        simpa using this
    apply ha.child_value (by simp)
    by_cases hi : j.do_indent = true
    · simpa [hi] using hv _ (all_ws_newline_tabs _)
    · simpa [hi] using hv [] rfl
  | JSON_STRING =>
    rw [hk] at ha hc
    simp only [Content] at hc
    obtain ⟨b, rfl, hb⟩ := hc
    apply ha.child_value (by simp)
    simpa using Json.string b hb
  | JSON_ATTR =>
    rw [hk] at ha hc
    have hpk : pk = JSON_OBJECT := by
      cases pk <;> simp_all [Accepts]
    subst hpk
    simp only [Content] at hc
    obtain ⟨name, hn, hc⟩ := hc
    cases hf : (j.stack j.level).is_first with
    | true =>
      simp only [hf, if_true] at hc
      subst hc
      refine ⟨name, cstr "null", hn, Json.lit_null.value_element, ?_⟩
      simp
    | false =>
      simp only [hf, Bool.false_eq_true, if_false] at hc
      obtain ⟨e, rfl, he⟩ := hc
      exact ⟨name, e, hn, he, by simp⟩
  | _ =>
    rw [hk] at ha
    cases pk <;> simp [Accepts] at ha

theorem Partial.extend {k : json_types} {f f2 : Bool} {ps : List json_types}
    {s x : List CChar} (h : Partial (k, f) ps s)
    (hx : ∀ c, Content k f c → Content k f2 (c ++ x)) : Partial (k, f2) ps (s ++ x) := by
  cases ps with
  | nil =>
    simp only [Partial] at h ⊢
    exact ⟨h.1, hx _ h.2⟩
  | cons pk ps =>
    simp only [Partial] at h ⊢
    obtain ⟨f0, s0, w, c, rfl, hw, ha, hc, hp⟩ := h
    exact ⟨f0, s0, w, c ++ x, by simp, hw, ha, hx c hc, hp⟩

theorem parents_congr (s1 s2 : Int → json_stack) (n : Nat)
    (h : ∀ i : Nat, i < n → (s1 (i : Int)).elt = (s2 (i : Int)).elt) :
    parents s1 n = parents s2 n := by
  induction n with
  | zero => rfl
  | succ n ih =>
    simp only [parents]
    rw [h n (by omega), ih (fun i hi => h i (by omega))]

/-- A write that appends to the content of the top frame keeps the document invariant. -/
theorem doc_inv_append (j j1 : json) (x : List CChar) (h : doc_inv j)
    (hl : j1.level = j.level) (hw : j1.do_write = j.do_write)
    (hs : ∀ i : Nat, (i : Int) < j.level → j1.stack (i : Int) = j.stack (i : Int))
    (he : (j1.stack j.level).elt = (j.stack j.level).elt)
    (hb : j1.buffer = j.buffer ++ x)
    (hx : ∀ c, Content (j.stack j.level).elt (j.stack j.level).is_first c →
      Content (j.stack j.level).elt (j1.stack j.level).is_first (c ++ x)) : doc_inv j1 := by
  obtain ⟨h1, h2, h3⟩ := h
  refine ⟨level_ok_of_eq h1 hl hw, ?_, ?_⟩
  · intro i hi
    rw [hl] at hi
    rw [hs i hi]
    exact h2 i hi
  · rw [hl, hb, he]
    have hp : parents j1.stack j.level.toNat = parents j.stack j.level.toNat :=
      parents_congr _ _ _ (fun i hi => by rw [hs i (by omega)])
    rw [hp]
    exact h3.extend hx

theorem doc_inv_pop (j : json) (h : doc_inv j) : doc_inv (json_pop j) := by
  by_cases hw : j.do_write = true
  · by_cases hl : 0 < j.level
    · obtain ⟨h1, h2, h3⟩ := h
      refine ⟨level_ok_pop j h1, ?_, ?_⟩
      · intro i hi
        rw [json_pop_level j hw hl] at hi
        rw [json_pop_stack]
        exact h2 i (by omega)
      · rw [json_pop_stack, json_pop_level j hw hl]
        obtain ⟨m, hm⟩ : ∃ m : Nat, j.level = (m : Int) + 1 := ⟨(j.level - 1).toNat, by omega⟩
        have hm1 : j.level.toNat = m + 1 := by omega
        have hm2 : (j.level - 1).toNat = m := by omega
        have hm3 : j.level - 1 = (m : Int) := by omega
        rw [hm1] at h3
        simp only [parents, Partial] at h3
        obtain ⟨f0, s0, w, c, hb, hws, ha, hc, hp⟩ := h3
        have hf := h2 m (by omega)
        rw [hm2, hm3, hf]
        have hbuf : (json_pop j).buffer =
            s0 ++ ((if f0 then [] else [44]) ++ w ++ (c ++ closing j)) := by
          rw [json_pop_eq j hw hl]
          simp [hb]
        rw [hbuf]
        apply hp.extend
        intro c0 hc0
        have := hc0.add_child ha.open hws (Content.close j ha hc)
        simpa using this
    · rw [json_pop_of_level_le j (by omega)]; exact h
  · rw [json_pop_of_not_write j (by simpa using hw)]; exact h

theorem doc_inv_iterate_pop (n : Nat) (j : json) (h : doc_inv j) : doc_inv (json_pop^[n] j) := by
  induction n generalizing j with
  | zero => exact h
  | succ n ih =>
    rw [Function.iterate_succ_apply]
    exact ih _ (doc_inv_pop j h)

theorem doc_inv_clear (j : json) (h : doc_inv j) (hl : j.level = 0) :
    doc_inv { j with do_write := false } :=
  ⟨level_ok_of_closed hl, h.2.1, h.2.2⟩

/-- The forced closure keeps the document invariant and ends at depth 0. -/
theorem doc_inv_close_all (j : json) (h : doc_inv j) :
    ∃ j1, json_close_all j = some j1 ∧ doc_inv j1 := by
  by_cases hw : j.do_write = true
  · obtain ⟨_, h2, _⟩ := json_close_all_loop_eq j.level.toNat j hw (by have := h.1.1; omega)
    exact ⟨_, json_close_all_eq j hw h.1.1,
      doc_inv_clear _ (doc_inv_iterate_pop _ j h) h2⟩
  · have h0 : j.level = 0 := h.1.2.2 (by simpa using hw)
    exact ⟨_, json_close_all_of_level_le j (by omega), doc_inv_clear j h h0⟩

/-- The separator is a comma, unless the child is the first one, followed by whitespace. -/
theorem separator_shape (j : json)
    (h : (j.stack j.level).elt = JSON_ATTR → (j.stack j.level).is_first = true) :
    ∃ w, all_ws w = true ∧
      separator j = (if (j.stack j.level).is_first then [] else [44]) ++ w := by
  unfold separator
  by_cases ha : (j.stack j.level).elt = JSON_ATTR
  · exact ⟨[], rfl, by simp [ha, h ha]⟩
  · simp only [ha, if_false]
    by_cases hi : j.do_indent = true
    · simp only [hi, if_true]
      refine ⟨_, ?_, rfl⟩
      split_ifs
      · exact all_ws_newline_tabs _
      · simpa using all_ws_tabs _
    · simp only [hi, Bool.false_eq_true, if_false]
      exact ⟨[], rfl, rfl⟩

theorem Content.opening (elt : json_types) (name : List CChar) (he : is_pushable elt = true) :
    Content elt true (opening elt name) := by
  cases elt <;> simp [is_pushable] at he <;> simp [Content, JsonWriter.opening]
  · exact StrBody.nil
  · exact StrBody.escaped name

/-- A value written where one is expected keeps the document invariant. -/
theorem doc_inv_value (j j1 : json) (v : List CChar) (h : doc_inv j)
    (hv : value_expected j = true) (hj : Json .value v)
    (hl : j1.level = j.level) (hw : j1.do_write = j.do_write)
    (hs : j1.stack = stack_set j.stack j.level { j.stack j.level with is_first := false })
    (hb : j1.buffer = j.buffer ++ separator j ++ v) : doc_inv j1 := by
  obtain ⟨ho, hno⟩ := value_expected_open j hv
  obtain ⟨w, hws, hsep⟩ := separator_shape j (by
    intro ha
    rw [ha] at ho
    exact ho)
  apply doc_inv_append j j1 (separator j ++ v) h hl hw
  · intro i hi
    rw [hs, stack_set_ne _ _ _ _ (by omega)]
  · rw [hs]; simp
  · rw [hb]; simp
  · intro c hc
    rw [hs, hsep]
    simp only [stack_set_same]
    have hch : ChildOf (j.stack j.level).elt v := by
      cases hk : (j.stack j.level).elt <;> simp_all [ChildOf]
    have := hc.add_child ho hws hch
    simpa using this

/-- A push that is legal and accepted keeps the document invariant. -/
theorem doc_inv_push_ok (j : json) (elt : json_types) (name : List CChar) (h : doc_inv j)
    (hlg : legal j (.push elt name) = true) (he : is_pushable elt = true)
    (hl : j.level < JSON_STACK_DEEP - 1) (hw : j.do_write = true) :
    doc_inv
      { j with
        buffer := j.buffer ++ separator j ++ opening elt name
        avalaible := j.avalaible - json_check_separator_len j - ((opening elt name).length : Int)
                      - json_push_close_size j elt
        level := j.level + 1
        stack := stack_set (stack_set j.stack j.level { j.stack j.level with is_first := false })
                  (j.level + 1) ⟨true, json_push_close_size j elt, elt⟩ } := by
  obtain ⟨h1, h2, h3⟩ := h
  have hacc : Accepts (j.stack j.level).elt (j.stack j.level).is_first elt := by
    simp only [legal] at hlg
    by_cases hat : elt = JSON_ATTR
    · simp only [hat, if_true, decide_eq_true_eq] at hlg
      rw [hat, hlg]
      simp [Accepts]
    · have hk : elt = JSON_OBJECT ∨ elt = JSON_ARRAY ∨ elt = JSON_STRING := by
        simp only [is_pushable, Bool.or_eq_true, decide_eq_true_eq] at he
        tauto
      simp only [hat, if_false, hk, if_true] at hlg
      unfold value_expected at hlg
      cases hk2 : (j.stack j.level).elt <;> simp_all [Accepts]
  obtain ⟨w, hws, hsep⟩ := separator_shape j (by
    intro ha
    have := hacc.open
    rw [ha] at this
    exact this)
  have hl0 := h1.1
  refine ⟨?_, ?_, ?_⟩
  · unfold level_ok JSON_STACK_DEEP at h1 ⊢
    unfold JSON_STACK_DEEP at hl
    simp only [hw]
    refine ⟨by omega, by omega, by simp⟩
  · intro i hi
    simp only at hi ⊢
    by_cases hil : (i : Int) = j.level
    · rw [stack_set_ne _ _ _ _ (by omega), hil]
      simp
    · rw [stack_set_ne _ _ _ _ (by omega), stack_set_ne _ _ _ _ hil]
      exact h2 i (by omega)
  · simp only [stack_set_same]
    obtain ⟨m, hm⟩ : ∃ m : Nat, j.level = (m : Int) := ⟨j.level.toNat, by omega⟩
    have hm1 : (j.level + 1).toNat = m + 1 := by omega
    have hm2 : j.level.toNat = m := by omega
    rw [hm1]
    simp only [parents, Partial]
    rw [hm2] at h3
    refine ⟨(j.stack j.level).is_first, j.buffer, w, opening elt name, ?_, hws, ?_, ?_, ?_⟩
    · rw [hsep]; simp
    · rw [stack_set_ne _ _ _ _ (by omega), ← hm]
      simpa using hacc
    · exact Content.opening elt name he
    · rw [stack_set_ne _ _ _ _ (by omega), ← hm]
      simp only [stack_set_same]
      have hp : parents (stack_set (stack_set j.stack j.level
            { j.stack j.level with is_first := false })
          (j.level + 1) ⟨true, json_push_close_size j elt, elt⟩) m = parents j.stack m := by
        apply parents_congr
        intro i hi
        rw [stack_set_ne _ _ _ _ (by omega), stack_set_ne _ _ _ _ (by omega)]
      rw [hp]
      exact h3

theorem doc_inv_push (j : json) (elt : json_types) (name : List CChar) (h : doc_inv j)
    (hlg : legal j (.push elt name) = true) :
    ∃ j1, json_push j elt name = some j1 ∧ doc_inv j1 := by
  by_cases hw : j.do_write = true
  · by_cases hl : j.level < JSON_STACK_DEEP - 1
    · by_cases he : is_pushable elt = true
      · by_cases ht : (j.stack j.level).elt = JSON_STRING
        · exact ⟨j, by simp [json_push, ht], h⟩
        · by_cases hc : j.avalaible < json_push_write_size j elt name + json_push_close_size j elt
          · rw [json_push_full j elt name hw hl he ht hc]
            exact doc_inv_close_all j h
          · exact ⟨_, json_push_ok j elt name hw hl he ht (by omega),
              doc_inv_push_ok j elt name h hlg he hl hw⟩
      · refine ⟨j, ?_, h⟩
        have he2 : ¬ (elt = JSON_ATTR ∨ elt = JSON_OBJECT ∨ elt = JSON_ARRAY ∨ elt = JSON_STRING) := by
          simp only [is_pushable, Bool.or_eq_true, decide_eq_true_eq] at he
          tauto
        simp [json_push, he2]
    · exact ⟨j, by simp [json_push, show j.level ≥ JSON_STACK_DEEP - 1 by omega], h⟩
  · exact ⟨j, by simp [json_push, hw], h⟩

theorem doc_inv_number_cat_pchar (j : json) (cat : List CChar) (h : doc_inv j)
    (hv : value_expected j = true) (hj : Json .value cat) :
    ∃ j1, json_number_cat_pchar j cat = some j1 ∧ doc_inv j1 := by
  unfold json_number_cat_pchar
  split_ifs
  · exact ⟨j, rfl, h⟩
  · exact doc_inv_close_all j h
  · refine ⟨_, rfl, doc_inv_value j _ cat h hv hj ?_ ?_ ?_ ?_⟩ <;>
      simp [json_cat_pchar_noctl, json_check_separator_write_eq]

theorem doc_inv_number_printf (j : json) (txt : Option (List CChar)) (h : doc_inv j)
    (hv : value_expected j = true) (hj : ∀ t, txt = some t → Json .value t) :
    ∃ j1, json_number_printf j txt = some j1 ∧ doc_inv j1 := by
  unfold json_number_printf
  split_ifs
  · exact ⟨j, rfl, h⟩
  · cases txt with
    | none => exact doc_inv_close_all j h
    | some t =>
      simp only
      split_ifs
      · exact doc_inv_close_all j h
      · refine ⟨_, rfl, doc_inv_value j _ t h hv (hj t rfl) ?_ ?_ ?_ ?_⟩ <;>
          simp [json_check_separator_write_eq]

/-- String content appended inside an open string keeps the document invariant. -/
theorem doc_inv_string_content (j : json) (x : List CChar) (a : Int) (h : doc_inv j)
    (ht : (j.stack j.level).elt = JSON_STRING) (hx : StrBody x) :
    doc_inv { j with buffer := j.buffer ++ x, avalaible := a } := by
  refine doc_inv_append j { j with buffer := j.buffer ++ x, avalaible := a } x h rfl rfl
    (fun _ _ => rfl) rfl rfl ?_
  intro c hc
  rw [ht] at hc ⊢
  simp only [Content] at hc ⊢
  obtain ⟨b, rfl, hb⟩ := hc
  exact ⟨b ++ x, by simp, hb.append hx⟩

theorem doc_inv_cat_pchar (j : json) (cat : List CChar) (h : doc_inv j)
    (hp : cat.all is_plain = true) :
    ∃ j1, json_cat_pchar j cat = some j1 ∧ doc_inv j1 := by
  unfold json_cat_pchar
  split_ifs with h1 h2 h3
  · exact ⟨j, rfl, h⟩
  · exact ⟨j, rfl, h⟩
  · exact doc_inv_close_all j h
  · exact ⟨_, rfl, doc_inv_string_content j cat _ h (by simpa using h2) (StrBody.of_plain cat hp)⟩

theorem doc_inv_printf (j : json) (txt : Option (List CChar)) (h : doc_inv j)
    (hp : ∀ t, txt = some t → t.all is_plain = true) :
    ∃ j1, json_printf j txt = some j1 ∧ doc_inv j1 := by
  unfold json_printf
  split_ifs with h1 h2
  · exact ⟨j, rfl, h⟩
  · exact ⟨j, rfl, h⟩
  · cases txt with
    | none => exact doc_inv_close_all j h
    | some t =>
      simp only
      split_ifs
      · exact doc_inv_close_all j h
      · exact ⟨_, rfl, doc_inv_string_content j t _ h (by simpa using h2)
          (StrBody.of_plain t (hp t rfl))⟩

theorem doc_inv_escape (data : List CChar) (j : json) (h : doc_inv j)
    (ht : (j.stack j.level).elt = JSON_STRING) :
    ∃ j1, json_escape_char_len j data = some j1 ∧ doc_inv j1 := by
  induction data generalizing j with
  | nil => exact ⟨j, rfl, h⟩
  | cons c data ih =>
    rw [json_escape_char_len_step]
    split_ifs
    · exact doc_inv_close_all j h
    · exact ih _ (doc_inv_string_content j _ _ h ht (StrBody.escape_char c)) ht

theorem doc_inv_cat_escaped_pchar (j : json) (cat : List CChar) (h : doc_inv j) :
    ∃ j1, json_cat_escaped_pchar j cat = some j1 ∧ doc_inv j1 := by
  unfold json_cat_escaped_pchar
  split_ifs with h1 h2 h3
  · exact ⟨j, rfl, h⟩
  · exact ⟨j, rfl, h⟩
  · exact doc_inv_close_all j h
  · exact doc_inv_escape cat j h (by simpa using h2)

theorem doc_inv_finalize (j : json) (h : doc_inv j) (hl : j.level = 0) :
    doc_inv (json_finalize j) := by
  unfold json_finalize
  split_ifs
  · exact h
  · exact h
  · refine doc_inv_append j (json_add_char_noctl j 10) [10] h rfl rfl (fun _ _ => rfl) rfl rfl ?_
    intro c hc
    have hk : (j.stack j.level).elt = JSON_ANY := by
      have h3 := h.2.2
      have h0 : j.level.toNat = 0 := by omega
      rw [h0] at h3
      exact h3.1
    rw [hk] at hc ⊢
    simp only [json_add_char_noctl]
    cases hf : (j.stack j.level).is_first with
    | true =>
      simp only [Content, hf, if_true] at hc ⊢
      rw [all_ws_append, hc]; rfl
    | false =>
      simp only [Content, hf, Bool.false_eq_true, if_false] at hc ⊢
      exact hc.element_ws rfl
  · exact h

theorem legal_push_string (j : json) (hv : value_expected j = true) :
    legal j (.push JSON_STRING []) = true := by
  simp [legal, hv]

theorem doc_inv_string_cat_pchar (j : json) (cat : List CChar) (h : doc_inv j)
    (hv : value_expected j = true) (hp : cat.all is_plain = true) :
    ∃ j1, json_string_cat_pchar j cat = some j1 ∧ doc_inv j1 := by
  obtain ⟨j1, h1, h2⟩ := doc_inv_push j JSON_STRING [] h (legal_push_string j hv)
  obtain ⟨j2, h3, h4⟩ := doc_inv_cat_pchar j1 cat h2 hp
  exact ⟨json_pop j2, by simp [json_string_cat_pchar, h1, h3], doc_inv_pop j2 h4⟩

theorem doc_inv_string_cat_escaped_pchar (j : json) (cat : List CChar) (h : doc_inv j)
    (hv : value_expected j = true) :
    ∃ j1, json_string_cat_escaped_pchar j cat = some j1 ∧ doc_inv j1 := by
  obtain ⟨j1, h1, h2⟩ := doc_inv_push j JSON_STRING [] h (legal_push_string j hv)
  obtain ⟨j2, h3, h4⟩ := doc_inv_cat_escaped_pchar j1 cat h2
  exact ⟨json_pop j2, by simp [json_string_cat_escaped_pchar, h1, h3], doc_inv_pop j2 h4⟩

/-- Every legal call returns and keeps the document invariant. -/
theorem doc_inv_call (j : json) (o : json_op) (h : doc_inv j) (hlg : legal j o = true) :
    ∃ j1, json_call j o = some j1 ∧ doc_inv j1 := by
  cases o with
  | push elt name => exact doc_inv_push j elt name h hlg
  | pop => exact ⟨_, rfl, doc_inv_pop j h⟩
  | finalize => exact ⟨_, rfl, doc_inv_finalize j h (by simpa [legal] using hlg)⟩
  | printf txt =>
    apply doc_inv_printf j txt h
    intro t ht
    subst ht
    simpa [legal] using hlg
  | cat_pchar cat => exact doc_inv_cat_pchar j cat h (by simpa [legal] using hlg)
  | cat_escaped_pchar cat => exact doc_inv_cat_escaped_pchar j cat h
  | string_printf txt => simp [legal] at hlg
  | string_cat_pchar cat =>
    simp only [legal, Bool.and_eq_true] at hlg
    exact doc_inv_string_cat_pchar j cat h hlg.1 hlg.2
  | string_cat_escaped_pchar cat =>
    exact doc_inv_string_cat_escaped_pchar j cat h (by simpa [legal] using hlg)
  | number_cat_pchar cat =>
    simp only [legal, Bool.and_eq_true] at hlg
    exact doc_inv_number_cat_pchar j cat h hlg.1 (Json.number cat hlg.2)
  | number_printf txt =>
    simp only [legal, Bool.and_eq_true] at hlg
    apply doc_inv_number_printf j txt h hlg.1
    intro t ht
    subst ht
    exact Json.number t hlg.2
  | number_int number =>
    apply doc_inv_number_printf j (some (format_d number)) h (by simpa [legal] using hlg)
    intro t ht
    simp only [Option.some.injEq] at ht
    subst ht
    exact Json.number _ (is_json_number_format_d number)
  | number_double txt =>
    simp only [legal, Bool.and_eq_true] at hlg
    apply doc_inv_number_printf j (some txt) h hlg.1
    intro t ht
    simp only [Option.some.injEq] at ht
    subst ht
    exact Json.number _ hlg.2
  | add_true =>
    exact doc_inv_number_cat_pchar j _ h (by simpa [legal] using hlg) Json.lit_true
  | add_false => simp [legal] at hlg
  | add_null =>
    exact doc_inv_number_cat_pchar j _ h (by simpa [legal] using hlg) Json.lit_null

/-- Once `do_write` is cleared a call returns the writer as it was. -/
theorem json_call_of_not_write (j : json) (o : json_op) (hw : j.do_write = false) :
    json_call j o = some j := by
  have hpush : ∀ elt name, json_push j elt name = some j := by
    intro elt name; simp [json_push, hw]
  have hpop : json_pop j = j := json_pop_of_not_write j hw
  have hnum : ∀ cat, json_number_cat_pchar j cat = some j := by
    intro cat; simp [json_number_cat_pchar, hw]
  have hnp : ∀ txt, json_number_printf j txt = some j := by
    intro txt; simp [json_number_printf, hw]
  cases o with
  | push elt name => exact hpush elt name
  | pop => simp [json_call, hpop]
  | finalize => simp [json_call, json_finalize, hw]
  | printf txt => simp [json_call, json_printf, hw]
  | cat_pchar cat => simp [json_call, json_cat_pchar, hw]
  | cat_escaped_pchar cat => simp [json_call, json_cat_escaped_pchar, hw]
  | string_printf txt => simp [json_call, json_string_printf, hw]
  | string_cat_pchar cat => simp [json_call, json_string_cat_pchar, hpush, json_cat_pchar, hw, hpop]
  | string_cat_escaped_pchar cat =>
    simp [json_call, json_string_cat_escaped_pchar, hpush, json_cat_escaped_pchar, hw, hpop]
  | number_cat_pchar cat => exact hnum cat
  | number_printf txt => exact hnp txt
  | number_int number => exact hnp (some (format_d number))
  | number_double txt => exact hnp (some txt)
  | add_true => exact hnum _
  | add_false => exact hnum _
  | add_null => exact hnum _

/-- Once `do_write` is cleared a sequence of calls returns the writer as it was. -/
theorem json_calls_of_not_write (os : List json_op) (j : json) (hw : j.do_write = false) :
    json_calls j os = some j := by
  induction os with
  | nil => rfl
  | cons o os ih => simp [json_calls, json_call_of_not_write j o hw, ih]

theorem doc_inv_calls (os : List json_op) (j : json) (h : doc_inv j)
    (hlg : legal_calls j os = true) :
    ∃ j1, json_calls j os = some j1 ∧ doc_inv j1 := by
  induction os generalizing j with
  | nil => exact ⟨j, rfl, h⟩
  | cons o os ih =>
    by_cases hw : j.do_write = true
    · simp only [legal_calls, hw, Bool.not_true, Bool.false_or, Bool.and_eq_true] at hlg
      obtain ⟨j1, h1, h2⟩ := doc_inv_call j o h hlg.1
      rw [h1] at hlg
      obtain ⟨j2, h3, h4⟩ := ih j1 h2 hlg.2
      exact ⟨j2, by simp [json_calls, h1, h3], h4⟩
    · exact ⟨j, json_calls_of_not_write _ j (by simpa using hw), h⟩

/-- The calls of a legal sequence up to any point form a legal sequence. -/
theorem legal_calls_take (os : List json_op) (n : Nat) (j : json)
    (hlg : legal_calls j os = true) : legal_calls j (os.take n) = true := by
  induction os generalizing j n with
  | nil => simp [legal_calls]
  | cons o os ih =>
    cases n with
    | zero => simp [legal_calls]
    | succ n =>
      by_cases hw : j.do_write = true
      · simp only [legal_calls, hw, Bool.not_true, Bool.false_or, Bool.and_eq_true,
          List.take_succ_cons] at hlg ⊢
        refine ⟨hlg.1, ?_⟩
        cases hc : json_call j o with
        | none => rw [hc] at hlg; exact absurd hlg.2 (by simp)
        | some j1 =>
          rw [hc] at hlg
          exact ih n j1 hlg.2
      · have hw2 : j.do_write = false := by simpa using hw
        simp [legal_calls, hw2]

theorem doc_inv_init (j0 : json) (len do_indent : Int) : doc_inv (json_init j0 len do_indent) := by
  refine ⟨level_ok_init j0 len do_indent, ?_, ?_⟩
  · intro i hi
    simp only [json_init] at hi
    omega
  · simp [json_init, parents, Partial, Content, all_ws]

theorem escape_need_cases (c : CChar) :
    (escape_need c = 6 + 1 ∧ ((escape_char c).length : Int) = 6) ∨
      (escape_need c = ((escape_char c).length : Int) ∧ escape_need c ≠ 6 + 1) := by
  rw [escape_char_length]
  unfold escape_need
  split_ifs <;> omega

theorem escape_char_length_pos (c : CChar) : 1 ≤ ((escape_char c).length : Int) := by
  rw [escape_char_length]
  split_ifs <;> omega

theorem json_escape_char_get_len_pos (c : CChar) (data : List CChar) :
    1 ≤ json_escape_char_get_len (c :: data) := by
  rw [json_escape_char_get_len_cons]
  have := escape_char_length_pos c
  have := json_escape_char_get_len_nonneg data
  omega

/-- With `escape_room` bytes available the escaping loop stores the whole escaped text. -/
theorem json_escape_char_len_room (data : List CChar) (j : json)
    (h : escape_room data ≤ j.avalaible) :
    json_escape_char_len j data =
      some { j with buffer := j.buffer ++ escaped data,
                    avalaible := j.avalaible - json_escape_char_get_len data } := by
  induction data generalizing j with
  | nil => simp [json_escape_char_len, escaped, json_escape_char_get_len]
  | cons c data ih =>
    have hc := escape_need_cases c
    have hstep : ¬ j.avalaible < escape_need c ∧
        escape_room data ≤ j.avalaible - ((escape_char c).length : Int) := by
      unfold escape_room at h ⊢
      rw [json_escape_char_get_len_cons] at h
      cases data with
      | nil =>
        simp only [needs_spare, json_escape_char_get_len, decide_eq_true_eq] at h ⊢
        split_ifs at h <;> simp <;> omega
      | cons d data =>
        have := json_escape_char_get_len_pos d data
        simp only [needs_spare] at h ⊢
        split_ifs at h ⊢ <;> constructor <;> omega
    rw [json_escape_char_len_step, if_neg hstep.1, ih _ hstep.2]
    congr 1
    ext <;> simp [escaped, json_escape_char_get_len_cons]
    omega

/-- With fewer than `escape_room` bytes available, but the escaped length, the escaping loop
ends in the forced closure. -/
theorem json_escape_char_len_no_room (data : List CChar) (j : json)
    (hw : j.do_write = true) (hl : 0 ≤ j.level)
    (h1 : json_escape_char_get_len data ≤ j.avalaible) (h2 : j.avalaible < escape_room data) :
    ∃ j1, json_escape_char_len j data = some j1 ∧ j1.do_write = false ∧ j1.level = 0 := by
  induction data generalizing j with
  | nil => simp [escape_room, needs_spare, json_escape_char_get_len] at h1 h2; omega
  | cons c data ih =>
    have hc := escape_need_cases c
    rw [json_escape_char_len_step]
    unfold escape_room at h2 ih
    rw [json_escape_char_get_len_cons] at h1 h2
    cases data with
    | nil =>
      simp only [needs_spare, json_escape_char_get_len, decide_eq_true_eq] at h1 h2
      have hlt : j.avalaible < escape_need c := by
        split_ifs at h2 <;> omega
      rw [if_pos hlt, json_close_all_eq j hw hl]
      exact ⟨_, rfl, rfl, (json_close_all_loop_eq j.level.toNat j hw (by omega)).2.1⟩
    | cons d data =>
      have := json_escape_char_get_len_pos d data
      simp only [needs_spare] at h2
      have hge : ¬ j.avalaible < escape_need c := by
        split_ifs at h2 <;> omega
      rw [if_neg hge]
      refine ih { j with buffer := j.buffer ++ escape_char c,
                         avalaible := j.avalaible - ((escape_char c).length : Int) } hw hl ?_ ?_
      · simp only; omega
      · simp only; split_ifs at h2 ⊢ <;> omega

set_option maxRecDepth 100000 in
/-- Where `char` is unsigned the code escapes every byte as the specification says. -/
theorem escape_char_unsigned : ∀ b, b < 256 → escape_char (unsigned_char b) = spec_escape b := by
  decide

set_option maxRecDepth 100000 in
/-- Where `char` is signed the code escapes every byte below 0x80 as the specification
says. -/
theorem escape_char_signed_low : ∀ b, b < 128 → escape_char (signed_char b) = spec_escape b := by
  decide

set_option maxRecDepth 100000 in
/-- Where `char` is signed every byte from 0x80 on is escaped with the digits `ffff`. -/
theorem escape_char_signed_high :
    ∀ b, b < 256 → 128 ≤ b → escape_char (signed_char b) = [92, 117, 102, 102, 102, 102] := by
  decide

theorem escaped_unsigned (s : List Nat) (h : ∀ b ∈ s, b < 256) :
    escaped (s.map unsigned_char) = spec_escaped s := by
  induction s with
  | nil => rfl
  | cons b s ih =>
    simp only [List.map_cons, escaped, spec_escaped]
    rw [escape_char_unsigned b (h b (by simp)), ih (fun x hx => h x (by simp [hx]))]

theorem escaped_signed_low (s : List Nat) (h : ∀ b ∈ s, b < 128) :
    escaped (s.map signed_char) = spec_escaped s := by
  induction s with
  | nil => rfl
  | cons b s ih =>
    simp only [List.map_cons, escaped, spec_escaped]
    rw [escape_char_signed_low b (h b (by simp)), ih (fun x hx => h x (by simp [hx]))]

theorem unhex_hex_digit : ∀ n, n < 16 → unhex (hex_digit n) = some n := by
  decide

theorem json_unescape_cons (c : CChar) (rest : List CChar) :
    json_unescape (c :: rest) =
    if c = 92 then
      match rest with
      | [] => none
      | e :: rest1 =>
        if e = 117 then
          match rest1 with
          | a :: b :: c1 :: d :: rest2 =>
            match unhex a, unhex b, unhex c1, unhex d, json_unescape rest2 with
            | some x3, some x2, some x1, some x0, some r =>
              some ((x3 * 4096 + x2 * 256 + x1 * 16 + x0) :: r)
            | _, _, _, _, _ => none
          | _ => none
        else
          match unescape_short e, json_unescape rest1 with
          | some v, some r => some (v :: r)
          | _, _ => none
    else if c = 34 then none
    else (json_unescape rest).map (fun r => (c % 256).toNat :: r) := by
  rw [json_unescape.eq_def]

theorem json_unescape_spec_escape (b : Nat) (hb : b < 256) (t : List CChar) :
    json_unescape (spec_escape b ++ t) = (json_unescape t).map (fun r => b :: r) := by
  have two : ∀ e v, unescape_short e = some v → e ≠ 117 →
      json_unescape ([92, e] ++ t) = (json_unescape t).map (fun r => v :: r) := by
    intro e v he hne
    simp only [List.cons_append, List.nil_append]
    rw [json_unescape_cons]
    simp only [if_true, hne, if_false, he]
    cases json_unescape t <;> rfl
  unfold spec_escape
  split_ifs with h1 h2 h3 h4 h5 h6 h7 h8 h9
  · subst h1; exact two 34 34 rfl (by decide)
  · subst h2; exact two 92 92 rfl (by decide)
  · subst h3; exact two 47 47 rfl (by decide)
  · subst h4; exact two 98 8 rfl (by decide)
  · subst h5; exact two 102 12 rfl (by decide)
  · subst h6; exact two 114 13 rfl (by decide)
  · subst h7; exact two 110 10 rfl (by decide)
  · subst h8; exact two 116 9 rfl (by decide)
  · have hx1 := unhex_hex_digit (b / 16 % 16) (by omega)
    have hx0 := unhex_hex_digit (b % 16) (by omega)
    have h48 : unhex 48 = some 0 := by decide
    simp only [List.cons_append, List.nil_append]
    rw [json_unescape_cons]
    simp only [if_true, h48, hx1, hx0]
    have hv : b / 16 % 16 * 16 + b % 16 = b := by omega
    cases json_unescape t <;> simp [hv]
  · have hc1 : ¬ ((b : Int) = 92) := by omega
    have hc2 : ¬ ((b : Int) = 34) := by omega
    have hm : ((b : Int) % 256).toNat = b := by omega
    simp only [List.cons_append, List.nil_append]
    rw [json_unescape_cons]
    simp only [hc1, hc2, if_false, hm]

/-- The escape the specification describes can be undone. -/
theorem json_unescape_spec_escaped (s : List Nat) (h : ∀ b ∈ s, b < 256) :
    json_unescape (spec_escaped s) = some s := by
  induction s with
  | nil => rfl
  | cons b s ih =>
    rw [spec_escaped, json_unescape_spec_escape b (h b (by simp)),
      ih (fun x hx => h x (by simp [hx]))]
    rfl

/-- Where `char` is unsigned, unescaping what the code stores for a byte string gives the
byte string back. -/
theorem json_unescape_escaped_unsigned (s : List Nat) (h : ∀ b ∈ s, b < 256) :
    json_unescape (escaped (s.map unsigned_char)) = some s := by
  rw [escaped_unsigned s h, json_unescape_spec_escaped s h]

theorem close_need_nonneg (elt : json_types) : 0 ≤ close_need elt := by
  cases elt <;> simp [close_need]

theorem reserved_sum_congr (s1 s2 : Int → json_stack) (n : Nat)
    (h : ∀ i : Nat, 1 ≤ i → i ≤ n → (s1 (i : Int)).reserved = (s2 (i : Int)).reserved) :
    reserved_sum s1 n = reserved_sum s2 n := by
  induction n with
  | zero => rfl
  | succ n ih =>
    simp only [reserved_sum]
    have h1 := h (n + 1) (by omega) (by omega)
    push_cast at h1
    rw [h1, ih (fun i h1 h2 => h i h1 (by omega))]

theorem reserved_sum_nonneg (s : Int → json_stack) (n : Nat)
    (h : ∀ i : Nat, 1 ≤ i → i ≤ n → close_need (s (i : Int)).elt ≤ (s (i : Int)).reserved) :
    0 ≤ reserved_sum s n := by
  induction n with
  | zero => simp [reserved_sum]
  | succ n ih =>
    simp only [reserved_sum]
    have h1 := h (n + 1) (by omega) (by omega)
    push_cast at h1
    have h2 := close_need_nonneg (s ((n : Int) + 1)).elt
    have h3 := ih (fun i h1 h2 => h i h1 (by omega))
    omega

theorem acct_cursor (cap : Int) (j : json) (h : acct cap j) : 0 ≤ j.avalaible ∧ j.p ≤ cap := by
  obtain ⟨h1, _, h3, h4, h5⟩ := h
  have := reserved_sum_nonneg j.stack j.level.toNat (fun i hi1 hi2 => h5 i hi1 (by omega))
  exact ⟨h4, by omega⟩

/-- Without indentation the bytes `json_pop` stores fit the kind of the frame. -/
theorem closing_length_le (j : json) (hi : j.do_indent = false) :
    ((closing j).length : Int) ≤ close_need (j.stack j.level).elt := by
  unfold closing
  cases hk : (j.stack j.level).elt <;> simp [hi, close_need, cstr_null]
  split_ifs <;> simp

/-- A write of `x` into the available bytes that leaves the level, the kinds and the
reservations as they are keeps the accounting. -/
theorem acct_write (cap : Int) (j j1 : json) (x : List CChar) (h : acct cap j)
    (hl : j1.level = j.level) (hw : j1.do_write = j.do_write) (hi : j1.do_indent = j.do_indent)
    (hs : ∀ i : Int, (j1.stack i).reserved = (j.stack i).reserved ∧
      (j1.stack i).elt = (j.stack i).elt)
    (hb : j1.buffer = j.buffer ++ x) (ha : j1.avalaible = j.avalaible - (x.length : Int))
    (hx : (x.length : Int) ≤ j.avalaible) : acct cap j1 := by
  obtain ⟨h1, h2, h3, h4, h5⟩ := h
  refine ⟨level_ok_of_eq h1 hl hw, by rw [hi, h2], ?_, by omega, ?_⟩
  · have hr : reserved_sum j1.stack j.level.toNat = reserved_sum j.stack j.level.toNat :=
      reserved_sum_congr _ _ _ (fun i _ _ => (hs i).1)
    unfold json.p at h3 ⊢
    rw [hl, hr, hb, ha, List.length_append]
    push_cast
    omega
  · intro i hi1 hi2
    rw [hl] at hi2
    rw [(hs i).1, (hs i).2]
    exact h5 i hi1 hi2

theorem acct_pop (cap : Int) (j : json) (h : acct cap j) : acct cap (json_pop j) := by
  by_cases hw : j.do_write = true
  · by_cases hl : 0 < j.level
    · obtain ⟨h1, h2, h3, h4, h5⟩ := h
      obtain ⟨m, hm⟩ : ∃ m : Nat, j.level = (m : Int) + 1 := ⟨(j.level - 1).toNat, by omega⟩
      have hm1 : j.level.toNat = m + 1 := by omega
      have hm2 : (j.level - 1).toNat = m := by omega
      have hc := closing_length_le j h2
      have hr := h5 (m + 1) (by omega) (by push_cast; omega)
      push_cast at hr
      rw [← hm] at hr
      rw [hm1, reserved_sum, ← hm] at h3
      refine ⟨level_ok_pop j h1, by rw [json_pop_do_indent, h2], ?_, ?_, ?_⟩
      · rw [json_pop_eq j hw hl]
        unfold json.p at h3 ⊢
        simp only [hm2, List.length_append]
        push_cast
        omega
      · rw [json_pop_eq j hw hl]
        simp only
        omega
      · intro i hi1 hi2
        rw [json_pop_level j hw hl] at hi2
        rw [json_pop_stack]
        exact h5 i hi1 (by omega)
    · rw [json_pop_of_level_le j (by omega)]; exact h
  · rw [json_pop_of_not_write j (by simpa using hw)]; exact h

theorem acct_iterate_pop (cap : Int) (n : Nat) (j : json) (h : acct cap j) :
    acct cap (json_pop^[n] j) := by
  induction n generalizing j with
  | zero => exact h
  | succ n ih =>
    rw [Function.iterate_succ_apply]
    exact ih _ (acct_pop cap j h)

theorem acct_clear (cap : Int) (j : json) (h : acct cap j) (hl : j.level = 0) :
    acct cap { j with do_write := false } :=
  ⟨level_ok_of_closed hl, h.2.1, h.2.2.1, h.2.2.2.1, h.2.2.2.2⟩

theorem acct_close_all (cap : Int) (j : json) (h : acct cap j) :
    ∃ j1, json_close_all j = some j1 ∧ acct cap j1 := by
  by_cases hw : j.do_write = true
  · obtain ⟨_, h2, _⟩ := json_close_all_loop_eq j.level.toNat j hw (by have := h.1.1; omega)
    exact ⟨_, json_close_all_eq j hw h.1.1, acct_clear cap _ (acct_iterate_pop cap _ j h) h2⟩
  · have h0 : j.level = 0 := h.1.2.2 (by simpa using hw)
    exact ⟨_, json_close_all_of_level_le j (by omega), acct_clear cap j h h0⟩

theorem opening_length_le (j : json) (elt : json_types) (name : List CChar)
    (he : is_pushable elt = true) :
    json_check_separator_len j + ((opening elt name).length : Int) ≤
      json_push_write_size j elt name := by
  have hel := escaped_length name
  cases elt <;> simp [is_pushable] at he <;>
    simp [opening, json_push_write_size, ← hel]
  all_goals omega

theorem close_need_le_close_size (j : json) (elt : json_types) (hi : j.do_indent = false) :
    close_need elt ≤ json_push_close_size j elt := by
  cases elt <;> simp [close_need, json_push_close_size, hi]

/-- A push that is accepted keeps the accounting. -/
theorem acct_push_ok (cap : Int) (j : json) (elt : json_types) (name : List CChar)
    (h : acct cap j) (he : is_pushable elt = true) (hl : j.level < JSON_STACK_DEEP - 1)
    (hw : j.do_write = true)
    (hc : json_push_write_size j elt name + json_push_close_size j elt ≤ j.avalaible) :
    acct cap
      { j with
        buffer := j.buffer ++ separator j ++ opening elt name
        avalaible := j.avalaible - json_check_separator_len j - ((opening elt name).length : Int)
                      - json_push_close_size j elt
        level := j.level + 1
        stack := stack_set (stack_set j.stack j.level { j.stack j.level with is_first := false })
                  (j.level + 1) ⟨true, json_push_close_size j elt, elt⟩ } := by
  obtain ⟨h1, h2, h3, h4, h5⟩ := h
  have hl0 := h1.1
  have hsl := separator_length j
  have hol := opening_length_le j elt name he
  have hcs := json_push_close_size_pos j elt
  obtain ⟨m, hm⟩ : ∃ m : Nat, j.level = (m : Int) := ⟨j.level.toNat, by omega⟩
  have hm1 : (j.level + 1).toNat = m + 1 := by omega
  have hm2 : j.level.toNat = m := by omega
  refine ⟨?_, h2, ?_, ?_, ?_⟩
  · unfold level_ok JSON_STACK_DEEP at h1 ⊢
    unfold JSON_STACK_DEEP at hl
    simp only [hw]
    refine ⟨by omega, by omega, by simp⟩
  · unfold json.p at h3 ⊢
    simp only [hm1, reserved_sum]
    have hr : reserved_sum (stack_set (stack_set j.stack j.level
          { j.stack j.level with is_first := false })
        (j.level + 1) ⟨true, json_push_close_size j elt, elt⟩) m = reserved_sum j.stack m := by
      apply reserved_sum_congr
      intro i _ hi2
      rw [stack_set_ne _ _ _ _ (by omega)]
      by_cases hil : (i : Int) = j.level
      · rw [hil]; simp
      · rw [stack_set_ne _ _ _ _ hil]
    rw [hr, ← hm, stack_set_same]
    rw [hm2] at h3
    simp only [List.length_append]
    push_cast
    omega
  · simp only
    omega
  · intro i hi1 hi2
    simp only at hi2 ⊢
    by_cases hil : (i : Int) = j.level + 1
    · rw [hil, stack_set_same]
      exact close_need_le_close_size j elt h2
    · rw [stack_set_ne _ _ _ _ hil]
      by_cases hil2 : (i : Int) = j.level
      · rw [hil2, stack_set_same]
        simp only
        rw [← hil2]
        exact h5 i hi1 (by omega)
      · rw [stack_set_ne _ _ _ _ hil2]
        exact h5 i hi1 (by omega)

theorem acct_push (cap : Int) (j : json) (elt : json_types) (name : List CChar)
    (h : acct cap j) : ∃ j1, json_push j elt name = some j1 ∧ acct cap j1 := by
  by_cases hw : j.do_write = true
  · by_cases hl : j.level < JSON_STACK_DEEP - 1
    · by_cases he : is_pushable elt = true
      · by_cases ht : (j.stack j.level).elt = JSON_STRING
        · exact ⟨j, by simp [json_push, ht], h⟩
        · by_cases hc : j.avalaible < json_push_write_size j elt name + json_push_close_size j elt
          · rw [json_push_full j elt name hw hl he ht hc]
            exact acct_close_all cap j h
          · exact ⟨_, json_push_ok j elt name hw hl he ht (by omega),
              acct_push_ok cap j elt name h he hl hw (by omega)⟩
      · refine ⟨j, ?_, h⟩
        have he2 : ¬ (elt = JSON_ATTR ∨ elt = JSON_OBJECT ∨ elt = JSON_ARRAY ∨ elt = JSON_STRING) := by
          simp only [is_pushable, Bool.or_eq_true, decide_eq_true_eq] at he
          tauto
        simp [json_push, he2]
    · exact ⟨j, by simp [json_push, show j.level ≥ JSON_STACK_DEEP - 1 by omega], h⟩
  · exact ⟨j, by simp [json_push, hw], h⟩

theorem acct_finalize (cap : Int) (j : json) (h : acct cap j) : acct cap (json_finalize j) := by
  unfold json_finalize
  have hi := h.2.1
  split_ifs
  · exact h
  · exact h
  · simp_all
  · exact h

/-- Text appended at the cursor within the available bytes keeps the accounting. -/
theorem acct_append (cap : Int) (j : json) (x : List CChar) (h : acct cap j)
    (hx : (x.length : Int) ≤ j.avalaible) :
    acct cap { j with buffer := j.buffer ++ x, avalaible := j.avalaible - (x.length : Int) } :=
  acct_write cap j { j with buffer := j.buffer ++ x,
                            avalaible := j.avalaible - (x.length : Int) } x h rfl rfl rfl
    (fun _ => ⟨rfl, rfl⟩) rfl rfl hx

theorem acct_printf (cap : Int) (j : json) (txt : Option (List CChar)) (h : acct cap j) :
    ∃ j1, json_printf j txt = some j1 ∧ acct cap j1 := by
  unfold json_printf
  split_ifs
  · exact ⟨j, rfl, h⟩
  · exact ⟨j, rfl, h⟩
  · cases txt with
    | none => exact acct_close_all cap j h
    | some t =>
      simp only
      split_ifs
      · exact acct_close_all cap j h
      · exact ⟨_, rfl, acct_append cap j t h (by omega)⟩

theorem acct_cat_pchar (cap : Int) (j : json) (cat : List CChar) (h : acct cap j) :
    ∃ j1, json_cat_pchar j cat = some j1 ∧ acct cap j1 := by
  unfold json_cat_pchar
  split_ifs
  · exact ⟨j, rfl, h⟩
  · exact ⟨j, rfl, h⟩
  · exact acct_close_all cap j h
  · exact ⟨_, rfl, acct_append cap j cat h (by omega)⟩

theorem acct_escape (cap : Int) (data : List CChar) (j : json) (h : acct cap j) :
    ∃ j1, json_escape_char_len j data = some j1 ∧ acct cap j1 := by
  induction data generalizing j with
  | nil => exact ⟨j, rfl, h⟩
  | cons c data ih =>
    rw [json_escape_char_len_step]
    have hc := escape_need_cases c
    split_ifs
    · exact acct_close_all cap j h
    · exact ih _ (acct_append cap j (escape_char c) h (by omega))

theorem acct_cat_escaped_pchar (cap : Int) (j : json) (cat : List CChar) (h : acct cap j) :
    ∃ j1, json_cat_escaped_pchar j cat = some j1 ∧ acct cap j1 := by
  unfold json_cat_escaped_pchar
  split_ifs
  · exact ⟨j, rfl, h⟩
  · exact ⟨j, rfl, h⟩
  · exact acct_close_all cap j h
  · exact acct_escape cap cat j h

theorem acct_number_cat_pchar (cap : Int) (j : json) (cat : List CChar) (h : acct cap j) :
    ∃ j1, json_number_cat_pchar j cat = some j1 ∧ acct cap j1 := by
  unfold json_number_cat_pchar
  have hsl := separator_length j
  split_ifs
  · exact ⟨j, rfl, h⟩
  · exact acct_close_all cap j h
  · refine ⟨_, rfl, acct_write cap j _ (separator j ++ cat) h ?_ ?_ ?_ ?_ ?_ ?_ ?_⟩
    · simp [json_cat_pchar_noctl, json_check_separator_write_eq]
    · simp [json_cat_pchar_noctl, json_check_separator_write_eq]
    · simp [json_cat_pchar_noctl, json_check_separator_write_eq]
    · intro i
      simp only [json_cat_pchar_noctl, json_check_separator_write_eq, stack_set]
      split_ifs with hi
      · rw [hi]; exact ⟨rfl, rfl⟩
      · exact ⟨rfl, rfl⟩
    · simp [json_cat_pchar_noctl, json_check_separator_write_eq]
    · simp only [json_cat_pchar_noctl, json_check_separator_write_eq, List.length_append]
      push_cast
      omega
    · rw [List.length_append]
      push_cast
      omega

theorem acct_number_printf (cap : Int) (j : json) (txt : Option (List CChar)) (h : acct cap j) :
    ∃ j1, json_number_printf j txt = some j1 ∧ acct cap j1 := by
  unfold json_number_printf
  have hsl := separator_length j
  split_ifs
  · exact ⟨j, rfl, h⟩
  · cases txt with
    | none => exact acct_close_all cap j h
    | some t =>
      simp only
      split_ifs
      · exact acct_close_all cap j h
      · refine ⟨_, rfl, acct_write cap j _ (separator j ++ t) h ?_ ?_ ?_ ?_ ?_ ?_ ?_⟩
        · simp [json_check_separator_write_eq]
        · simp [json_check_separator_write_eq]
        · simp [json_check_separator_write_eq]
        · intro i
          simp only [json_check_separator_write_eq, stack_set]
          split_ifs with hi
          · rw [hi]; exact ⟨rfl, rfl⟩
          · exact ⟨rfl, rfl⟩
        · simp [json_check_separator_write_eq]
        · simp only [json_check_separator_write_eq, List.length_append]
          push_cast
          omega
        · rw [List.length_append]
          push_cast
          omega

theorem acct_string_printf (cap : Int) (j : json) (txt : Option (List CChar)) (h : acct cap j) :
    ∃ j1, json_string_printf j txt = some j1 ∧ acct cap j1 := by
  unfold json_string_printf
  split_ifs
  · exact ⟨j, rfl, h⟩
  · obtain ⟨j1, h1, h2⟩ := acct_push cap j JSON_STRING [] h
    rw [h1]
    simp only [Option.some_bind]
    cases txt with
    | none => exact acct_close_all cap j1 h2
    | some t =>
      simp only
      split_ifs
      · exact acct_close_all cap j1 h2
      · exact ⟨_, rfl, acct_pop cap _ (acct_append cap j1 t h2 (by omega))⟩

theorem acct_string_cat_pchar (cap : Int) (j : json) (cat : List CChar) (h : acct cap j) :
    ∃ j1, json_string_cat_pchar j cat = some j1 ∧ acct cap j1 := by
  obtain ⟨j1, h1, h2⟩ := acct_push cap j JSON_STRING [] h
  obtain ⟨j2, h3, h4⟩ := acct_cat_pchar cap j1 cat h2
  exact ⟨json_pop j2, by simp [json_string_cat_pchar, h1, h3], acct_pop cap j2 h4⟩

theorem acct_string_cat_escaped_pchar (cap : Int) (j : json) (cat : List CChar)
    (h : acct cap j) :
    ∃ j1, json_string_cat_escaped_pchar j cat = some j1 ∧ acct cap j1 := by
  obtain ⟨j1, h1, h2⟩ := acct_push cap j JSON_STRING [] h
  obtain ⟨j2, h3, h4⟩ := acct_cat_escaped_pchar cap j1 cat h2
  exact ⟨json_pop j2, by simp [json_string_cat_escaped_pchar, h1, h3], acct_pop cap j2 h4⟩

/-- Without indentation every call returns and keeps the accounting. -/
theorem acct_call (cap : Int) (j : json) (o : json_op) (h : acct cap j) :
    ∃ j1, json_call j o = some j1 ∧ acct cap j1 := by
  cases o with
  | push elt name => exact acct_push cap j elt name h
  | pop => exact ⟨_, rfl, acct_pop cap j h⟩
  | finalize => exact ⟨_, rfl, acct_finalize cap j h⟩
  | printf txt => exact acct_printf cap j txt h
  | cat_pchar cat => exact acct_cat_pchar cap j cat h
  | cat_escaped_pchar cat => exact acct_cat_escaped_pchar cap j cat h
  | string_printf txt => exact acct_string_printf cap j txt h
  | string_cat_pchar cat => exact acct_string_cat_pchar cap j cat h
  | string_cat_escaped_pchar cat => exact acct_string_cat_escaped_pchar cap j cat h
  | number_cat_pchar cat => exact acct_number_cat_pchar cap j cat h
  | number_printf txt => exact acct_number_printf cap j txt h
  | number_int number => exact acct_number_printf cap j (some (format_d number)) h
  | number_double txt => exact acct_number_printf cap j (some txt) h
  | add_true => exact acct_number_cat_pchar cap j _ h
  | add_false => exact acct_number_cat_pchar cap j _ h
  | add_null => exact acct_number_cat_pchar cap j _ h

theorem acct_calls (cap : Int) (os : List json_op) (j : json) (h : acct cap j) :
    ∃ j1, json_calls j os = some j1 ∧ acct cap j1 := by
  induction os generalizing j with
  | nil => exact ⟨j, rfl, h⟩
  | cons o os ih =>
    obtain ⟨j1, h1, h2⟩ := acct_call cap j o h
    obtain ⟨j2, h3, h4⟩ := ih j1 h2
    exact ⟨j2, by simp [json_calls, h1, h3], h4⟩

theorem acct_init (j0 : json) (len : Int) (hlen : 0 ≤ len) : acct len (json_init j0 len 0) := by
  refine ⟨level_ok_init j0 len 0, by simp [json_init], ?_, by simpa [json_init] using hlen, ?_⟩
  · simp [json_init, json.p, reserved_sum]
  · intro i hi1 hi2
    simp only [json_init] at hi2
    omega

/-- At the maximum depth, under a frame that is not a string, the single-shot string
helpers are a `json_pop` of the enclosing frame. -/
theorem json_string_cat_at_max_depth (j : json) (cat : List CChar)
    (hl : j.level ≥ JSON_STACK_DEEP - 1) (ht : (j.stack j.level).elt ≠ JSON_STRING) :
    json_string_cat_pchar j cat = some (json_pop j) ∧
      json_string_cat_escaped_pchar j cat = some (json_pop j) := by
  have hp : json_push j JSON_STRING [] = some j := by simp [json_push, hl]
  constructor
  · simp [json_string_cat_pchar, hp, json_cat_pchar, ht]
  · simp [json_string_cat_escaped_pchar, hp, json_cat_escaped_pchar, ht]

/-- The `write_size` of a push is the number of bytes it stores, and one more for an
attribute. -/
theorem json_push_write_size_eq (j : json) (elt : json_types) (name : List CChar)
    (he : is_pushable elt = true) :
    json_push_write_size j elt name =
      ((separator j ++ opening elt name).length : Int) + (if elt = JSON_ATTR then 1 else 0) := by
  have hel := escaped_length name
  have hsl := separator_length j
  rw [List.length_append]
  push_cast
  rw [hsl]
  cases elt <;> simp [is_pushable] at he <;>
    simp [opening, json_push_write_size, ← hel]
  all_goals omega

theorem parents_length (s : Int → json_stack) (n : Nat) : (parents s n).length = n := by
  induction n with
  | zero => rfl
  | succ n ih => simp [parents, ih]

theorem view_level (d : doc_state) (j : json) (h : view d j) (h0 : 0 ≤ j.level) :
    j.level = (d.kinds.length : Int) := by
  have h1 := congrArg List.length h.1
  simp only [List.length_cons, parents_length, List.length_append, List.length_nil] at h1
  omega

theorem view_top (d : doc_state) (j : json) (h : view d j) :
    (j.stack j.level).elt = doc_top d := by
  have h1 := h.1
  unfold doc_top
  cases hk : d.kinds with
  | nil =>
    rw [hk] at h1
    simp only [List.nil_append, List.cons.injEq] at h1
    simpa using h1.1
  | cons k ks =>
    rw [hk] at h1
    simp only [List.cons_append, List.cons.injEq] at h1
    simpa using h1.1

theorem view_value_expected (d : doc_state) (j : json) (h : view d j) :
    value_expected j = doc_value_expected d := by
  unfold value_expected doc_value_expected
  rw [view_top d j h, h.2]

theorem view_init (j0 : json) (len do_indent : Int) :
    view doc_start (json_init j0 len do_indent) := by
  simp [view, doc_start, json_init, parents]

/-- The writer's frames are unchanged. -/
theorem view_same (d : doc_state) (j j1 : json) (h : view d j) (hl : j1.level = j.level)
    (hs : j1.stack = j.stack) : view d j1 := by
  unfold view at h ⊢
  rw [hl, hs]
  exact h

/-- A value has been written as a child of the top frame. -/
theorem view_child (d : doc_state) (j j1 : json) (h : view d j) (h0 : 0 ≤ j.level)
    (hl : j1.level = j.level)
    (he : ∀ i : Nat, (i : Int) ≤ j.level → (j1.stack (i : Int)).elt = (j.stack (i : Int)).elt)
    (hf : (j1.stack j.level).is_first = false) :
    view { d with first := false } j1 := by
  unfold view at h ⊢
  rw [hl]
  refine ⟨?_, hf⟩
  rw [← h.1]
  obtain ⟨m, hm⟩ : ∃ m : Nat, j.level = (m : Int) := ⟨j.level.toNat, by omega⟩
  congr 1
  · rw [hm]; exact he m (by omega)
  · apply parents_congr
    intro i hi
    exact he i (by omega)

/-- A value emitter has marked the top frame as having a child. -/
theorem view_value (d : doc_state) (j j1 : json) (h : view d j) (h0 : 0 ≤ j.level)
    (hl : j1.level = j.level)
    (hs : j1.stack = stack_set j.stack j.level { j.stack j.level with is_first := false }) :
    view { d with first := false } j1 := by
  apply view_child d j j1 h h0 hl
  · intro i hi
    rw [hs]
    by_cases hil : (i : Int) = j.level
    · rw [hil]; simp
    · rw [stack_set_ne _ _ _ _ hil]
  · rw [hs]; simp

/-- A frame has been opened. -/
theorem view_push (d : doc_state) (j j1 : json) (elt : json_types) (r : Int) (h : view d j)
    (h0 : 0 ≤ j.level) (hl : j1.level = j.level + 1)
    (hs : j1.stack = stack_set (stack_set j.stack j.level
        { j.stack j.level with is_first := false }) (j.level + 1) ⟨true, r, elt⟩) :
    view ⟨elt :: d.kinds, true⟩ j1 := by
  unfold view at h ⊢
  rw [hl, hs]
  simp only [stack_set_same]
  refine ⟨?_, trivial⟩
  obtain ⟨m, hm⟩ : ∃ m : Nat, j.level = (m : Int) := ⟨j.level.toNat, by omega⟩
  have hm1 : (j.level + 1).toNat = m + 1 := by omega
  have hm2 : j.level.toNat = m := by omega
  rw [hm1]
  rw [hm2] at h
  simp only [parents, List.cons_append, List.cons.injEq, true_and]
  rw [← h.1, stack_set_ne _ _ _ _ (by omega), ← hm]
  simp only [stack_set_same]
  congr 1
  apply parents_congr
  intro i hi
  rw [stack_set_ne _ _ _ _ (by omega), stack_set_ne _ _ _ _ (by omega)]

/-- The top frame has been closed. -/
theorem view_pop (k : json_types) (ks : List json_types) (f : Bool) (j : json)
    (h : view ⟨k :: ks, f⟩ j) (hi : doc_inv j) (hw : j.do_write = true) :
    view ⟨ks, false⟩ (json_pop j) := by
  have hl0 := hi.1.1
  have hlv := view_level _ j h hl0
  simp only [List.length_cons] at hlv
  have hl : 0 < j.level := by omega
  unfold view at h ⊢
  rw [json_pop_stack, json_pop_level j hw hl]
  obtain ⟨m, hm⟩ : ∃ m : Nat, j.level = (m : Int) + 1 := ⟨(j.level - 1).toNat, by omega⟩
  have hm1 : j.level.toNat = m + 1 := by omega
  have hm2 : (j.level - 1).toNat = m := by omega
  have hm3 : j.level - 1 = (m : Int) := by omega
  rw [hm1] at h
  simp only [parents, List.cons_append, List.cons.injEq] at h
  rw [hm2, hm3]
  exact ⟨h.1.2, hi.2.1 m (by omega)⟩

theorem json_close_all_do_write (j j1 : json) (h : json_close_all j = some j1) :
    j1.do_write = false := by
  simp only [json_close_all, Option.map_eq_some'] at h
  obtain ⟨x, _, rfl⟩ := h
  rfl

/-- An escaped text stored without truncation leaves the frames as they were. -/
theorem json_escape_char_len_frames (data : List CChar) (j j1 : json)
    (h : json_escape_char_len j data = some j1) (hw1 : j1.do_write = true) :
    j1.level = j.level ∧ j1.stack = j.stack := by
  induction data generalizing j with
  | nil =>
    simp only [json_escape_char_len, Option.some.injEq] at h
    subst h
    exact ⟨rfl, rfl⟩
  | cons c data ih =>
    rw [json_escape_char_len_step] at h
    split_ifs at h
    · rw [json_close_all_do_write j j1 h] at hw1
      exact absurd hw1 (by simp)
    · obtain ⟨h2, h3⟩ := ih _ h
      exact ⟨h2, h3⟩

/-- A call that appends string content, or `json_finalize`, leaves the frames as they were
when it does not truncate. -/
theorem json_printf_frames (j j1 : json) (txt : Option (List CChar))
    (h : json_printf j txt = some j1) (hw1 : j1.do_write = true) :
    j1.level = j.level ∧ j1.stack = j.stack := by
  unfold json_printf at h
  split_ifs at h
  · simp only [Option.some.injEq] at h; subst h; exact ⟨rfl, rfl⟩
  · simp only [Option.some.injEq] at h; subst h; exact ⟨rfl, rfl⟩
  · cases txt with
    | none =>
      rw [json_close_all_do_write j j1 h] at hw1
      exact absurd hw1 (by simp)
    | some t =>
      simp only at h
      split_ifs at h
      · rw [json_close_all_do_write j j1 h] at hw1
        exact absurd hw1 (by simp)
      · simp only [Option.some.injEq] at h; subst h; exact ⟨rfl, rfl⟩

theorem json_cat_pchar_frames (j j1 : json) (cat : List CChar)
    (h : json_cat_pchar j cat = some j1) (hw1 : j1.do_write = true) :
    j1.level = j.level ∧ j1.stack = j.stack ∧ j.do_write = true := by
  unfold json_cat_pchar at h
  split_ifs at h
  · simp only [Option.some.injEq] at h; subst h; exact ⟨rfl, rfl, hw1⟩
  · simp only [Option.some.injEq] at h; subst h; exact ⟨rfl, rfl, hw1⟩
  · rw [json_close_all_do_write j j1 h] at hw1
    exact absurd hw1 (by simp)
  · simp only [Option.some.injEq] at h; subst h; exact ⟨rfl, rfl, hw1⟩

theorem json_cat_escaped_pchar_frames (j j1 : json) (cat : List CChar)
    (h : json_cat_escaped_pchar j cat = some j1) (hw1 : j1.do_write = true) :
    j1.level = j.level ∧ j1.stack = j.stack ∧ j.do_write = true := by
  unfold json_cat_escaped_pchar at h
  split_ifs at h with h1
  · simp only [Option.some.injEq] at h; subst h; exact ⟨rfl, rfl, hw1⟩
  · simp only [Option.some.injEq] at h; subst h; exact ⟨rfl, rfl, hw1⟩
  · rw [json_close_all_do_write j j1 h] at hw1
    exact absurd hw1 (by simp)
  · obtain ⟨h2, h3⟩ := json_escape_char_len_frames cat j j1 h hw1
    exact ⟨h2, h3, by simpa using h1⟩

theorem json_finalize_frames (j : json) :
    (json_finalize j).level = j.level ∧ (json_finalize j).stack = j.stack := by
  unfold json_finalize
  split_ifs <;> exact ⟨rfl, rfl⟩

/-- A number emitter that does not truncate marks the top frame as having a child. -/
theorem json_number_cat_pchar_frames (j j1 : json) (cat : List CChar)
    (hw : j.do_write = true) (h : json_number_cat_pchar j cat = some j1)
    (hw1 : j1.do_write = true) :
    j1.level = j.level ∧
      j1.stack = stack_set j.stack j.level { j.stack j.level with is_first := false } := by
  unfold json_number_cat_pchar at h
  split_ifs at h with h1 h2
  · simp [hw] at h1
  · rw [json_close_all_do_write j j1 h] at hw1
    exact absurd hw1 (by simp)
  · simp only [Option.some.injEq] at h
    subst h
    simp [json_cat_pchar_noctl, json_check_separator_write_eq]

theorem json_number_printf_frames (j j1 : json) (txt : Option (List CChar))
    (hw : j.do_write = true) (h : json_number_printf j txt = some j1)
    (hw1 : j1.do_write = true) :
    j1.level = j.level ∧
      j1.stack = stack_set j.stack j.level { j.stack j.level with is_first := false } := by
  unfold json_number_printf at h
  split_ifs at h with h1
  · simp [hw] at h1
  · cases txt with
    | none =>
      rw [json_close_all_do_write j j1 h] at hw1
      exact absurd hw1 (by simp)
    | some t =>
      simp only at h
      split_ifs at h
      · rw [json_close_all_do_write j j1 h] at hw1
        exact absurd hw1 (by simp)
      · simp only [Option.some.injEq] at h
        subst h
        simp [json_check_separator_write_eq]

/-- A push that is not rejected and does not truncate opens a frame. -/
theorem json_push_frames (j j1 : json) (elt : json_types) (name : List CChar)
    (hw : j.do_write = true) (hl : j.level < JSON_STACK_DEEP - 1) (he : is_pushable elt = true)
    (ht : (j.stack j.level).elt ≠ JSON_STRING)
    (h : json_push j elt name = some j1) (hw1 : j1.do_write = true) :
    j1.level = j.level + 1 ∧
      j1.stack = stack_set (stack_set j.stack j.level
        { j.stack j.level with is_first := false }) (j.level + 1)
        ⟨true, json_push_close_size j elt, elt⟩ := by
  by_cases hc : j.avalaible < json_push_write_size j elt name + json_push_close_size j elt
  · rw [json_push_full j elt name hw hl he ht hc] at h
    rw [json_close_all_do_write j j1 h] at hw1
    exact absurd hw1 (by simp)
  · rw [json_push_ok j elt name hw hl he ht (by omega)] at h
    simp only [Option.some.injEq] at h
    subst h
    exact ⟨rfl, rfl⟩

theorem json_push_of_not_pushable (j : json) (elt : json_types) (name : List CChar)
    (he : ¬ (elt = JSON_ATTR ∨ elt = JSON_OBJECT ∨ elt = JSON_ARRAY ∨ elt = JSON_STRING)) :
    json_push j elt name = some j := by
  unfold json_push
  split_ifs <;> rfl

/-- A push that does not truncate under a frame that takes a child went through while the
writer was writing. -/
theorem json_push_do_write (j j1 : json) (elt : json_types) (name : List CChar)
    (hp : json_push j elt name = some j1) (hw1 : j1.do_write = true) :
    j.do_write = true := by
  by_cases hw : j.do_write = true
  · exact hw
  · have hw2 : j.do_write = false := by simpa using hw
    have : json_push j elt name = some j := by simp [json_push, hw2]
    rw [this] at hp
    simp only [Option.some.injEq] at hp
    subst hp
    exact hw1

/-- A call that is a step of building a document on the caller's side is legal in a writer
whose frames are the caller's. -/
theorem view_legal (d d1 : doc_state) (j : json) (o : json_op) (hv : view d j)
    (h0 : 0 ≤ j.level) (hs : doc_step d o = some d1) : legal j o = true := by
  have ht := view_top d j hv
  have he := view_value_expected d j hv
  have hlv := view_level d j hv h0
  cases o
  all_goals simp only [doc_step] at hs
  all_goals simp only [legal, ht, he]
  all_goals try split_ifs at hs
  all_goals simp_all

/-- A single-shot string that does not truncate, where a frame can be opened, marks the top
frame as having a child. -/
theorem view_single_shot (d : doc_state) (j j1 j2 : json) (hi : doc_inv j)
    (hv : view d j) (hr : doc_room d = true) (he : doc_value_expected d = true)
    (hp : json_push j JSON_STRING [] = some j1)
    (h2 : j2.level = j1.level ∧ j2.stack = j1.stack ∧ j1.do_write = true)
    (hw2 : j2.do_write = true) :
    view { d with first := false } (json_pop j2) := by
  have hl0 := hi.1.1
  have hlv := view_level d j hv hl0
  have hw := json_push_do_write j j1 JSON_STRING [] hp h2.2.2
  have hl : j.level < JSON_STACK_DEEP - 1 := by
    simp only [doc_room, decide_eq_true_eq] at hr
    omega
  have ht : (j.stack j.level).elt ≠ JSON_STRING := by
    rw [view_top d j hv]
    intro h
    simp [doc_value_expected, h] at he
  obtain ⟨h3, h4⟩ := json_push_frames j j1 JSON_STRING [] hw hl rfl ht hp h2.2.2
  have h5 : (json_pop j2).level = j.level := by
    rw [json_pop_level j2 hw2 (by rw [h2.1, h3]; omega), h2.1, h3]
    omega
  apply view_child d j (json_pop j2) hv hl0 h5
  · intro i hi2
    rw [json_pop_stack, h2.2.1, h4, stack_set_ne _ _ _ _ (by omega)]
    by_cases hil : (i : Int) = j.level
    · rw [hil]; simp
    · rw [stack_set_ne _ _ _ _ hil]
  · rw [json_pop_stack, h2.2.1, h4, stack_set_ne _ _ _ _ (by omega)]
    simp

/-- A call that is a step of building a document on the caller's side and does not truncate
leaves the frames of the writer as the caller's side has them. -/
theorem view_call (d d1 : doc_state) (j j1 : json) (o : json_op) (hi : doc_inv j)
    (hw : j.do_write = true) (hv : view d j) (hs : doc_step d o = some d1)
    (hc : json_call j o = some j1) (hw1 : j1.do_write = true) : view d1 j1 := by
  have hl0 := hi.1.1
  have hlv := view_level d j hv hl0
  have hnum : ∀ cat, doc_value_expected d = true → json_number_cat_pchar j cat = some j1 →
      view { d with first := false } j1 := by
    intro cat _ h
    obtain ⟨h1, h2⟩ := json_number_cat_pchar_frames j j1 cat hw h hw1
    exact view_value d j j1 hv hl0 h1 h2
  have hnp : ∀ txt, doc_value_expected d = true → json_number_printf j txt = some j1 →
      view { d with first := false } j1 := by
    intro txt _ h
    obtain ⟨h1, h2⟩ := json_number_printf_frames j j1 txt hw h hw1
    exact view_value d j j1 hv hl0 h1 h2
  cases o with
  | push elt name =>
    simp only [doc_step] at hs
    simp only [json_call] at hc
    by_cases hat : elt = JSON_ATTR
    · rw [if_pos hat] at hs
      split_ifs at hs with h1
      simp only [Option.some.injEq] at hs
      subst hs
      subst hat
      have hl : j.level < JSON_STACK_DEEP - 1 := by
        have := h1.2
        simp only [doc_room, decide_eq_true_eq] at this
        omega
      have ht : (j.stack j.level).elt ≠ JSON_STRING := by
        rw [view_top d j hv, h1.1]; simp
      obtain ⟨h3, h4⟩ := json_push_frames j j1 JSON_ATTR name hw hl rfl ht hc hw1
      exact view_push d j j1 JSON_ATTR _ hv hl0 h3 h4
    · rw [if_neg hat] at hs
      by_cases hk : elt = JSON_OBJECT ∨ elt = JSON_ARRAY ∨ elt = JSON_STRING
      · rw [if_pos hk] at hs
        split_ifs at hs with h1
        simp only [Option.some.injEq] at hs
        subst hs
        have hl : j.level < JSON_STACK_DEEP - 1 := by
          have := h1.2
          simp only [doc_room, decide_eq_true_eq] at this
          omega
        have ht : (j.stack j.level).elt ≠ JSON_STRING := by
          rw [view_top d j hv]
          intro h
          have := h1.1
          simp [doc_value_expected, h] at this
        have hpu : is_pushable elt = true := by
          simp only [is_pushable, Bool.or_eq_true, decide_eq_true_eq]
          tauto
        obtain ⟨h3, h4⟩ := json_push_frames j j1 elt name hw hl hpu ht hc hw1
        exact view_push d j j1 elt _ hv hl0 h3 h4
      · rw [if_neg hk] at hs
        simp only [Option.some.injEq] at hs
        subst hs
        rw [json_push_of_not_pushable j elt name (by tauto)] at hc
        simp only [Option.some.injEq] at hc
        subst hc
        exact hv
  | pop =>
    simp only [json_call, Option.some.injEq] at hc
    subst hc
    simp only [doc_step] at hs
    cases hk : d.kinds with
    | nil =>
      rw [hk] at hs hlv
      simp only [Option.some.injEq] at hs
      subst hs
      rw [json_pop_of_level_le j (by simp at hlv; omega)]
      exact hv
    | cons k ks =>
      rw [hk] at hs
      simp only [Option.some.injEq] at hs
      subst hs
      have hv2 : view ⟨k :: ks, d.first⟩ j := by
        rw [← hk]; exact hv
      exact view_pop k ks d.first j hv2 hi hw
  | finalize =>
    simp only [json_call, Option.some.injEq] at hc
    subst hc
    simp only [doc_step] at hs
    split_ifs at hs
    simp only [Option.some.injEq] at hs
    subst hs
    exact view_same d j _ hv (json_finalize_frames j).1 (json_finalize_frames j).2
  | printf txt =>
    simp only [doc_step] at hs
    split_ifs at hs
    simp only [Option.some.injEq] at hs
    subst hs
    obtain ⟨h1, h2⟩ := json_printf_frames j j1 txt hc hw1
    exact view_same d j j1 hv h1 h2
  | cat_pchar cat =>
    simp only [doc_step] at hs
    split_ifs at hs
    simp only [Option.some.injEq] at hs
    subst hs
    obtain ⟨h1, h2, _⟩ := json_cat_pchar_frames j j1 cat hc hw1
    exact view_same d j j1 hv h1 h2
  | cat_escaped_pchar cat =>
    simp only [doc_step, Option.some.injEq] at hs
    subst hs
    obtain ⟨h1, h2, _⟩ := json_cat_escaped_pchar_frames j j1 cat hc hw1
    exact view_same d j j1 hv h1 h2
  | string_printf txt => simp [doc_step] at hs
  | string_cat_pchar cat =>
    simp only [doc_step] at hs
    split_ifs at hs with h1
    simp only [Option.some.injEq] at hs
    subst hs
    simp only [json_call, json_string_cat_pchar, Option.bind_eq_some, Option.map_eq_some'] at hc
    obtain ⟨j2, hp, j3, hcat, rfl⟩ := hc
    rw [json_pop_do_write] at hw1
    exact view_single_shot d j j2 j3 hi hv h1.2.1 h1.1 hp
      (json_cat_pchar_frames j2 j3 cat hcat hw1) hw1
  | string_cat_escaped_pchar cat =>
    simp only [doc_step] at hs
    split_ifs at hs with h1
    simp only [Option.some.injEq] at hs
    subst hs
    simp only [json_call, json_string_cat_escaped_pchar, Option.bind_eq_some,
      Option.map_eq_some'] at hc
    obtain ⟨j2, hp, j3, hcat, rfl⟩ := hc
    rw [json_pop_do_write] at hw1
    exact view_single_shot d j j2 j3 hi hv h1.2 h1.1 hp
      (json_cat_escaped_pchar_frames j2 j3 cat hcat hw1) hw1
  | number_cat_pchar cat =>
    simp only [doc_step] at hs
    split_ifs at hs with h1
    simp only [Option.some.injEq] at hs
    subst hs
    exact hnum cat h1.1 hc
  | number_printf txt =>
    simp only [doc_step] at hs
    split_ifs at hs with h1
    simp only [Option.some.injEq] at hs
    subst hs
    exact hnp txt h1.1 hc
  | number_int number =>
    simp only [doc_step] at hs
    split_ifs at hs with h1
    simp only [Option.some.injEq] at hs
    subst hs
    exact hnp (some (format_d number)) h1 hc
  | number_double txt =>
    simp only [doc_step] at hs
    split_ifs at hs with h1
    simp only [Option.some.injEq] at hs
    subst hs
    exact hnp (some txt) h1.1 hc
  | add_true =>
    simp only [doc_step] at hs
    split_ifs at hs with h1
    simp only [Option.some.injEq] at hs
    subst hs
    exact hnum _ h1 hc
  | add_false => simp [doc_step] at hs
  | add_null =>
    simp only [doc_step] at hs
    split_ifs at hs with h1
    simp only [Option.some.injEq] at hs
    subst hs
    exact hnum _ h1 hc

theorem legal_calls_of_not_write (os : List json_op) (j : json) (hw : j.do_write = false) :
    legal_calls j os = true := by
  cases os with
  | nil => rfl
  | cons o os => simp [legal_calls, hw]

/-- A sequence of calls that builds a document on the caller's side is legal in every writer
whose frames are the caller's, whatever its capacity and indentation setting. -/
theorem doc_calls_legal (os : List json_op) (d : doc_state) (j : json) (hi : doc_inv j)
    (hv : view d j) (h : doc_calls d os = true) : legal_calls j os = true := by
  induction os generalizing d j with
  | nil => rfl
  | cons o os ih =>
    by_cases hw : j.do_write = true
    · simp only [doc_calls] at h
      cases hs : doc_step d o with
      | none => rw [hs] at h; exact absurd h (by simp)
      | some d1 =>
        rw [hs] at h
        have hlg := view_legal d d1 j o hv hi.1.1 hs
        obtain ⟨j1, hc, hi1⟩ := doc_inv_call j o hi hlg
        simp only [legal_calls, hw, Bool.not_true, Bool.false_or, hlg, Bool.true_and, hc]
        by_cases hw1 : j1.do_write = true
        · exact ih d1 j1 hi1 (view_call d d1 j j1 o hi hw hv hs hc hw1) h
        · exact legal_calls_of_not_write os j1 (by simpa using hw1)
    · exact legal_calls_of_not_write _ j (by simpa using hw)

/-- A sequence of calls that builds a document on the caller's side is legal after
`json_init`, for every capacity and indentation setting. -/
theorem doc_calls_legal_init (os : List json_op) (j0 : json) (len do_indent : Int)
    (h : doc_calls doc_start os = true) :
    legal_calls (json_init j0 len do_indent) os = true :=
  doc_calls_legal os doc_start _ (doc_inv_init j0 len do_indent) (view_init j0 len do_indent) h

/-- A JSON text that neither begins nor ends with whitespace is a value. -/
theorem Json.value_of_element {s : List CChar} (h : Json .element s)
    (hh : s.head?.map is_ws = some false) (hl : s.getLast?.map is_ws = some false) :
    Json .value s := by
  generalize hs : s = t at h
  cases h with
  | element w1 v w2 h1 hv h2 =>
    have hw1 : w1 = [] := by
      cases w1 with
      | nil => rfl
      | cons c w1 =>
        subst hs
        simp only [all_ws, List.all_cons, Bool.and_eq_true] at h1
        simp [h1.1] at hh
    have hw2 : w2 = [] := by
      rcases List.eq_nil_or_concat w2 with rfl | ⟨w, c, rfl⟩
      · rfl
      · subst hs
        rw [List.concat_eq_append] at h2 hl
        rw [all_ws_append] at h2
        simp only [all_ws, List.all_cons, List.all_nil, Bool.and_true, Bool.and_eq_true] at h2
        rw [List.getLast?_append] at hl
        simp [h2.2] at hl
    subst hw1 hw2
    subst hs
    simpa using hv

/-- Two numbers with a comma between them are not a JSON text. -/
theorem not_is_json_text_two_values : ¬ is_json_text (cstr "1,2") := by
  intro h
  have hv := Json.value_of_element h (by decide) (by decide)
  generalize hs : cstr "1,2" = s at hv
  cases hv with
  | number s h => subst hs; exact absurd h (by decide)
  | _ => simp [cstr] at hs

/-- The letter `x` is not a JSON text. -/
theorem not_is_json_text_word : ¬ is_json_text (cstr "x") := by
  intro h
  have hv := Json.value_of_element h (by decide) (by decide)
  generalize hs : cstr "x" = s at hv
  cases hv with
  | number s h => subst hs; exact absurd h (by decide)
  | _ => simp [cstr] at hs

/-- Three quotes are not a JSON text. -/
theorem not_is_json_text_quotes : ¬ is_json_text (cstr "\"\"\"") := by
  intro h
  have hv := Json.value_of_element h (by decide) (by decide)
  generalize hs : cstr "\"\"\"" = s at hv
  cases hv with
  | number s h => subst hs; exact absurd h (by decide)
  | string b hb =>
    have hb2 : b = [34] := by
      have h1 : ([34] : List CChar) ++ [34] = b ++ [34] := by
        simpa [cstr] using hs
      exact (List.append_left_inj _).mp h1.symm
    subst hb2
    cases hb with
    | plain c s hp _ => exact absurd hp (by decide)
  | _ => simp [cstr] at hs

/-! ## The claims -/

/-- C1 (as stated, refuted): four runs after `json_init` without indentation that end
truncated, or with `json_finalize` called at depth 0, on bytes that are not a JSON value.
On a writer of capacity 8 a number of 9 bytes written at the root finds no room: the writer
becomes truncated with nothing written, and the empty text is not a JSON value.  On a
writer of capacity 100, which nothing truncates: two numbers written at the root leave
`1,2`; a number emitter given the text `x` leaves `x`; a quote appended unescaped to a
string leaves three quotes. -/
theorem C1_counterexample :
    (∃ j, json_calls (json_init json_zero 8 0)
          [.number_cat_pchar (cstr "123456789")] = some j ∧
      j.do_write = false ∧ j.buffer = [] ∧ ¬ is_json_text j.buffer) ∧
    (∃ j, json_calls (json_init json_zero 100 0)
          [.number_int 1, .number_int 2, .finalize] = some j ∧
      j.do_write = true ∧ j.level = 0 ∧ j.buffer = cstr "1,2" ∧ ¬ is_json_text j.buffer) ∧
    (∃ j, json_calls (json_init json_zero 100 0)
          [.number_cat_pchar (cstr "x"), .finalize] = some j ∧
      j.do_write = true ∧ j.level = 0 ∧ j.buffer = cstr "x" ∧ ¬ is_json_text j.buffer) ∧
    (∃ j, json_calls (json_init json_zero 100 0)
          [.push JSON_STRING [], .cat_pchar (cstr "\""), .pop, .finalize] = some j ∧
      j.do_write = true ∧ j.level = 0 ∧ j.buffer = cstr "\"\"\"" ∧
      ¬ is_json_text j.buffer) := by
  refine ⟨?_, ?_, ?_, ?_⟩
  · refine ⟨{ json_init json_zero 8 0 with do_write := false }, ?_, rfl, rfl,
      not_is_json_text_nil⟩
    have h : json_number_cat_pchar (json_init json_zero 8 0) (cstr "123456789") =
        json_close_all (json_init json_zero 8 0) := by
      unfold json_number_cat_pchar
      rw [if_neg (by decide), if_pos (by decide)]
    simp only [json_calls, json_call, h, json_close_all_of_level_le _ (show
      (json_init json_zero 8 0).level ≤ 0 by decide), Option.some_bind]
  · have hev : (json_calls (json_init json_zero 100 0)
        [.number_int 1, .number_int 2, .finalize]).map
        (fun j => (j.do_write, j.level, j.buffer)) = some (true, 0, cstr "1,2") := by decide
    cases hc : json_calls (json_init json_zero 100 0)
        [.number_int 1, .number_int 2, .finalize] with
    | none => rw [hc] at hev; exact absurd hev (by simp)
    | some j =>
      rw [hc] at hev
      simp only [Option.map_some', Option.some.injEq, Prod.mk.injEq] at hev
      exact ⟨j, rfl, hev.1, hev.2.1, hev.2.2, by rw [hev.2.2]; exact not_is_json_text_two_values⟩
  · have hev : (json_calls (json_init json_zero 100 0)
        [.number_cat_pchar (cstr "x"), .finalize]).map
        (fun j => (j.do_write, j.level, j.buffer)) = some (true, 0, cstr "x") := by decide
    cases hc : json_calls (json_init json_zero 100 0)
        [.number_cat_pchar (cstr "x"), .finalize] with
    | none => rw [hc] at hev; exact absurd hev (by simp)
    | some j =>
      rw [hc] at hev
      simp only [Option.map_some', Option.some.injEq, Prod.mk.injEq] at hev
      exact ⟨j, rfl, hev.1, hev.2.1, hev.2.2, by rw [hev.2.2]; exact not_is_json_text_word⟩
  · have hev : (json_calls (json_init json_zero 100 0)
        [.push JSON_STRING [], .cat_pchar (cstr "\""), .pop, .finalize]).map
        (fun j => (j.do_write, j.level, j.buffer)) = some (true, 0, cstr "\"\"\"") := by
      decide
    cases hc : json_calls (json_init json_zero 100 0)
        [.push JSON_STRING [], .cat_pchar (cstr "\""), .pop, .finalize] with
    | none => rw [hc] at hev; exact absurd hev (by simp)
    | some j =>
      rw [hc] at hev
      simp only [Option.map_some', Option.some.injEq, Prod.mk.injEq] at hev
      exact ⟨j, rfl, hev.1, hev.2.1, hev.2.2, by rw [hev.2.2]; exact not_is_json_text_quotes⟩

/-- C1 (amended): for every capacity and indentation setting and every sequence of calls
after `json_init` in which each call made while the writer is still writing is a legal step
of building a document (see `legal`; the calls made after a truncation are not
constrained, and by `doc_calls_legal_init` every sequence that builds a document on the
caller's side qualifies at every capacity), at every point of the sequence: the calls so
far have returned, a truncated writer is at depth 0, without indentation the cursor has not
passed the end of the buffer, and whenever the writer is at depth 0 (truncated, or back at
the root, where alone `json_finalize` is legal) with the cursor within the buffer, the
bytes between the buffer start and the cursor are only whitespace while no value has been
written at the root, and otherwise parse as a single well-formed JSON value. -/
theorem C1_validity_of_documents (j0 : json) (len do_indent : Int) (os : List json_op)
    (hlg : legal_calls (json_init j0 len do_indent) os = true) (n : Nat) :
    ∃ j, json_calls (json_init j0 len do_indent) (os.take n) = some j ∧
      (j.do_write = false → j.level = 0) ∧
      (do_indent = 0 → 0 ≤ len → j.p ≤ len) ∧
      (j.level = 0 → j.p ≤ len →
        if (j.stack 0).is_first then all_ws j.buffer = true else is_json_text j.buffer) := by
  obtain ⟨j, h1, h2, _, h4⟩ := doc_inv_calls (os.take n) _ (doc_inv_init j0 len do_indent)
    (legal_calls_take os n _ hlg)
  refine ⟨j, h1, h2.2.2, ?_, ?_⟩
  · intro hi hlen
    subst hi
    obtain ⟨j2, h5, h6⟩ := acct_calls len (os.take n) _ (acct_init j0 len hlen)
    rw [h1] at h5
    simp only [Option.some.injEq] at h5
    subst h5
    exact (acct_cursor len j h6).2
  · intro hl _
    rw [hl] at h4
    simp only [Int.toNat_zero, parents, Partial] at h4
    obtain ⟨hk, hc⟩ := h4
    rw [hk] at hc
    exact hc

/-- C1, an instance: the calls of `array_calls` build a document on the caller's side and
are legal in a buffer of 6 bytes; the second number finds no room, the rest of the calls is
made on the truncated writer, and the buffer holds `[1]`. -/
theorem C1_validity_of_documents_witness :
    doc_calls doc_start array_calls = true ∧
    legal_calls (json_init json_zero 6 0) array_calls = true ∧
    ∃ j, json_calls (json_init json_zero 6 0) (array_calls.take 6) = some j ∧
      j.do_write = false ∧ j.level = 0 ∧ j.p ≤ 6 ∧ j.buffer = cstr "[1]" ∧
      is_json_text j.buffer := by
  refine ⟨by decide, by decide, ?_⟩
  obtain ⟨j, h1, h2, h3, h4⟩ :=
    C1_validity_of_documents json_zero 6 0 array_calls (by decide) 6
  have hev : (json_calls (json_init json_zero 6 0) (array_calls.take 6)).map
      (fun j => (j.do_write, j.buffer, (j.stack 0).is_first)) =
      some (false, cstr "[1]", false) := by decide
  rw [h1] at hev
  simp only [Option.map_some', Option.some.injEq, Prod.mk.injEq] at hev
  obtain ⟨hw, hb, hf⟩ := hev
  have hp := h3 rfl (by decide)
  have h5 := h4 (h2 hw) hp
  rw [hf] at h5
  exact ⟨j, h1, hw, h2 hw, hp, hb, by simpa using h5⟩

/-- C2 (the code at the failing input): on an indenting writer of capacity 56, seven nested
pushes (four arrays, an object, its attribute, an object as its value) all fit and leave
`avalaible = 0`; the next push finds no room and runs the forced closure, after which 57
bytes lie between the buffer start and the cursor, one more than the capacity (the depth is
0 and the latch is cleared). -/
theorem C2_overrun_with_indentation :
    (json_calls (json_init json_zero 56 1) (nested_push_calls.take 7)).map
        (fun j => (j.avalaible, j.level, j.do_write)) = some (0, 7, true) ∧
    (json_calls (json_init json_zero 56 1) nested_push_calls).map
        (fun j => (j.p, j.len, j.level, j.do_write)) = some (57, 56, 0, false) := by
  constructor <;> decide

/-- C3 (the code at the failing input): on an indenting writer of capacity 16, an object
opened as the value of an attribute reserves 2 bytes, and its pop stores 3 (newline, tab,
closing brace): `avalaible` is -1 afterwards. -/
theorem C3_negative_avalaible_with_indentation :
    (json_calls (json_init json_zero 16 1) (object_in_attr_calls.take 3)).map
        (fun j => (j.avalaible, (j.stack j.level).reserved, (closing j).length)) =
      some (0, 2, 3) ∧
    (json_calls (json_init json_zero 16 1) object_in_attr_calls).map
        (fun j => (j.avalaible, j.do_write)) = some (-1, true) := by
  constructor <;> decide

/-- C4 (latch): once `do_write` is cleared, every operation of the interface other than
`json_init` (with any arguments) returns the writer as it was: buffer, cursor, `avalaible`,
`level`, the frame stack and the latch itself are unchanged. -/
theorem C4_latch (j : json) (o : json_op) (hw : j.do_write = false) :
    json_call j o = some j := by
  have hpush : ∀ elt name, json_push j elt name = some j := by
    intro elt name; simp [json_push, hw]
  have hpop : json_pop j = j := json_pop_of_not_write j hw
  have hnum : ∀ cat, json_number_cat_pchar j cat = some j := by
    intro cat; simp [json_number_cat_pchar, hw]
  have hnp : ∀ txt, json_number_printf j txt = some j := by
    intro txt; simp [json_number_printf, hw]
  cases o with
  | push elt name => exact hpush elt name
  | pop => simp [json_call, hpop]
  | finalize => simp [json_call, json_finalize, hw]
  | printf txt => simp [json_call, json_printf, hw]
  | cat_pchar cat => simp [json_call, json_cat_pchar, hw]
  | cat_escaped_pchar cat => simp [json_call, json_cat_escaped_pchar, hw]
  | string_printf txt => simp [json_call, json_string_printf, hw]
  | string_cat_pchar cat => simp [json_call, json_string_cat_pchar, hpush, json_cat_pchar, hw, hpop]
  | string_cat_escaped_pchar cat =>
    simp [json_call, json_string_cat_escaped_pchar, hpush, json_cat_escaped_pchar, hw, hpop]
  | number_cat_pchar cat => exact hnum cat
  | number_printf txt => exact hnp txt
  | number_int number => exact hnp (some (format_d number))
  | number_double txt => exact hnp (some txt)
  | add_true => exact hnum _
  | add_false => exact hnum _
  | add_null => exact hnum _

/-- C4, an instance: a single-shot string on a truncated writer. -/
theorem C4_latch_witness :
    truncated_writer.do_write = false ∧
      json_call truncated_writer (.string_cat_pchar (cstr "abc")) = some truncated_writer :=
  ⟨rfl, C4_latch truncated_writer _ rfl⟩

/-- C5 (push without room): for a write-enabled writer below the maximum depth whose top
frame is not a string, a push of a container kind with
`avalaible < write_size + close_size` stores no separator and no opening byte: the result
is the writer after `level` calls of `json_pop` (each open frame closed in turn), with
`level` 0 and `do_write` cleared. -/
theorem C5_push_without_room (j : json) (elt : json_types) (name : List CChar)
    (hw : j.do_write = true) (hl0 : 0 ≤ j.level) (hl : j.level < JSON_STACK_DEEP - 1)
    (he : is_pushable elt = true) (ht : (j.stack j.level).elt ≠ JSON_STRING)
    (hc : j.avalaible < json_push_write_size j elt name + json_push_close_size j elt) :
    json_push j elt name = some { json_pop^[j.level.toNat] j with do_write := false } ∧
      (json_pop^[j.level.toNat] j).level = 0 := by
  rw [json_push_full j elt name hw hl he ht hc, json_close_all_eq j hw hl0]
  exact ⟨rfl, (json_close_all_loop_eq j.level.toNat j hw (by omega)).2.1⟩

/-- C5, an instance: an array pushed into an open object with one byte left; the buffer
ends as `{}`. -/
theorem C5_push_without_room_witness :
    (object_open_writer.do_write = true ∧ 0 ≤ object_open_writer.level ∧
      object_open_writer.level < JSON_STACK_DEEP - 1 ∧ is_pushable JSON_ARRAY = true ∧
      (object_open_writer.stack object_open_writer.level).elt ≠ JSON_STRING ∧
      object_open_writer.avalaible <
        json_push_write_size object_open_writer JSON_ARRAY [] +
          json_push_close_size object_open_writer JSON_ARRAY) ∧
    (json_push object_open_writer JSON_ARRAY [] =
        some { json_pop^[object_open_writer.level.toNat] object_open_writer with
               do_write := false } ∧
      (json_pop^[object_open_writer.level.toNat] object_open_writer).level = 0) ∧
    (json_pop^[object_open_writer.level.toNat] object_open_writer).buffer = cstr "\x7b\x7d" :=
  ⟨⟨rfl, by decide, by decide, rfl, by decide, by decide⟩,
   C5_push_without_room object_open_writer JSON_ARRAY [] rfl (by decide) (by decide) rfl
     (by decide) (by decide), by decide⟩

/-- C6 (as stated, refuted): after `json_init` with capacity 5 and no indentation, the push
of an object does not leave the document `{}` in a truncated writer. -/
theorem C6_counterexample :
    ¬ ∃ j, json_push (json_init json_zero 5 0) JSON_OBJECT [] = some j ∧
        j.buffer = cstr "\x7b\x7d" ∧ j.do_write = false := by
  rintro ⟨j, h, _, hw⟩
  rw [json_push_ok _ JSON_OBJECT [] rfl (by decide) rfl (by decide) (by decide)] at h
  simp only [Option.some.injEq] at h
  rw [← h] at hw
  exact absurd hw (by decide)

/-- C6 (amended): after `json_init` with capacity 5 and no indentation, the push of an object
fits (2 of the 5 bytes are needed): the written bytes are `{`, one byte is reserved for the
closing brace, 3 bytes remain, the depth is 1 and the writer is not truncated; a `json_pop`,
or the forced closure, then completes the document `{}`. -/
theorem C6_init_push_object (j0 : json) :
    ∃ j, json_push (json_init j0 5 0) JSON_OBJECT [] = some j ∧
      j.buffer = cstr "\x7b" ∧ j.do_write = true ∧ j.level = 1 ∧ j.avalaible = 3 ∧
      (j.stack 1).reserved = 1 ∧
      (json_pop j).buffer = cstr "\x7b\x7d" ∧ (json_pop j).level = 0 ∧
      ∃ j1, json_close_all j = some j1 ∧ j1.buffer = cstr "\x7b\x7d" ∧ j1.level = 0 ∧
        j1.do_write = false := by
  have hpush : json_push (json_init j0 5 0) JSON_OBJECT [] = some
      { buffer := [123], len := 5, avalaible := 3, do_write := true, do_indent := false,
        level := 1,
        stack := stack_set (stack_set (stack_set j0.stack 0 ⟨true, 0, JSON_ANY⟩) 0
          ⟨false, 0, JSON_ANY⟩) 1 ⟨true, 1, JSON_OBJECT⟩ } := by
    rw [json_push_ok _ JSON_OBJECT [] rfl (by simp [json_init, JSON_STACK_DEEP]) rfl
      (by simp [json_init, stack_set])
      (by simp [json_init, stack_set, json_push_write_size, json_push_close_size,
        json_check_separator_len])]
    simp [json_init, stack_set, json_push_close_size, json_check_separator_len, separator,
      opening]
  refine ⟨_, hpush, rfl, rfl, rfl, rfl, rfl, ?_, ?_, ?_⟩
  · rw [json_pop_eq _ rfl (by simp)]
    simp [closing, stack_set, cstr]
  · rw [json_pop_eq _ rfl (by simp)]
    simp
  · refine ⟨_, json_close_all_eq _ rfl (by simp), ?_, ?_, rfl⟩
    · simp only [show ((1 : Int).toNat) = 1 from rfl, Function.iterate_one]
      rw [json_pop_eq _ rfl (by simp)]
      simp [closing, stack_set, cstr]
    · simp only [show ((1 : Int).toNat) = 1 from rfl, Function.iterate_one]
      rw [json_pop_eq _ rfl (by simp)]
      simp

/-- C7 (as stated, refuted): two write-enabled writers with ample remaining capacity on
which `json_push(JSON_ATTR, "k")` followed at once by `json_pop` does not append `"k":null`
and does not restore the depth.  After nineteen nested arrays in a buffer of 100 bytes (62
bytes available) the push is rejected at the maximum depth and the pop closes the innermost
array: `]` is appended and the depth goes from 19 to 18.  In a string opened in a buffer of
100 bytes (98 bytes available) the push is rejected under the string and the pop closes the
string: `"` is appended and the depth goes from 1 to 0. -/
theorem C7_counterexample :
    (json_calls (json_init json_zero 100 0) deep_array_calls).map
        (fun j => (j.do_write, j.level, j.avalaible, j.buffer)) =
      some (true, 19, 62, List.replicate 19 91) ∧
    (json_calls (json_init json_zero 100 0)
        (deep_array_calls ++ [.push JSON_ATTR (cstr "k"), .pop])).map
        (fun j => (j.do_write, j.level, j.avalaible, j.buffer)) =
      some (true, 18, 62, List.replicate 19 91 ++ cstr "]") ∧
    (json_calls (json_init json_zero 100 0) [.push JSON_STRING []]).map
        (fun j => (j.do_write, j.level, j.avalaible, j.buffer)) =
      some (true, 1, 98, cstr "\"") ∧
    (json_calls (json_init json_zero 100 0)
        [.push JSON_STRING [], .push JSON_ATTR (cstr "k"), .pop]).map
        (fun j => (j.do_write, j.level, j.avalaible, j.buffer)) =
      some (true, 0, 98, cstr "\"\"") := by
  refine ⟨by decide, by decide, by decide, by decide⟩

/-- C7 (amended): on a write-enabled writer below the maximum depth whose top frame is not a
string, and on which the push passes its capacity check (`write_size + close_size`, one
byte more than the bytes appended, at most `avalaible`),
`json_push(JSON_ATTR, name)` followed at once by `json_pop` appends, after the separator,
exactly `"` + escaped name + `":null`; the depth is restored, the frame held a reservation
of 4 bytes that the pop gave back, and `avalaible` has dropped by exactly the number of
bytes appended.  On a fresh writer without indentation (capacity at least 9) the name `k`
gives the output `"k":null`.  The escaped name is what `json_escape_char_len` stores: the
escape mapping of the specification for every name of bytes below 0x80, and for every
name where `char` is unsigned. -/
theorem C7_attribute_default (j : json) (name : List CChar)
    (hw : j.do_write = true) (hl0 : 0 ≤ j.level) (hl : j.level < JSON_STACK_DEEP - 1)
    (ht : (j.stack j.level).elt ≠ JSON_STRING)
    (hc : json_push_write_size j JSON_ATTR name + json_push_close_size j JSON_ATTR
            ≤ j.avalaible) :
    (∃ j1, json_push j JSON_ATTR name = some j1 ∧
      (j1.stack j1.level).reserved = 4 ∧
      (json_pop j1).buffer = j.buffer ++ separator j ++ (34 :: escaped name ++ cstr "\":null") ∧
      (json_pop j1).level = j.level ∧
      (json_pop j1).do_write = true ∧
      (json_pop j1).avalaible =
        j.avalaible - ((separator j ++ (34 :: escaped name ++ cstr "\":null")).length : Int)) ∧
    (∀ (j0 : json) (len : Int), 9 ≤ len →
      (json_push (json_init j0 len 0) JSON_ATTR (cstr "k")).map (fun j1 => (json_pop j1).buffer)
        = some (cstr "\"k\":null")) ∧
    (∀ bs : List Nat, (∀ b ∈ bs, b < 128) → escaped (bs.map signed_char) = spec_escaped bs) ∧
    (∀ bs : List Nat, (∀ b ∈ bs, b < 256) →
      escaped (bs.map unsigned_char) = spec_escaped bs) := by
  have key : ∀ (j : json) (name : List CChar), j.do_write = true → 0 ≤ j.level →
      j.level < JSON_STACK_DEEP - 1 → (j.stack j.level).elt ≠ JSON_STRING →
      json_push_write_size j JSON_ATTR name + json_push_close_size j JSON_ATTR ≤ j.avalaible →
      ∃ j1, json_push j JSON_ATTR name = some j1 ∧
        (j1.stack j1.level).reserved = 4 ∧
        (json_pop j1).buffer =
          j.buffer ++ separator j ++ (34 :: escaped name ++ cstr "\":null") ∧
        (json_pop j1).level = j.level ∧
        (json_pop j1).do_write = true ∧
        (json_pop j1).avalaible =
          j.avalaible -
            ((separator j ++ (34 :: escaped name ++ cstr "\":null")).length : Int) := by
    intro j name hw hl0 hl ht hc
    have hcl : cstr "\":null" = [34, 58, 110, 117, 108, 108] := by rfl
    have hp := json_push_ok j JSON_ATTR name hw hl rfl ht hc
    obtain ⟨j1, hj1⟩ : ∃ j1 : json, j1 =
        { j with
          buffer := j.buffer ++ separator j ++ opening JSON_ATTR name
          avalaible := j.avalaible - json_check_separator_len j -
            ((opening JSON_ATTR name).length : Int) - json_push_close_size j JSON_ATTR
          level := j.level + 1
          stack := stack_set (stack_set j.stack j.level
              { j.stack j.level with is_first := false })
            (j.level + 1) ⟨true, json_push_close_size j JSON_ATTR, JSON_ATTR⟩ } := ⟨_, rfl⟩
    rw [← hj1] at hp
    have h1w : j1.do_write = true := by rw [hj1]; exact hw
    have h1l : 0 < j1.level := by rw [hj1]; simp only; omega
    have hs := separator_length j
    refine ⟨j1, hp, ?_, ?_, ?_, ?_, ?_⟩
    · rw [hj1]; simp [json_push_close_size_attr]
    · rw [json_pop_eq j1 h1w h1l, hj1]
      simp [closing, opening, hcl, cstr_null]
    · rw [json_pop_eq j1 h1w h1l, hj1]
      simp
    · rw [json_pop_do_write]; exact h1w
    · rw [json_pop_eq j1 h1w h1l, hj1]
      simp [closing, opening, hcl, cstr_null, json_push_close_size_attr]
      omega
  refine ⟨key j name hw hl0 hl ht hc, ?_, escaped_signed_low, escaped_unsigned⟩
  intro j0 len hlen
  obtain ⟨j1, h1, _, h3, _⟩ := key (json_init j0 len 0) (cstr "k") rfl
    (by simp [json_init]) (by simp [json_init, JSON_STACK_DEEP]) (by simp [json_init])
    (by
      have hk : json_escape_char_get_len (cstr "k") = 1 := by decide
      simp [json_init, json_push_write_size, json_push_close_size, json_check_separator_len, hk]
      omega)
  rw [h1]
  simp only [Option.map_some', h3]
  have hs : separator (json_init j0 len 0) = [] := by simp [separator, json_init]
  rw [hs]
  rfl

/-- C7, an instance: the attribute `a/b` pushed into an open object with 12 bytes left and
popped at once; the push asked for all 12 bytes and 11 are written. -/
theorem C7_attribute_default_witness :
    (object_open_writer_12.do_write = true ∧ 0 ≤ object_open_writer_12.level ∧
      object_open_writer_12.level < JSON_STACK_DEEP - 1 ∧
      (object_open_writer_12.stack object_open_writer_12.level).elt ≠ JSON_STRING ∧
      json_push_write_size object_open_writer_12 JSON_ATTR (cstr "a/b") +
        json_push_close_size object_open_writer_12 JSON_ATTR ≤ object_open_writer_12.avalaible) ∧
    ∃ j1, json_push object_open_writer_12 JSON_ATTR (cstr "a/b") = some j1 ∧
      (json_pop j1).buffer = cstr "\x7b\"a\\/b\":null" ∧ (json_pop j1).level = 1 ∧
      (json_pop j1).avalaible = 1 := by
  refine ⟨⟨rfl, by decide, by decide, by decide, by decide⟩, ?_⟩
  obtain ⟨⟨j1, h1, _, h3, h4, _, h6⟩, _⟩ :=
    C7_attribute_default object_open_writer_12 (cstr "a/b") rfl (by decide) (by decide)
      (by decide) (by decide)
  refine ⟨j1, h1, ?_, h4, ?_⟩
  · rw [h3]; decide
  · rw [h6]; decide

/-- C8 (comma correctness, no indentation): for every list of (name, number text) pairs and
a capacity with 5 bytes to spare over the text of the object, `json_init` without
indentation, a push of an object, then for each pair a push of the attribute, the number
emitter and a pop, then a final pop, write exactly `{` + the items
`"` + escaped name + `":` + number joined by single commas + `}`: no comma before the first
item, none after the last, none between a name and its value; the writer is back at depth 0
and not truncated.  For the pairs (a,1), (b,2) the text is `{"a":1,"b":2}`. -/
theorem C8_comma_correctness (j0 : json) (len : Int) (ps : List (List CChar × List CChar))
    (hc : ((object_text ps).length : Int) + 5 ≤ len) :
    (∃ j, json_calls (json_init j0 len 0) (object_calls ps) = some j ∧
      j.buffer = object_text ps ∧ j.level = 0 ∧ j.do_write = true) ∧
    object_text [(cstr "a", cstr "1"), (cstr "b", cstr "2")] = cstr "\x7b\"a\":1,\"b\":2\x7d" := by
  refine ⟨?_, by decide⟩
  have hlen : ((object_text ps).length : Int) = ((items_text true ps).length : Int) + 2 := by
    simp [object_text, items_text_true]
    omega
  rw [hlen] at hc
  have hp := json_push_ok (json_init j0 len 0) JSON_OBJECT [] rfl
    (by simp [json_init, JSON_STACK_DEEP]) rfl (by simp [json_init])
    (by simp [json_init, json_push_write_size, json_push_close_size, json_check_separator_len]
        omega)
  obtain ⟨jA, hjA⟩ : ∃ jA : json, jA =
      { buffer := [123], len := len, avalaible := len - 2, do_write := true, do_indent := false,
        level := 1,
        stack := stack_set (stack_set (stack_set j0.stack 0 ⟨true, 0, JSON_ANY⟩) 0
          ⟨false, 0, JSON_ANY⟩) 1 ⟨true, 1, JSON_OBJECT⟩ } := ⟨_, rfl⟩
  have hpA : json_push (json_init j0 len 0) JSON_OBJECT [] = some jA := by
    rw [hp, hjA]
    simp [json_init, json_push_close_size, json_check_separator_len, separator, opening]
    omega
  have hA1 : jA.stack 1 = ⟨true, 1, JSON_OBJECT⟩ := by rw [hjA]; simp
  obtain ⟨jB, hB, hBb, _, hBw, hBi, hBl, hBe, _⟩ :=
    attrs_calls_run ps jA (by rw [hjA]) (by rw [hjA]) (by rw [hjA]) (by rw [hA1])
      (by rw [hA1, hjA]; simp only; omega)
  rw [hA1] at hBb
  have hcl : closing jB = [125] := by simp [closing, hBi, hBl, hBe]
  refine ⟨json_pop jB, ?_, ?_, ?_, ?_⟩
  · simp [object_calls, json_calls, json_call, hpA, json_calls_append, hB]
  · rw [json_pop_eq jB hBw (by omega), hcl]
    simp [hBb, hjA, object_text, items_text_true]
  · rw [json_pop_level jB hBw (by omega), hBl]; rfl
  · rw [json_pop_do_write]; exact hBw

/-- C8, an instance: the pairs (a,1), (b,2) with capacity 18. -/
theorem C8_comma_correctness_witness :
    ((object_text [(cstr "a", cstr "1"), (cstr "b", cstr "2")]).length : Int) + 5 ≤ 18 ∧
    ∃ j, json_calls (json_init json_zero 18 0)
          (object_calls [(cstr "a", cstr "1"), (cstr "b", cstr "2")]) = some j ∧
      j.buffer = cstr "\x7b\"a\":1,\"b\":2\x7d" ∧ j.level = 0 ∧ j.do_write = true := by
  refine ⟨by decide, ?_⟩
  obtain ⟨⟨j, h1, h2, h3, h4⟩, h5⟩ :=
    C8_comma_correctness json_zero 18 [(cstr "a", cstr "1"), (cstr "b", cstr "2")] (by decide)
  exact ⟨j, h1, by rw [h2, h5], h3, h4⟩

/-- C9 (indentation layout): on an indenting, write-enabled writer with an open frame and
room for the write,
* under an object or array, every child (a pushed attribute, container or string, or a
  number or literal) is preceded by a comma unless it is the first child, then a newline
  and one tab per object or array frame open at that moment;
* the closing byte of an object or array is preceded by a newline and one tab per
  enclosing object or array frame;
* under an attribute a value is stored with no comma, newline or tab before it.
The number of tabs is the number of indices of the stack, up to the level, that hold an
object or array.  With capacity 64 the object with the attributes a = 1 and b = 2 is
written as `{\n\t"a":1,\n\t"b":2\n}`, and `json_finalize` then appends one newline. -/
theorem C9_indentation_layout (j : json) (hw : j.do_write = true) (hi : j.do_indent = true)
    (hl : 0 < j.level) :
    (is_indented (j.stack j.level).elt = true →
      (∀ elt name, j.level < JSON_STACK_DEEP - 1 → is_pushable elt = true →
        json_push_write_size j elt name + json_push_close_size j elt ≤ j.avalaible →
        (json_push j elt name).map (fun j1 => j1.buffer) =
          some (j.buffer ++ child_lead j ++ opening elt name)) ∧
      (∀ cat : List CChar, (cat.length : Int) + json_check_separator_len j ≤ j.avalaible →
        (json_number_cat_pchar j cat).map (fun j1 => j1.buffer) =
          some (j.buffer ++ child_lead j ++ cat)) ∧
      (∀ t : List CChar, (t.length : Int) + json_check_separator_len j + 1 ≤ j.avalaible →
        (json_number_printf j (some t)).map (fun j1 => j1.buffer) =
          some (j.buffer ++ child_lead j ++ t)) ∧
      (json_pop j).buffer = j.buffer ++ close_lead j ++
        [if (j.stack j.level).elt = JSON_OBJECT then 125 else 93]) ∧
    ((j.stack j.level).elt = JSON_ATTR →
      (∀ elt name, j.level < JSON_STACK_DEEP - 1 → is_pushable elt = true →
        json_push_write_size j elt name + json_push_close_size j elt ≤ j.avalaible →
        (json_push j elt name).map (fun j1 => j1.buffer) = some (j.buffer ++ opening elt name)) ∧
      (∀ cat : List CChar, (cat.length : Int) + json_check_separator_len j ≤ j.avalaible →
        (json_number_cat_pchar j cat).map (fun j1 => j1.buffer) = some (j.buffer ++ cat)) ∧
      (∀ t : List CChar, (t.length : Int) + json_check_separator_len j + 1 ≤ j.avalaible →
        (json_number_printf j (some t)).map (fun j1 => j1.buffer) = some (j.buffer ++ t))) ∧
    (count_tabs j.stack (j.level + 1).toNat =
        ((List.range (j.level + 1).toNat).filter
          (fun (i : Nat) => is_indented (j.stack (i : Int)).elt)).length ∧
      count_tabs j.stack j.level.toNat =
        ((List.range j.level.toNat).filter
          (fun (i : Nat) => is_indented (j.stack (i : Int)).elt)).length) ∧
    ((json_calls (json_init json_zero 64 1) object_ab_calls).map (fun j1 => j1.buffer) =
        some (cstr "\x7b\n\t\"a\":1,\n\t\"b\":2\n\x7d") ∧
      (json_calls (json_init json_zero 64 1) (object_ab_calls ++ [.finalize])).map
          (fun j1 => j1.buffer) =
        some (cstr "\x7b\n\t\"a\":1,\n\t\"b\":2\n\x7d" ++ [10])) := by
  have hnum : ∀ cat : List CChar, (cat.length : Int) + json_check_separator_len j ≤ j.avalaible →
      (json_number_cat_pchar j cat).map (fun j1 => j1.buffer) =
        some (j.buffer ++ separator j ++ cat) := by
    intro cat hc
    unfold json_number_cat_pchar
    rw [if_neg (by simp [hw]), if_neg (by omega)]
    simp [json_check_separator_write_eq, json_cat_pchar_noctl]
  have hnp : ∀ t : List CChar, (t.length : Int) + json_check_separator_len j + 1 ≤ j.avalaible →
      (json_number_printf j (some t)).map (fun j1 => j1.buffer) =
        some (j.buffer ++ separator j ++ t) := by
    intro t hc
    unfold json_number_printf
    rw [if_neg (by simp [hw])]
    simp only
    rw [if_neg (by omega)]
    simp [json_check_separator_write_eq]
  have hpush : ∀ elt name, (j.stack j.level).elt ≠ JSON_STRING →
      j.level < JSON_STACK_DEEP - 1 → is_pushable elt = true →
      json_push_write_size j elt name + json_push_close_size j elt ≤ j.avalaible →
      (json_push j elt name).map (fun j1 => j1.buffer) =
        some (j.buffer ++ separator j ++ opening elt name) := by
    intro elt name ht hl1 he hc
    rw [json_push_ok j elt name hw hl1 he ht hc]
    rfl
  refine ⟨?_, ?_, ⟨count_tabs_eq_filter _ _, count_tabs_eq_filter _ _⟩, by decide, by decide⟩
  · intro hk
    have hk2 : (j.stack j.level).elt = JSON_OBJECT ∨ (j.stack j.level).elt = JSON_ARRAY := by
      simpa [is_indented] using hk
    have hsep : separator j = child_lead j := by
      rcases hk2 with h | h <;> simp [separator, child_lead, h, hi, hl]
    rw [← hsep]
    refine ⟨fun elt name => hpush elt name (by rcases hk2 with h | h <;> simp [h]), hnum, hnp, ?_⟩
    rw [json_pop_eq j hw hl]
    rcases hk2 with h | h <;> simp [closing, close_lead, h, hi]
  · intro hk
    have hsep : separator j = [] := by simp [separator, hk]
    rw [hsep] at hnum hnp hpush
    simp only [List.append_nil] at hnum hnp hpush
    exact ⟨fun elt name => hpush elt name (by simp [hk]), hnum, hnp⟩

/-- C9, an instance: the first attribute of an open object, and the closing of the
object while it is empty. -/
theorem C9_indentation_layout_witness :
    (indent_object_writer.do_write = true ∧ indent_object_writer.do_indent = true ∧
      0 < indent_object_writer.level) ∧
    (json_push indent_object_writer JSON_ATTR (cstr "a")).map (fun j1 => j1.buffer) =
      some (cstr "\x7b\n\t\"a\":") ∧
    (json_pop indent_object_writer).buffer = cstr "\x7b\n\x7d" := by
  have h := (C9_indentation_layout indent_object_writer rfl rfl (by decide)).1 (by decide)
  refine ⟨⟨rfl, rfl, by decide⟩, ?_, ?_⟩
  · rw [h.1 JSON_ATTR (cstr "a") (by decide) rfl (by decide)]
    decide
  · rw [h.2.2.2]
    decide

/-- C10 (depth limit): every sequence of calls after `json_init` returns, in a state with
`0 <= level < JSON_STACK_DEEP`; and in such a state at `level = JSON_STACK_DEEP - 1` a push
of any element returns the writer unchanged (buffer, cursor, `avalaible`, `level`, stack). -/
theorem C10_depth_limit (j0 : json) (len do_indent : Int) (os : List json_op) :
    ∃ j, json_calls (json_init j0 len do_indent) os = some j ∧
      0 ≤ j.level ∧ j.level < JSON_STACK_DEEP ∧
      ∀ elt name, j.level = JSON_STACK_DEEP - 1 → json_push j elt name = some j := by
  obtain ⟨j, h1, h2⟩ := level_ok_calls os _ (level_ok_init j0 len do_indent)
  refine ⟨j, h1, h2.1, h2.2.1, ?_⟩
  intro elt name hl
  simp [json_push, hl]

/-- C10, an instance: after 19 nested arrays the level is 19 and a push changes nothing. -/
theorem C10_depth_limit_witness :
    ∃ j, json_calls (json_init json_zero 100 0)
          (List.replicate 19 (json_op.push JSON_ARRAY [])) = some j ∧
      j.level = JSON_STACK_DEEP - 1 ∧ json_push j JSON_OBJECT [] = some j := by
  obtain ⟨j, h1, _, _, h4⟩ :=
    C10_depth_limit json_zero 100 0 (List.replicate 19 (json_op.push JSON_ARRAY []))
  have hl : (json_calls (json_init json_zero 100 0)
      (List.replicate 19 (json_op.push JSON_ARRAY []))).map (fun j => j.level) = some 19 := by
    decide
  rw [h1] at hl
  have hl2 : j.level = JSON_STACK_DEEP - 1 := by simpa [JSON_STACK_DEEP] using hl
  exact ⟨j, h1, hl2, h4 _ _ hl2⟩

/-- C11 (the code at the failing input): after nineteen nested arrays the writer is
write-enabled at level 19 with an array on top; a single-shot string (`json_string_cat_pchar`
or `json_string_cat_escaped_pchar`) then stores the byte `]` and leaves the writer at level
18: its push is rejected, its append does nothing, and its pop closes the innermost array. -/
theorem C11_single_shot_string_at_max_depth :
    (json_calls (json_init json_zero 100 0) deep_array_calls).map
        (fun j => (j.do_write, j.level, (j.stack j.level).elt, j.buffer)) =
      some (true, 19, JSON_ARRAY, List.replicate 19 91) ∧
    (json_calls (json_init json_zero 100 0)
        (deep_array_calls ++ [.string_cat_pchar (cstr "x")])).map
        (fun j => (j.do_write, j.level, j.buffer)) =
      some (true, 18, List.replicate 19 91 ++ [93]) ∧
    (json_calls (json_init json_zero 100 0)
        (deep_array_calls ++ [.string_cat_escaped_pchar (cstr "x")])).map
        (fun j => (j.do_write, j.level, j.buffer)) =
      some (true, 18, List.replicate 19 91 ++ [93]) := by
  refine ⟨by decide, by decide, by decide⟩

/-- C12 (as stated, refuted): in a string frame with 6 bytes available the text of the one
byte 0x01 has escaped length 6, which is not more than the 6 bytes available; yet
`json_cat_escaped_pchar` stores nothing of it and runs the forced closure: the buffer
ends as `""` and the writer is truncated. -/
theorem C12_counterexample :
    string_open_writer.do_write = true ∧
    (string_open_writer.stack string_open_writer.level).elt = JSON_STRING ∧
    json_escape_char_get_len [1] ≤ string_open_writer.avalaible ∧
    (json_cat_escaped_pchar string_open_writer [1]).map
        (fun j => (j.buffer, j.do_write, j.level)) = some (cstr "\"\"", false, 0) := by
  refine ⟨rfl, by decide, by decide, by decide⟩

/-- C12 (amended): for every text `s` and every write-enabled writer whose top frame is a
string, `json_cat_escaped_pchar` appends the complete escaped form of `s`, taking exactly
`json_escape_char_get_len s` bytes from `avalaible` and leaving the writer write-enabled,
if `avalaible` is at least `escape_room s`: the escaped length, plus one byte when the last
character of `s` is escaped in the `\u` form (the byte the code keeps for the NUL that
`sprintf` stores).  With fewer bytes available the forced closure is triggered. -/
theorem C12_escaped_append_gate (j : json) (s : List CChar) (hw : j.do_write = true)
    (hl : 0 ≤ j.level) (ht : (j.stack j.level).elt = JSON_STRING) :
    (escape_room s ≤ j.avalaible →
      json_cat_escaped_pchar j s =
        some { j with buffer := j.buffer ++ escaped s,
                      avalaible := j.avalaible - json_escape_char_get_len s }) ∧
    (j.avalaible < escape_room s →
      ∃ j1, json_cat_escaped_pchar j s = some j1 ∧ j1.do_write = false ∧ j1.level = 0) := by
  have hroom : json_escape_char_get_len s ≤ escape_room s := by
    unfold escape_room
    split_ifs <;> omega
  unfold json_cat_escaped_pchar
  rw [if_neg (by simp [hw]), if_neg (by simp [ht])]
  constructor
  · intro h
    rw [if_neg (by omega)]
    exact json_escape_char_len_room s j h
  · intro h
    by_cases hg : json_escape_char_get_len s > j.avalaible
    · rw [if_pos hg, json_close_all_eq j hw hl]
      exact ⟨_, rfl, rfl, (json_close_all_loop_eq j.level.toNat j hw (by omega)).2.1⟩
    · rw [if_neg hg]
      exact json_escape_char_len_no_room s j hw hl (by omega) h

/-- C12, an instance: in the string frame with 6 bytes available the text `/a` (escaped
length 3) is appended whole, and the text of the byte 0x01 followed by `a` (escaped length
7) triggers the forced closure. -/
theorem C12_escaped_append_gate_witness :
    (string_open_writer.do_write = true ∧ 0 ≤ string_open_writer.level ∧
      (string_open_writer.stack string_open_writer.level).elt = JSON_STRING ∧
      escape_room (cstr "/a") ≤ string_open_writer.avalaible ∧
      string_open_writer.avalaible < escape_room [1, 97]) ∧
    (json_cat_escaped_pchar string_open_writer (cstr "/a")).map
        (fun j => (j.buffer, j.avalaible, j.do_write)) = some (cstr "\"\\/a", 3, true) ∧
    ∃ j1, json_cat_escaped_pchar string_open_writer [1, 97] = some j1 ∧ j1.do_write = false := by
  have h := C12_escaped_append_gate string_open_writer (cstr "/a") rfl (by decide) (by decide)
  have h2 := C12_escaped_append_gate string_open_writer [1, 97] rfl (by decide) (by decide)
  refine ⟨⟨rfl, by decide, by decide, by decide, by decide⟩, ?_, ?_⟩
  · rw [h.1 (by decide)]
    decide
  · obtain ⟨j1, h3, h4, _⟩ := h2.2 (by decide)
    exact ⟨j1, h3, h4⟩

/-- C13 (the code at the failing input): where `char` is signed the byte 0x80 is the
`char` -128; `sprintf` with `%04x` prints it as `ffffff80` and the cursor moves on by four
bytes, so with ample capacity the escaped append stores backslash, `u`, `ffff` (6 bytes, the
escaped length), where the specification gives backslash, `u`, `0080`. -/
theorem C13_escape_of_high_byte :
    signed_char 128 = -128 ∧
    sprintf_04x (signed_char 128) = cstr "ffffff80" ∧
    (json_calls (json_init json_zero 64 0) high_byte_calls).map
        (fun j => (j.buffer, j.do_write)) =
      some ([34, 92, 117, 102, 102, 102, 102], true) ∧
    json_escape_char_get_len [signed_char 128] = 6 ∧
    spec_escaped [128] = [92, 117, 48, 48, 56, 48] := by
  refine ⟨by decide, by decide, by decide, by decide, by decide⟩

/-- C14 (the code at the failing input): where `char` is signed, the bytes stored for the
byte string of the one byte 0x80 unescape to the character 0xffff (65535), not to the byte
0x80 (128). -/
theorem C14_round_trip_of_high_byte :
    (json_calls (json_init json_zero 64 0) high_byte_calls).map (fun j => j.buffer) =
      some (34 :: escaped [signed_char 128]) ∧
    json_unescape (escaped [signed_char 128]) = some [65535] ∧
    json_unescape (escaped [signed_char 128]) ≠ some [128] := by
  refine ⟨by decide, by decide, by decide⟩

/-- C15 (the code at the failing input): on a fresh writer of capacity 100 `json_add_false`
stores the four bytes `fals` (it passes the length 4 with the text `false`), while
`json_add_true` and `json_add_null` store `true` and `null`. -/
theorem C15_add_false_writes_fals :
    (json_add_false (json_init json_zero 100 0)).map (fun j => (j.buffer, j.do_write)) =
      some (cstr "fals", true) ∧
    (json_add_true (json_init json_zero 100 0)).map (fun j => j.buffer) = some (cstr "true") ∧
    (json_add_null (json_init json_zero 100 0)).map (fun j => j.buffer) = some (cstr "null") := by
  refine ⟨by decide, by decide, by decide⟩

/-- C16 (the code at the failing input): on a fresh writer (top frame the root) the push of
the attribute `k` is not ignored: it stores `"k":` and opens an attribute frame at level 1;
in an array the attribute is written too, and the two pops leave `["k":null]`. -/
theorem C16_attribute_under_non_object :
    (json_push (json_init json_zero 100 0) JSON_ATTR (cstr "k")).map
        (fun j => (j.buffer, j.level, (j.stack j.level).elt, j.avalaible)) =
      some (cstr "\"k\":", 1, JSON_ATTR, 92) ∧
    (json_calls (json_init json_zero 100 0)
        [.push JSON_ARRAY [], .push JSON_ATTR (cstr "k"), .pop, .pop]).map
        (fun j => j.buffer) = some (cstr "[\"k\":null]") := by
  refine ⟨by decide, by decide⟩

/-- C17 (the code at the failing input): in a buffer of 13 bytes, after an object, its
attribute `k` and an array, one byte is available.  The push inside `json_string_printf`
finds no room and runs the forced closure, which gives back the attribute's reservation;
`json_string_printf` then still stores its text: the buffer ends as `{"k":[]}ab`.  The
sequence push, `json_printf`, pop stores nothing after the closure: `{"k":[]}`. -/
theorem C17_string_printf_after_closure :
    (json_calls (json_init json_zero 13 0) array_in_attr_calls).map
        (fun j => (j.buffer, j.avalaible, j.level)) = some (cstr "\x7b\"k\":[", 1, 3) ∧
    (json_calls (json_init json_zero 13 0)
        (array_in_attr_calls ++ [.string_printf (some (cstr "ab"))])).map
        (fun j => (j.buffer, j.do_write, j.level)) =
      some (cstr "\x7b\"k\":[]\x7dab", false, 0) ∧
    (json_calls (json_init json_zero 13 0)
        (array_in_attr_calls ++
          [.push JSON_STRING [], .printf (some (cstr "ab")), .pop])).map
        (fun j => (j.buffer, j.do_write, j.level)) =
      some (cstr "\x7b\"k\":[]\x7d", false, 0) := by
  refine ⟨by decide, by decide, by decide⟩

/-- C18 (the code at the failing input): for the attribute `k` on a fresh writer without
indentation `json_push` computes `write_size = 5` and `close_size = 4`, and stores the 4
bytes `"k":`.  With capacity 8, the length of `"k":null`, the push finds no room (the
writer is truncated with nothing written); with capacity 9 it is accepted. -/
theorem C18_attribute_threshold :
    json_push_write_size (json_init json_zero 8 0) JSON_ATTR (cstr "k") = 5 ∧
    json_push_close_size (json_init json_zero 8 0) JSON_ATTR = 4 ∧
    (json_push (json_init json_zero 8 0) JSON_ATTR (cstr "k")).map
        (fun j => (j.buffer, j.do_write)) = some ([], false) ∧
    (json_push (json_init json_zero 9 0) JSON_ATTR (cstr "k")).map
        (fun j => (j.buffer, j.do_write, j.avalaible, (j.stack j.level).reserved)) =
      some (cstr "\"k\":", true, 1, 4) ∧
    (json_calls (json_init json_zero 9 0) [.push JSON_ATTR (cstr "k"), .pop]).map
        (fun j => (j.buffer, j.avalaible)) = some (cstr "\"k\":null", 1) := by
  refine ⟨by decide, by decide, by decide, by decide, by decide⟩

/-- C19 (accounting without indentation): for every capacity `len >= 0` and every sequence
of calls after `json_init` without indentation, the sequence returns and the state reached,
as well as every state that further calls of `json_pop` lead to (the states the forced
closure passes through), satisfies: the bytes written plus the sum of `reserved` over the
open frames plus `avalaible` equal the capacity, `avalaible >= 0`, and the cursor does not
pass the end of the buffer. -/
theorem C19_accounting_without_indentation (j0 : json) (len : Int) (hlen : 0 ≤ len)
    (os : List json_op) :
    ∃ j, json_calls (json_init j0 len 0) os = some j ∧
      ∀ n : Nat,
        (json_pop^[n] j).p +
            reserved_sum (json_pop^[n] j).stack (json_pop^[n] j).level.toNat +
            (json_pop^[n] j).avalaible = len ∧
          0 ≤ (json_pop^[n] j).avalaible ∧ (json_pop^[n] j).p ≤ len := by
  obtain ⟨j, h1, h2⟩ := acct_calls len os _ (acct_init j0 len hlen)
  refine ⟨j, h1, fun n => ?_⟩
  have h3 := acct_iterate_pop len n j h2
  have h4 := acct_cursor len _ h3
  exact ⟨h3.2.2.1, h4.1, h4.2⟩

/-- C19, an instance: the calls of `mixed_calls` in a buffer of 30 bytes; the number does not
fit and the writer ends truncated with 25 bytes written and 5 available. -/
theorem C19_accounting_without_indentation_witness :
    (0 : Int) ≤ 30 ∧
    ∃ j, json_calls (json_init json_zero 30 0) mixed_calls = some j ∧
      j.p + reserved_sum j.stack j.level.toNat + j.avalaible = 30 ∧ 0 ≤ j.avalaible ∧
      j.p ≤ 30 ∧ j.p = 25 ∧ j.do_write = false := by
  refine ⟨by decide, ?_⟩
  obtain ⟨j, h1, h2⟩ := C19_accounting_without_indentation json_zero 30 (by decide) mixed_calls
  have hev : (json_calls (json_init json_zero 30 0) mixed_calls).map
      (fun j => (j.p, j.do_write)) = some (25, false) := by decide
  rw [h1] at hev
  simp only [Option.map_some', Option.some.injEq, Prod.mk.injEq] at hev
  have h3 := h2 0
  simp only [Function.iterate_zero, id_eq] at h3
  exact ⟨j, h1, h3.1, h3.2.1, h3.2.2, hev.1, hev.2⟩

/-- C20 (a truncated writer has no open frame): every sequence of calls after `json_init`
returns (so no forced closure loops), in a state in which `do_write = false` implies
`level = 0` and from which the forced closure returns at level 0; and in such a state,
when a push of an attribute is accepted (writer enabled, below the maximum depth, top frame
not a string, capacity test passed), the escaping of the name stores the whole escaped name
without running the forced closure, and the push ends write-enabled one level up. -/
theorem C20_truncated_implies_closed (j0 : json) (len do_indent : Int) (os : List json_op) :
    ∃ j, json_calls (json_init j0 len do_indent) os = some j ∧
      (j.do_write = false → j.level = 0) ∧
      (∃ j1, json_close_all j = some j1 ∧ j1.level = 0 ∧ j1.do_write = false) ∧
      ∀ name : List CChar, j.do_write = true → j.level < JSON_STACK_DEEP - 1 →
        (j.stack j.level).elt ≠ JSON_STRING →
        json_push_write_size j JSON_ATTR name + json_push_close_size j JSON_ATTR ≤ j.avalaible →
        json_escape_char_len (json_add_char_noctl (json_check_separator_write j) 34) name =
            some { json_add_char_noctl (json_check_separator_write j) 34 with
                   buffer := (json_add_char_noctl (json_check_separator_write j) 34).buffer ++
                     escaped name
                   avalaible := (json_add_char_noctl (json_check_separator_write j) 34).avalaible
                     - json_escape_char_get_len name } ∧
          ∃ j2, json_push j JSON_ATTR name = some j2 ∧ j2.do_write = true ∧
            j2.level = j.level + 1 := by
  obtain ⟨j, h1, h2⟩ := level_ok_calls os _ (level_ok_init j0 len do_indent)
  obtain ⟨j1, h3, h4, h5, _⟩ := json_close_all_total j h2
  refine ⟨j, h1, h2.2.2, ⟨j1, h3, h4, h5⟩, ?_⟩
  intro name hw hl ht hc
  constructor
  · apply json_escape_char_len_ok
    have hn := json_escape_char_get_len_nonneg name
    have hcs := json_push_close_size_attr j
    have hws : json_push_write_size j JSON_ATTR name =
        json_check_separator_len j + json_escape_char_get_len name + 4 := by
      simp [json_push_write_size]; omega
    rw [hws, hcs] at hc
    simp only [json_add_char_noctl, json_check_separator_write_eq]
    omega
  · exact ⟨_, json_push_ok j JSON_ATTR name hw hl rfl ht hc, hw, rfl⟩

/-- C20, an instance: the calls of `mixed_calls` in a buffer of 30 bytes end in a truncated
writer at level 0. -/
theorem C20_truncated_implies_closed_witness :
    ∃ j, json_calls (json_init json_zero 30 0) mixed_calls = some j ∧
      j.do_write = false ∧ j.level = 0 := by
  obtain ⟨j, h1, h2, _⟩ := C20_truncated_implies_closed json_zero 30 0 mixed_calls
  have hev : (json_calls (json_init json_zero 30 0) mixed_calls).map
      (fun j => j.do_write) = some false := by decide
  rw [h1] at hev
  simp only [Option.map_some', Option.some.injEq] at hev
  exact ⟨j, h1, hev, h2 hev⟩

end JsonWriter
